import Mathlib

/-!
Reaction reconstruction of the KET loader (reaction_json_loader.cpp)

A shallow embedding of `ReactionJsonLoader`: `loadReaction`, `findPlusNeighbours`,
`parseMultipleArrowReaction`, `constructMultipleArrowReaction` and
`parseOneArrowReaction`.

Conventions of the embedding.
* Coordinates (`float` in the source) are exact integers: rounding, infinities and NaN are
  outside the model; every comparison the source makes is made here on exact numbers.
* Molecule fragments are opaque in the source; a fragment is named by its component index.
* `std::list` iterators are node identifiers; dereferencing an iterator that was never
  assigned, or whose node was erased, has no defined behaviour in the source and is the
  result `none` here. So is a `push_back` into a vector inside the range-for over that same
  vector.
-/

namespace Indigo

/-! ## Geometry (math/algebra.h, not part of the sources at hand) -/

/-- Two-dimensional point, `Vec2f` of the source. -/
structure Vec2f where
  x : Int
  y : Int
deriving DecidableEq, Repr, Inhabited

/-- Componentwise difference, `operator-` of `Vec2f`. -/
def Vec2f.sub (a b : Vec2f) : Vec2f := ⟨a.x - b.x, a.y - b.y⟩

/-- Componentwise sum, `operator+` of `Vec2f`. -/
def Vec2f.add (a b : Vec2f) : Vec2f := ⟨a.x + b.x, a.y + b.y⟩

/-- Axis-aligned rectangle, `Rect2f` of the source: a min point and a max point. -/
structure Rect2f where
  _leftBottom : Vec2f
  _rightTop : Vec2f
deriving DecidableEq, Repr, Inhabited

/-- Modelled from the spec: the two-point constructor of `Rect2f` (declared in math/algebra.h),
"axis-aligned rectangle (min/max 2D point)": the componentwise min and max of the points. -/
def Rect2f.ofPoints (a b : Vec2f) : Rect2f :=
  ⟨⟨min a.x b.x, min a.y b.y⟩, ⟨max a.x b.x, max a.y b.y⟩⟩

/-- Left edge of a rectangle. -/
def Rect2f.left (r : Rect2f) : Int := r._leftBottom.x

/-- Right edge of a rectangle. -/
def Rect2f.right (r : Rect2f) : Int := r._rightTop.x

/-- Bottom edge of a rectangle (the smaller y). -/
def Rect2f.bottom (r : Rect2f) : Int := r._leftBottom.y

/-- Top edge of a rectangle (the larger y). -/
def Rect2f.top (r : Rect2f) : Int := r._rightTop.y

/-- Modelled from the spec: `Rect2f::pointInRect` (math/algebra.h), "a component whose box
contains p": the point lies strictly between the four edges. -/
def Rect2f.pointInRect (r : Rect2f) (pt : Vec2f) : Bool :=
  decide (r.left < pt.x) && decide (pt.x < r.right) && decide (r.bottom < pt.y) && decide (pt.y < r.top)

/-- Modelled from the spec: `merge_bbox` (declared outside the sources at hand), "bbox = union":
the smallest axis-aligned rectangle enclosing both. -/
def merge_bbox (bb1 bb2 : Rect2f) : Rect2f :=
  ⟨⟨min bb1.left bb2.left, min bb1.bottom bb2.bottom⟩, ⟨max bb1.right bb2.right, max bb1.top bb2.top⟩⟩

/-- Absolute value, `std::fabs`. -/
def fabs (v : Int) : Int := if v < 0 then -v else v

/-- One slab of the ray test: the parameters `t` with `lo ≤ b + t * d ≤ hi` form the interval
`[n0 / dn, n1 / dn]` with `dn > 0`; `none` when `d = 0` and `b` is outside `[lo, hi]`,
`some none` when `d = 0` and every `t` does. -/
def raySlab (lo hi b d : Int) : Option (Option (Int × Int × Int)) :=
  if 0 < d then some (some (lo - b, hi - b, d))
  else if d < 0 then some (some (b - hi, b - lo, -d))
  else if lo ≤ b ∧ b ≤ hi then some none else none

/-- Modelled from the spec: `Rect2f::rayIntersectsRect` (math/algebra.h), "the segment oriented
b→e intersects (ray-intersects) its bounding box": some point `begin + t * (end - begin)` with
`t ≥ 0` lies in the closed rectangle. Fractions are compared by cross-multiplication. -/
def Rect2f.rayIntersectsRect (r : Rect2f) (begin_pt end_pt : Vec2f) : Bool :=
  match raySlab r.left r.right begin_pt.x (end_pt.x - begin_pt.x),
        raySlab r.bottom r.top begin_pt.y (end_pt.y - begin_pt.y) with
  | none, _ => false
  | _, none => false
  | some none, some none => true
  | some (some (a0, a1, _)), some none => decide (a0 ≤ a1) && decide (0 ≤ a1)
  | some none, some (some (b0, b1, _)) => decide (b0 ≤ b1) && decide (0 ≤ b1)
  | some (some (a0, a1, da)), some (some (b0, b1, db)) =>
      decide (a0 ≤ a1) && decide (b0 ≤ b1) && decide (0 ≤ a1) && decide (0 ≤ b1)
        && decide (a0 * db ≤ b1 * da) && decide (b0 * da ≤ a1 * db)

/-- Modelled from the spec: `Rect2f::pointDistance` (math/algebra.h), "the distance from the
block's box to" a point. The value is the SQUARE of the Euclidean distance from the point to
the closed rectangle: the source only compares distances with each other and with zero, and
squaring keeps those comparisons. -/
def Rect2f.pointDistance (r : Rect2f) (pt : Vec2f) : Int :=
  let dx := max (max (r.left - pt.x) (pt.x - r.right)) 0
  let dy := max (max (r.bottom - pt.y) (pt.y - r.top)) 0
  dx * dx + dy * dy

/-! ## Standard algorithms -/

/-- A (coordinate, component index) pair, `FLOAT_INT_PAIR` of the source. -/
abbrev FLOAT_INT_PAIR := Int × Nat

/-- A list of pairs, `FLOAT_INT_PAIRS` of the source. -/
abbrev FLOAT_INT_PAIRS := List FLOAT_INT_PAIR

/-- Comparator `pair_comp_asc` of the source: `b.first > a.first`. -/
def pair_comp_asc (a b : FLOAT_INT_PAIR) : Bool := decide (b.1 > a.1)

/-- Comparator `pair_comp_des` of the source: `b.first < a.first`. -/
def pair_comp_des (a b : FLOAT_INT_PAIR) : Bool := decide (b.1 < a.1)

/-- Comparator `pair_comp_mol_asc` of the source: `b.second > a.second`. -/
def pair_comp_mol_asc (a b : FLOAT_INT_PAIR) : Bool := decide (b.2 > a.2)

/-- Sorting with a strict comparator, `std::sort`. The standard leaves the order of elements
that compare equivalent unspecified; this model keeps them in their input order. -/
def std_sort {α : Type} (comp : α → α → Bool) (l : List α) : List α :=
  l.insertionSort (fun a b => comp b a = false)

/-- The suffix starting at the first element `e` with `comp value e`, `std::upper_bound`
returning the iterator as the remaining range (the empty list is `end()`). -/
def std_upper_bound {α : Type} (l : List α) (value : α) (comp : α → α → Bool) : List α :=
  l.dropWhile (fun e => !comp value e)

/-- Inner loop of `std_set_intersection` for a fixed head `a` of the first range. -/
def std_set_intersection_aux {α : Type} (comp : α → α → Bool) (a : α) (rest : List α → List α) :
    List α → List α
  | [] => []
  | b :: bs =>
    if comp a b then rest (b :: bs)
    else if comp b a then std_set_intersection_aux comp a rest bs
    else a :: rest bs

/-- The merge-style intersection of two ranges sorted by `comp`, `std::set_intersection`:
elements are copied from the first range. -/
def std_set_intersection {α : Type} (comp : α → α → Bool) : List α → List α → List α
  | [], _ => []
  | a :: l1, l2 => std_set_intersection_aux comp a (std_set_intersection comp l1) l2

/-! ## Data model (reaction_json_loader.h, base_reaction.h) -/

/-- Role of a block, the `BaseReaction` role constants used by the loader. -/
inductive Role where
  | UNDEFINED
  | REACTANT
  | PRODUCT
  | INTERMEDIATE
  | CATALYST
deriving DecidableEq, Repr, Inhabited

/-- Kind of a component, `ReactionComponent::component_type`: the constants `MOLECULE` and
`PLUS`, or the arrow sub-type the component was built with. -/
inductive ComponentType where
  | MOLECULE
  | PLUS
  | ARROW (arrow_type : Int)
deriving DecidableEq, Repr, Inhabited

/-- Values of `ReactionComponent::summ_block_idx`: the two sentinels or a block index. -/
inductive SummBlockIdx where
  | NOT_CONNECTED
  | CONNECTED
  | idx (n : Nat)
deriving DecidableEq, Repr, Inhabited

/-- One drawn primitive, `ReactionComponent` of the source. `summ_block_it` is the iterator
into `_component_summ_blocks_list`: `none` until the source assigns it. -/
structure ReactionComponent where
  component_type : ComponentType
  bbox : Rect2f
  coordinates : List Vec2f
  summ_block_it : Option Nat
  summ_block_idx : SummBlockIdx
deriving DecidableEq, Repr, Inhabited

/-- Constructor of `ReactionComponent`: no coordinates, not connected, iterator unassigned. -/
def ReactionComponent.new (ctype : ComponentType) (box : Rect2f) : ReactionComponent :=
  ⟨ctype, box, [], none, SummBlockIdx.NOT_CONNECTED⟩

/-- One summation block, `MolSumm` of the source. -/
structure MolSumm where
  bbox : Rect2f
  indexes : List Nat
  role : Role
  arrows_to : List Nat
deriving DecidableEq, Repr, Inhabited

/-- Constructor `MolSumm(const Rect2f&)`: role `UNDEFINED`, no members, no edges. -/
def MolSumm.new (box : Rect2f) : MolSumm := ⟨box, [], Role.UNDEFINED, []⟩

/-- Whether component `i` is of kind `MOLECULE`,
`_reaction_components[i].component_type == ReactionComponent::MOLECULE`. -/
def isMolecule (comps : List ReactionComponent) (i : Nat) : Bool :=
  decide ((comps.getD i default).component_type = ComponentType.MOLECULE)

/-! ## findPlusNeighbours -/

/-- The four ranges that `findPlusNeighbours` holds at line 151, each an iterator given as
the range from it to the end of its array. -/
structure PlusIters where
  rights_row_it : FLOAT_INT_PAIRS
  lefts_row_it : FLOAT_INT_PAIRS
  tops_col_it : FLOAT_INT_PAIRS
  bottoms_col_it : FLOAT_INT_PAIRS
deriving DecidableEq, Repr

/-- The loop "collect left-right" / "collect top-bottom" (lines 124-141): the edges `edge`
of the boxes of the listed components, those whose box contains the plus left out. -/
def collectEdges (comps : List ReactionComponent) (plus_pos : Vec2f) (edge : Rect2f → Int)
    (inter : FLOAT_INT_PAIRS) : FLOAT_INT_PAIRS :=
  (inter.filter (fun kvp => !(comps.getD kvp.2 default).bbox.pointInRect plus_pos)).map
    (fun kvp => (edge (comps.getD kvp.2 default).bbox, kvp.2))

/-- Lines 87-151 of `findPlusNeighbours`: row and column mates of the plus and the four
binary searches among them. -/
def findPlusIters (comps : List ReactionComponent) (plus_pos : Vec2f)
    (mol_tops mol_bottoms mol_lefts mol_rights : FLOAT_INT_PAIRS) : PlusIters :=
  let plus_pos_y : FLOAT_INT_PAIR := (plus_pos.y, 0)
  let plus_pos_x : FLOAT_INT_PAIR := (plus_pos.x, 0)
  let tops_above_it := std_upper_bound mol_tops plus_pos_y pair_comp_asc
  let bottoms_below_it := std_upper_bound mol_bottoms plus_pos_y pair_comp_des
  let rights_after_it := std_upper_bound mol_rights plus_pos_x pair_comp_asc
  let lefts_before_it := std_upper_bound mol_lefts plus_pos_x pair_comp_des
  let tops_above := std_sort pair_comp_mol_asc tops_above_it
  let bottoms_below := std_sort pair_comp_mol_asc bottoms_below_it
  let rights_after := std_sort pair_comp_mol_asc rights_after_it
  let lefts_before := std_sort pair_comp_mol_asc lefts_before_it
  let intersection_top_bottom := std_set_intersection pair_comp_mol_asc tops_above bottoms_below
  let intersection_left_right := std_set_intersection pair_comp_mol_asc lefts_before rights_after
  let rights_row := collectEdges comps plus_pos Rect2f.right intersection_top_bottom
  let lefts_row := collectEdges comps plus_pos Rect2f.left intersection_top_bottom
  let tops_col := collectEdges comps plus_pos Rect2f.top intersection_left_right
  let bottoms_col := collectEdges comps plus_pos Rect2f.bottom intersection_left_right
  let lefts_row := std_sort pair_comp_asc lefts_row
  let rights_row := std_sort pair_comp_des rights_row
  let tops_col := std_sort pair_comp_asc tops_col
  let bottoms_col := std_sort pair_comp_des bottoms_col
  { rights_row_it := std_upper_bound rights_row plus_pos_x pair_comp_des
    lefts_row_it := std_upper_bound lefts_row plus_pos_x pair_comp_asc
    tops_col_it := std_upper_bound tops_col plus_pos_y pair_comp_asc
    bottoms_col_it := std_upper_bound bottoms_col plus_pos_y pair_comp_des }

/-- Outcome of the first `if` of the choice (lines 153-164): `min_distance_h`, the connection
and `result` after the horizontal pair has been looked at. -/
def horizontalChoice (comps : List ReactionComponent) (plus_pos : Vec2f) (its : PlusIters)
    (connection : Nat × Nat) : Int × (Nat × Nat) × Bool :=
  match its.rights_row_it, its.lefts_row_it with
  | r :: _, l :: _ =>
    (min (fabs (r.1 - plus_pos.x)) (fabs (plus_pos.x - l.1)), (l.2, r.2),
      isMolecule comps l.2 && isMolecule comps r.2)
  | _, _ => (0, connection, false)

/-- Lines 153-177 of `findPlusNeighbours`: the choice between the horizontal and the vertical
pair. Returns `result` and the connection pair as the caller finds it afterwards. -/
def choosePlusPair (comps : List ReactionComponent) (plus_pos : Vec2f) (its : PlusIters)
    (connection : Nat × Nat) : Bool × (Nat × Nat) :=
  match horizontalChoice comps plus_pos its connection with
  | (min_distance_h, connection, result) =>
    match its.tops_col_it, its.bottoms_col_it with
    | t :: _, b :: _ =>
      let min_distance_v := min (t.1 - plus_pos.y) (b.1 - plus_pos.y)
      if !result || decide (min_distance_v < min_distance_h) then
        (isMolecule comps t.2 && isMolecule comps b.2, (t.2, b.2))
      else (result, connection)
    | _, _ => (result, connection)

/-- The function `ReactionJsonLoader::findPlusNeighbours`: `result` and the connection pair,
which is passed by reference in the source and keeps its value where the source does not
write it. -/
def findPlusNeighbours (comps : List ReactionComponent) (plus_pos : Vec2f)
    (mol_tops mol_bottoms mol_lefts mol_rights : FLOAT_INT_PAIRS) (connection : Nat × Nat) :
    Bool × (Nat × Nat) :=
  choosePlusPair comps plus_pos
    (findPlusIters comps plus_pos mol_tops mol_bottoms mol_lefts mol_rights) connection

/-! ## The document and the loader state -/

/-- Reaction arrow of the metadata, `KETReactionArrow`. -/
structure KETReactionArrow where
  _arrow_type : Int
  _begin : Vec2f
  _end : Vec2f
deriving DecidableEq, Repr, Inhabited

/-- Plus mark of the metadata, `KETReactionPlus`. -/
structure KETReactionPlus where
  _pos : Vec2f
deriving DecidableEq, Repr, Inhabited

/-- What `loadReaction` reads: whether the target is a query reaction, the bounding boxes of
the components of the loaded molecule in decomposition order (`countComponents`,
`getBoundingBox`), and the plus and arrow objects of the metadata in document order. -/
structure Document where
  isQueryReaction : Bool
  fragments : List Rect2f
  pluses : List KETReactionPlus
  arrows : List KETReactionArrow
deriving DecidableEq, Repr, Inhabited

/-- The constants `PLUS_BBOX_SHIFT` and `ARROW_BBOX_SHIFT`, declared outside the sources at
hand and taken as parameters. -/
structure BBoxShifts where
  PLUS_BBOX_SHIFT : Vec2f
  ARROW_BBOX_SHIFT : Vec2f
deriving DecidableEq, Repr, Inhabited

/-- A call made on the reaction under construction. A molecule is the list of the fragment
indexes merged into it. -/
inductive RxnCall where
  | addReactantCopy (mol : List Nat)
  | addProductCopy (mol : List Nat)
  | addIntermediateCopy (mol : List Nat)
  | addUndefinedCopy (mol : List Nat)
  | addCatalystCopy (mol : List Nat)
  | addReactionBlock (role : Role) (indexes : List Nat) (arrows_to : List Nat)
deriving DecidableEq, Repr

/-- The members of the loader that `parseMultipleArrowReaction` works on. The `std::list`
`_component_summ_blocks_list` is a list of nodes, each with the identifier its iterators
carry; `next_node` is the identifier the next `emplace_back` gives. -/
structure LoaderState where
  _reaction_components : List ReactionComponent
  _component_summ_blocks_list : List (Nat × MolSumm)
  next_node : Nat
  _component_summ_blocks : List MolSumm
deriving DecidableEq, Repr, Inhabited

/-- Assignment through `v[i]`: the element at index `i` replaced by `f` of it. -/
def modifyAt {α : Type} (f : α → α) : List α → Nat → List α
  | [], _ => []
  | a :: l, 0 => f a :: l
  | a :: l, n + 1 => a :: modifyAt f l n

/-- Dereference of a list iterator: the block of the node `it`, if the node is in the list. -/
def derefNode (nodes : List (Nat × MolSumm)) (it : Nat) : Option MolSumm :=
  (nodes.find? (fun nd => nd.1 == it)).map Prod.snd

/-- Assignment through a dereferenced list iterator. -/
def modifyNode (f : MolSumm → MolSumm) (nodes : List (Nat × MolSumm)) (it : Nat) :
    List (Nat × MolSumm) :=
  nodes.map (fun nd => if nd.1 == it then (nd.1, f nd.2) else nd)

/-- Removal of a node, `std::list::erase`. -/
def eraseNode (nodes : List (Nat × MolSumm)) (it : Nat) : List (Nat × MolSumm) :=
  nodes.filter (fun nd => !(nd.1 == it))

/-! ## parseMultipleArrowReaction -/

/-- Lines 227-281: the component list, molecules first, then plus marks, then arrows. -/
def collectComponents (sh : BBoxShifts) (rxn : Document) : List ReactionComponent :=
  rxn.fragments.map (fun bbox => ReactionComponent.new ComponentType.MOLECULE bbox)
  ++ rxn.pluses.map (fun plus =>
      { ReactionComponent.new ComponentType.PLUS
          (Rect2f.ofPoints (plus._pos.sub sh.PLUS_BBOX_SHIFT) (plus._pos.add sh.PLUS_BBOX_SHIFT))
        with coordinates := [plus._pos] })
  ++ rxn.arrows.map (fun arrow =>
      { ReactionComponent.new (ComponentType.ARROW arrow._arrow_type)
          (Rect2f.ofPoints (arrow._begin.sub sh.ARROW_BBOX_SHIFT) (arrow._end.add sh.ARROW_BBOX_SHIFT))
        with coordinates := [arrow._begin, arrow._end] })

/-- The array of the edge `edge` of every component with the component index, as the three
collecting loops fill `mol_tops`, `mol_bottoms`, `mol_lefts`, `mol_rights`. -/
def edgeArray (edge : Rect2f → Int) (comps : List ReactionComponent) : FLOAT_INT_PAIRS :=
  comps.enum.map (fun e => (edge e.2.bbox, e.1))

/-- Lines 284-287: the four sorted edge arrays `(mol_tops, mol_bottoms, mol_lefts, mol_rights)`. -/
def sortedEdges (comps : List ReactionComponent) :
    FLOAT_INT_PAIRS × FLOAT_INT_PAIRS × FLOAT_INT_PAIRS × FLOAT_INT_PAIRS :=
  (std_sort pair_comp_asc (edgeArray Rect2f.top comps),
   std_sort pair_comp_des (edgeArray Rect2f.bottom comps),
   std_sort pair_comp_des (edgeArray Rect2f.left comps),
   std_sort pair_comp_asc (edgeArray Rect2f.right comps))

/-- Marks a component as connected: `summ_block_idx = ReactionComponent::CONNECTED`. -/
def markConnected (rc : ReactionComponent) : ReactionComponent :=
  { rc with summ_block_idx := SummBlockIdx.CONNECTED }

/-- Binds a component to a list node: `summ_block_it = it`. -/
def bindTo (it : Nat) (rc : ReactionComponent) : ReactionComponent :=
  { rc with summ_block_it := some it }

/-- The `switch (logic_index)` of lines 310-366 for the connection pair of one plus.
`none` is undefined behaviour: an index outside the component list, or the dereference of an
iterator that is unassigned or whose node has been erased.
In `LI_BOTH` the range-for of lines 338-342 iterates over `block_second.indexes` and its body
appends to `block_first.indexes`. When both iterators are on the same node these are one and
the same vector, and a `push_back` into the vector being iterated is undefined behaviour, so
the result is `none` unless the vector is empty and the body never runs. On two different
nodes the members of `block_second` are appended to those of `block_first` and the node of
`block_second` is erased. In `LI_SECOND_ONLY` the source assigns
`rc_connection.first.summ_block_it` to itself, so the iterator of the first component stays
as it was. -/
def connectPlus (st : LoaderState) (plus_connection : Nat × Nat) : Option LoaderState := do
  let rc_first ← st._reaction_components[plus_connection.1]?
  let rc_second ← st._reaction_components[plus_connection.2]?
  match decide (rc_first.summ_block_idx = SummBlockIdx.NOT_CONNECTED),
        decide (rc_second.summ_block_idx = SummBlockIdx.NOT_CONNECTED) with
  | true, true =>
    -- LI_NEW_CONNECTION
    let bbox := merge_bbox rc_first.bbox rc_second.bbox
    let last_it := st.next_node
    let last_sb : MolSumm := { MolSumm.new bbox with indexes := [plus_connection.1, plus_connection.2] }
    let comps := modifyAt markConnected st._reaction_components plus_connection.1
    let comps := modifyAt markConnected comps plus_connection.2
    let comps := modifyAt (bindTo last_it) comps plus_connection.1
    let comps := modifyAt (bindTo last_it) comps plus_connection.2
    pure { st with _reaction_components := comps
                   _component_summ_blocks_list := st._component_summ_blocks_list ++ [(last_it, last_sb)]
                   next_node := st.next_node + 1 }
  | false, false =>
    -- LI_BOTH
    let first_it ← rc_first.summ_block_it
    let second_block_it ← rc_second.summ_block_it
    let _ ← derefNode st._component_summ_blocks_list first_it
    let block_second ← derefNode st._component_summ_blocks_list second_block_it
    if first_it = second_block_it ∧ block_second.indexes ≠ [] then none
    else
      let nodes := modifyNode (fun b => { b with bbox := merge_bbox b.bbox block_second.bbox })
        st._component_summ_blocks_list first_it
      let nodes := modifyNode (fun b => { b with indexes := b.indexes ++ block_second.indexes })
        nodes first_it
      let comps := block_second.indexes.foldl (fun cs v => modifyAt (bindTo first_it) cs v)
        st._reaction_components
      pure { st with _reaction_components := comps
                     _component_summ_blocks_list := eraseNode nodes second_block_it }
  | false, true =>
    -- LI_FIRST_ONLY
    let first_it ← rc_first.summ_block_it
    let _ ← derefNode st._component_summ_blocks_list first_it
    let nodes := modifyNode (fun b => { b with indexes := b.indexes ++ [plus_connection.2]
                                               bbox := merge_bbox b.bbox rc_second.bbox })
      st._component_summ_blocks_list first_it
    let comps := modifyAt (bindTo first_it) st._reaction_components plus_connection.2
    let comps := modifyAt markConnected comps plus_connection.2
    pure { st with _reaction_components := comps, _component_summ_blocks_list := nodes }
  | true, false =>
    -- LI_SECOND_ONLY
    let second_it ← rc_second.summ_block_it
    let _ ← derefNode st._component_summ_blocks_list second_it
    let nodes := modifyNode (fun b => { b with indexes := b.indexes ++ [plus_connection.1]
                                               bbox := merge_bbox b.bbox rc_first.bbox })
      st._component_summ_blocks_list second_it
    let comps := modifyAt markConnected st._reaction_components plus_connection.1
    pure { st with _reaction_components := comps, _component_summ_blocks_list := nodes }

/-- One iteration of the plus loop (lines 289-368) for the plus with number `i`. -/
def plusStep (count : Nat)
    (edges : FLOAT_INT_PAIRS × FLOAT_INT_PAIRS × FLOAT_INT_PAIRS × FLOAT_INT_PAIRS)
    (st : LoaderState) (i : Nat) (plus : KETReactionPlus) : Option LoaderState :=
  match findPlusNeighbours st._reaction_components plus._pos edges.1 edges.2.1 edges.2.2.1
      edges.2.2.2 (0, 0) with
  | (true, plus_connection) =>
    let comps := modifyAt markConnected st._reaction_components (count + i)
    connectPlus { st with _reaction_components := comps } plus_connection
  | (false, _) => some st

/-- The plus loop (lines 289-368) over the plus marks from number `i` on. -/
def plusLoop (count : Nat)
    (edges : FLOAT_INT_PAIRS × FLOAT_INT_PAIRS × FLOAT_INT_PAIRS × FLOAT_INT_PAIRS) :
    List KETReactionPlus → Nat → LoaderState → Option LoaderState
  | [], _, st => some st
  | plus :: rest, i, st =>
    match plusStep count edges st i plus with
    | none => none
    | some st1 => plusLoop count edges rest (i + 1) st1

/-- Lines 371-376: every list block is copied to the vector `_component_summ_blocks` and its
members get the index of the copy. -/
def copyBlocks : List (Nat × MolSumm) → LoaderState → LoaderState
  | [], st => st
  | nd :: rest, st =>
    copyBlocks rest
      { st with
        _reaction_components := nd.2.indexes.foldl
          (fun cs v => modifyAt
            (fun rc => { rc with summ_block_idx := SummBlockIdx.idx st._component_summ_blocks.length })
            cs v)
          st._reaction_components
        _component_summ_blocks := st._component_summ_blocks ++ [nd.2] }

/-- Lines 379-390: every leading molecule component still `NOT_CONNECTED` becomes a block of
its own; the loop stops at the first component that is not a molecule. The first argument is
the rest of the component list from index `i` on. -/
def addSingleMolecules : List ReactionComponent → Nat → LoaderState → LoaderState
  | [], _, st => st
  | rc :: rest, i, st =>
    if rc.component_type ≠ ComponentType.MOLECULE then st
    else if rc.summ_block_idx = SummBlockIdx.NOT_CONNECTED then
      addSingleMolecules rest (i + 1)
        { st with
          _reaction_components := modifyAt
            (fun c => { c with summ_block_idx := SummBlockIdx.idx st._component_summ_blocks.length })
            st._reaction_components i
          _component_summ_blocks := st._component_summ_blocks ++
            [{ MolSumm.new rc.bbox with indexes := [i] }] }
    else addSingleMolecules rest (i + 1) st

/-- Lines 370-390: finalization of the blocks after the plus loop. -/
def finalizeBlocks (st : LoaderState) : LoaderState :=
  let st1 := copyBlocks st._component_summ_blocks_list st
  addSingleMolecules st1._reaction_components 0 st1

/-- The four locals of the arrow scan (line 399); the indexes are `-1` until a block is found. -/
structure ArrowScan where
  min_dist_prod : Int
  min_dist_reac : Int
  idx_cs_min_prod : Int
  idx_cs_min_reac : Int
deriving DecidableEq, Repr, Inhabited

/-- Body of the scan loop (lines 402-420) for the block with index `index_cs`. -/
def scanBlock (arr_begin arr_end : Vec2f) (acc : ArrowScan) (index_cs : Nat) (csb : MolSumm) :
    ArrowScan :=
  if csb.bbox.rayIntersectsRect arr_begin arr_end then
    let dist := csb.bbox.pointDistance arr_end
    if acc.min_dist_prod < 0 ∨ dist < acc.min_dist_prod then
      { acc with min_dist_prod := dist, idx_cs_min_prod := index_cs }
    else acc
  else if csb.bbox.rayIntersectsRect arr_end arr_begin then
    let dist := csb.bbox.pointDistance arr_begin
    if acc.min_dist_reac < 0 ∨ dist < acc.min_dist_reac then
      { acc with min_dist_reac := dist, idx_cs_min_reac := index_cs }
    else acc
  else acc

/-- The scan loop (lines 400-421) over the blocks from index `index_cs` on. -/
def scanBlocks (arr_begin arr_end : Vec2f) : List MolSumm → Nat → ArrowScan → ArrowScan
  | [], _, acc => acc
  | csb :: rest, index_cs, acc =>
    scanBlocks arr_begin arr_end rest (index_cs + 1) (scanBlock arr_begin arr_end acc index_cs csb)

/-- The scan of one arrow over all blocks, started as at line 399. -/
def scanArrow (blocks : List MolSumm) (arrow : KETReactionArrow) : ArrowScan :=
  scanBlocks arrow._begin arrow._end blocks 0 ⟨-1, -1, -1, -1⟩

/-- Lines 427-431: role update of the block matched on the product side. -/
def updateProd (csb : MolSumm) : MolSumm :=
  if csb.role = Role.UNDEFINED then { csb with role := Role.PRODUCT }
  else if csb.role = Role.REACTANT then { csb with role := Role.INTERMEDIATE }
  else csb

/-- Lines 433-440: role update of the block matched on the reactant side, and the edge. -/
def updateReac (idx_cs_min_prod : Int) (csb : MolSumm) : MolSumm :=
  let csb1 : MolSumm :=
    if csb.role = Role.UNDEFINED then { csb with role := Role.REACTANT }
    else if csb.role = Role.PRODUCT then { csb with role := Role.INTERMEDIATE }
    else csb
  { csb1 with arrows_to := csb1.arrows_to ++ [idx_cs_min_prod.toNat] }

/-- Lines 423-441 on the block vector: what an arrow with scan result `sc` does to it. -/
def applyArrow (blocks : List MolSumm) (sc : ArrowScan) : List MolSumm :=
  if sc.min_dist_prod > 0 ∧ sc.min_dist_reac > 0 then
    modifyAt (updateReac sc.idx_cs_min_prod) (modifyAt updateProd blocks sc.idx_cs_min_prod.toNat)
      sc.idx_cs_min_reac.toNat
  else blocks

/-- One iteration of the arrow loop (lines 393-442) on the block vector. -/
def arrowStep (blocks : List MolSumm) (arrow : KETReactionArrow) : List MolSumm :=
  applyArrow blocks (scanArrow blocks arrow)

/-- The arrow loop (lines 393-442) on the block vector. -/
def handleArrows (blocks : List MolSumm) (arrows : List KETReactionArrow) : List MolSumm :=
  arrows.foldl arrowStep blocks

/-- The arrow loop on the component list: the arrow with number `i` is marked connected when
it takes effect (lines 425-426); `blocks` is the block vector before each arrow. -/
def markArrows (base : Nat) : List KETReactionArrow → Nat → List MolSumm →
    List ReactionComponent → List ReactionComponent
  | [], _, _, comps => comps
  | arrow :: rest, i, blocks, comps =>
    let sc := scanArrow blocks arrow
    markArrows base rest (i + 1) (applyArrow blocks sc)
      (if sc.min_dist_prod > 0 ∧ sc.min_dist_reac > 0 then modifyAt markConnected comps (base + i)
       else comps)

/-- The copy call of `constructMultipleArrowReaction` for a molecule of a block with role
`role` (the `switch` of lines 189-206). -/
def copyCall (role : Role) (mol : List Nat) : RxnCall :=
  match role with
  | Role.REACTANT => RxnCall.addReactantCopy mol
  | Role.PRODUCT => RxnCall.addProductCopy mol
  | Role.INTERMEDIATE => RxnCall.addIntermediateCopy mol
  | Role.UNDEFINED => RxnCall.addUndefinedCopy mol
  | Role.CATALYST => RxnCall.addCatalystCopy mol

/-- First loop of `constructMultipleArrowReaction` (lines 184-208) over the components from
index `i` on. `none` is undefined behaviour: `_component_summ_blocks[rc.summ_block_idx]` with
a sentinel or an index outside the vector. -/
def constructCopies (blocks : List MolSumm) : List ReactionComponent → Nat → Option (List RxnCall)
  | [], _ => some []
  | rc :: rest, i =>
    if rc.component_type = ComponentType.MOLECULE then
      match rc.summ_block_idx with
      | SummBlockIdx.idx n =>
        match blocks[n]?, constructCopies blocks rest (i + 1) with
        | some csb, some calls => some (copyCall csb.role [i] :: calls)
        | _, _ => none
      | _ => none
    else constructCopies blocks rest (i + 1)

/-- The function `constructMultipleArrowReaction`: the calls it makes on the reaction. -/
def constructMultipleArrowReaction (st : LoaderState) : Option (List RxnCall) :=
  match constructCopies st._component_summ_blocks st._reaction_components 0 with
  | none => none
  | some calls =>
    some (calls ++ st._component_summ_blocks.map
      (fun cb => RxnCall.addReactionBlock cb.role cb.indexes cb.arrows_to))

/-- Lines 227-390 of `parseMultipleArrowReaction`: components, edge arrays, plus loop and
finalization. -/
def buildBlocks (sh : BBoxShifts) (rxn : Document) : Option LoaderState :=
  let comps := collectComponents sh rxn
  match plusLoop rxn.fragments.length (sortedEdges comps) rxn.pluses 0 ⟨comps, [], 0, []⟩ with
  | none => none
  | some st => some (finalizeBlocks st)

/-- Lines 227-442 of `parseMultipleArrowReaction`: the loader state before the final call of
`constructMultipleArrowReaction`. -/
def parseMultipleArrowState (sh : BBoxShifts) (rxn : Document) : Option LoaderState :=
  match buildBlocks sh rxn with
  | none => none
  | some st =>
    some { st with
      _component_summ_blocks := handleArrows st._component_summ_blocks rxn.arrows
      _reaction_components := markArrows (rxn.fragments.length + rxn.pluses.length) rxn.arrows 0
        st._component_summ_blocks st._reaction_components }

/-- The function `parseMultipleArrowReaction`: the calls made on the reaction, `none` when
the source runs into undefined behaviour. -/
def parseMultipleArrowReaction (sh : BBoxShifts) (rxn : Document) : Option (List RxnCall) :=
  match parseMultipleArrowState sh rxn with
  | none => none
  | some st => constructMultipleArrowReaction st

/-! ## parseOneArrowReaction -/

/-- Kind of an entry of the one-arrow path, `ReactionFragmentType`. -/
inductive ReactionFragmentType where
  | MOLECULE
  | PLUS
  | ARROW
deriving DecidableEq, Repr, Inhabited

/-- Entry of the one-arrow path: left bound, kind and, for a molecule, its fragment index. -/
structure OneArrowComponent where
  left_bound : Int
  fragment_type : ReactionFragmentType
  molecule : Option Nat
deriving DecidableEq, Repr, Inhabited

/-- Lines 473-502: the entries before sorting: the fragments, the first arrow, the pluses. -/
def oneArrowComponents (rxn : Document) : List OneArrowComponent :=
  rxn.fragments.enum.map (fun e => ⟨e.2.left, ReactionFragmentType.MOLECULE, some e.1⟩)
  ++ [⟨(rxn.arrows.getD 0 default)._begin.x, ReactionFragmentType.ARROW, none⟩]
  ++ rxn.pluses.map (fun plus => ⟨plus._pos.x, ReactionFragmentType.PLUS, none⟩)

/-- The walk of lines 507-530 over the sorted entries, with the merged molecule so far and
the flag `is_arrow_passed`. -/
def oneArrowWalk : List OneArrowComponent → List Nat → Bool → List RxnCall
  | [], merged_molecule, _ => [RxnCall.addProductCopy merged_molecule]
  | comp :: rest, merged_molecule, is_arrow_passed =>
    match comp.fragment_type with
    | ReactionFragmentType.MOLECULE =>
      oneArrowWalk rest (merged_molecule ++ comp.molecule.toList) is_arrow_passed
    | ReactionFragmentType.ARROW =>
      RxnCall.addReactantCopy merged_molecule :: oneArrowWalk rest [] true
    | ReactionFragmentType.PLUS =>
      (if is_arrow_passed then RxnCall.addProductCopy merged_molecule
       else RxnCall.addReactantCopy merged_molecule) :: oneArrowWalk rest [] is_arrow_passed

/-- The function `parseOneArrowReaction`: the calls it makes on the reaction. -/
def parseOneArrowReaction (rxn : Document) : List RxnCall :=
  oneArrowWalk
    (std_sort (fun a b => decide (a.left_bound < b.left_bound)) (oneArrowComponents rxn)) [] false

/-! ## loadReaction -/

/-- The function `loadReaction`. An exception `Error(msg)` of the source is `Except.error msg`;
otherwise the result of the parse function that ran (`none`: undefined behaviour). -/
def loadReaction (sh : BBoxShifts) (rxn : Document) : Except String (Option (List RxnCall)) :=
  let _pqrxn := rxn.isQueryReaction
  let _prxn := !rxn.isQueryReaction
  if !(_prxn || _pqrxn) then Except.error "unknown reaction type"
  else
    let arrow_count := rxn.arrows.length
    if arrow_count = 0 then Except.error "No arrow in the reaction"
    else if arrow_count > 1 then Except.ok (parseMultipleArrowReaction sh rxn)
    else Except.ok (some (parseOneArrowReaction rxn))

/-! ## Example inputs -/

/-- Bounding-box margins used in the examples. -/
def exampleShifts : BBoxShifts := ⟨⟨1, 1⟩, ⟨0, 1⟩⟩

/-- The rectangle with the given left, bottom, right and top edges. -/
def box (l b r t : Int) : Rect2f := ⟨⟨l, b⟩, ⟨r, t⟩⟩

/-- The two arrows of the scenario: (0,0)-(10,0) and (20,0)-(30,0). -/
def scenarioArrows : List KETReactionArrow := [⟨0, ⟨0, 0⟩, ⟨10, 0⟩⟩, ⟨0, ⟨20, 0⟩, ⟨30, 0⟩⟩]

/-- A two-arrow document: fragments at x<0, 10<x<20 and x>30 on the line y=0, no plus. -/
def scenarioDocument : Document :=
  ⟨false, [box (-5) (-1) (-2) 1, box 12 (-1) 18 1, box 32 (-1) 35 1], [], scenarioArrows⟩

/-- Two arrows far away from everything else, for documents of the multi-arrow path. -/
def farArrows : List KETReactionArrow :=
  [⟨0, ⟨100, 100⟩, ⟨110, 100⟩⟩, ⟨0, ⟨120, 100⟩, ⟨130, 100⟩⟩]

/-- A plus at the origin with a molecule on each side: fragments 0 (left) and 1 (right) have
their near edges at distance `g`, fragment 2 (above) lies between the heights `v0` and `v1`,
fragment 3 (below) between `-v1` and `-v0`. -/
def crossDocument (g v0 v1 : Int) : Document :=
  ⟨false, [box (-g - 2) (-1) (-g) 1, box g (-1) (g + 2) 1, box (-1) v0 1 v1, box (-1) (-v1) 1 (-v0)],
    [⟨⟨0, 0⟩⟩], farArrows⟩

/-- The ranges `findPlusNeighbours` holds at line 151 when the plus loop calls it for a plus
at `plus_pos` of the document. -/
def plusItersOf (sh : BBoxShifts) (rxn : Document) (plus_pos : Vec2f) : PlusIters :=
  let comps := collectComponents sh rxn
  let edges := sortedEdges comps
  findPlusIters comps plus_pos edges.1 edges.2.1 edges.2.2.1 edges.2.2.2

/-- The result of `findPlusNeighbours` as the plus loop calls it for a plus at `plus_pos` of
the document. -/
def plusNeighboursOf (sh : BBoxShifts) (rxn : Document) (plus_pos : Vec2f) : Bool × (Nat × Nat) :=
  let comps := collectComponents sh rxn
  let edges := sortedEdges comps
  findPlusNeighbours comps plus_pos edges.1 edges.2.1 edges.2.2.1 edges.2.2.2 (0, 0)

/-- Two molecules side by side with two plus marks between them, one above the other:
both plus marks have fragment 0 as left and fragment 1 as right neighbour. -/
def duplicatePlusDocument : Document :=
  ⟨false, [box 0 (-10) 4 10, box 6 (-10) 10 10], [⟨⟨5, 2⟩⟩, ⟨⟨5, -2⟩⟩], farArrows⟩

/-- Four molecules in a row, fragments 0 to 3 from left to right, with the given plus marks. -/
def rowDocument (pluses : List KETReactionPlus) : Document :=
  ⟨false, [box 0 (-1) 4 1, box 6 (-1) 10 1, box 12 (-1) 16 1, box 18 (-1) 22 1], pluses, farArrows⟩

/-- The loader state before the plus loop for molecule components with the given boxes. -/
def moleculesState (boxes : List Rect2f) : LoaderState :=
  ⟨boxes.map (fun bbox => ReactionComponent.new ComponentType.MOLECULE bbox), [], 0, []⟩

/-- The merge cases of the plus loop run over a list of resolved connection pairs. -/
def connectPairs : List (Nat × Nat) → LoaderState → Option LoaderState
  | [], st => some st
  | pair :: rest, st =>
    match connectPlus st pair with
    | none => none
    | some st1 => connectPairs rest st1

/-- The member lists of the finalized blocks after the merge cases have run over the pairs,
for molecule components with the given boxes; `none` when the run is undefined. -/
def partitionOfPairs (boxes : List Rect2f) (pairs : List (Nat × Nat)) : Option (List (List Nat)) :=
  (connectPairs pairs (moleculesState boxes)).map
    (fun st => (finalizeBlocks st)._component_summ_blocks.map (fun csb => csb.indexes))

/-! ## Predicates used in the statements -/

/-- The order of roles: `UNDEFINED` below `REACTANT` and `PRODUCT`, these below
`INTERMEDIATE`; every role is related to itself, `CATALYST` to nothing else. -/
def Role.le (a b : Role) : Bool :=
  decide (a = b)
  || (decide (a = Role.UNDEFINED) &&
      (decide (b = Role.REACTANT) || decide (b = Role.PRODUCT) || decide (b = Role.INTERMEDIATE)))
  || ((decide (a = Role.REACTANT) || decide (a = Role.PRODUCT)) && decide (b = Role.INTERMEDIATE))

/-- What the scan loop of an arrow has established once the blocks with index below `n` are
done: a nonnegative minimum belongs to a block of index below `n` that passed the
corresponding ray test, and is the distance of that block. -/
def ScanInv (arr_begin arr_end : Vec2f) (blocks : List MolSumm) (n : Nat) (acc : ArrowScan) :
    Prop :=
  (0 ≤ acc.min_dist_prod → ∃ (k : Nat) (csb : MolSumm), acc.idx_cs_min_prod = (k : Int) ∧ k < n
      ∧ blocks[k]? = some csb ∧ csb.bbox.rayIntersectsRect arr_begin arr_end = true
      ∧ acc.min_dist_prod = csb.bbox.pointDistance arr_end)
  ∧ (0 ≤ acc.min_dist_reac → ∃ (k : Nat) (csb : MolSumm), acc.idx_cs_min_reac = (k : Int) ∧ k < n
      ∧ blocks[k]? = some csb ∧ csb.bbox.rayIntersectsRect arr_begin arr_end = false
      ∧ csb.bbox.rayIntersectsRect arr_end arr_begin = true
      ∧ acc.min_dist_reac = csb.bbox.pointDistance arr_begin)

/-! ## Further example inputs -/

/-- The one-arrow scenario: a plus at (5,0) between fragments (0,-1)-(4,1) and (6,-1)-(10,1),
and one arrow from (12,0) to (20,0). -/
def plusArrowDocument : Document :=
  ⟨false, [box 0 (-1) 4 1, box 6 (-1) 10 1], [⟨⟨5, 0⟩⟩], [⟨0, ⟨12, 0⟩, ⟨20, 0⟩⟩]⟩

/-! ## The groups of the one-arrow path, as the specification describes them -/

/-- Cutting a sequence of entries at the arrow and at every plus: the fragment indexes of
each segment, in the order of the sequence. -/
def cutSegments : List OneArrowComponent → List (List Nat)
  | [] => [[]]
  | comp :: rest =>
    match comp.fragment_type, cutSegments rest with
    | ReactionFragmentType.MOLECULE, seg :: segs => (comp.molecule.toList ++ seg) :: segs
    | ReactionFragmentType.MOLECULE, [] => [comp.molecule.toList]
    | _, segs => [] :: segs

/-- The number of segments before the arrow: one more than the plus marks before it. -/
def segmentsBeforeArrow (l : List OneArrowComponent) : Nat :=
  ((l.takeWhile (fun c => decide (c.fragment_type ≠ ReactionFragmentType.ARROW))).filter
    (fun c => decide (c.fragment_type = ReactionFragmentType.PLUS))).length + 1

/-- The groups of a sequence of entries: every segment is one group, the segments before the
arrow Reactants, those after it Products, from left to right. -/
def expectedGroups (l : List OneArrowComponent) : List RxnCall :=
  ((cutSegments l).take (segmentsBeforeArrow l)).map RxnCall.addReactantCopy
  ++ ((cutSegments l).drop (segmentsBeforeArrow l)).map RxnCall.addProductCopy

/-- A document with one arrow and two plus marks: fragments with left edges 0, 6, 20, 30, plus
marks at x = 5 and x = 25, the arrow beginning at x = 12. -/
def twoPlusDocument : Document :=
  ⟨false, [box 0 (-1) 4 1, box 6 (-1) 10 1, box 20 (-1) 24 1, box 30 (-1) 34 1],
    [⟨⟨5, 0⟩⟩, ⟨⟨25, 0⟩⟩], [⟨0, ⟨12, 0⟩, ⟨18, 0⟩⟩]⟩

/-- The loader state of the scenario document before `constructMultipleArrowReaction`. -/
def scenarioState : LoaderState :=
  ⟨[⟨ComponentType.MOLECULE, box (-5) (-1) (-2) 1, [], none, SummBlockIdx.idx 0⟩,
    ⟨ComponentType.MOLECULE, box 12 (-1) 18 1, [], none, SummBlockIdx.idx 1⟩,
    ⟨ComponentType.MOLECULE, box 32 (-1) 35 1, [], none, SummBlockIdx.idx 2⟩,
    ⟨ComponentType.ARROW 0, box 0 (-1) 10 1, [⟨0, 0⟩, ⟨10, 0⟩], none, SummBlockIdx.CONNECTED⟩,
    ⟨ComponentType.ARROW 0, box 20 (-1) 30 1, [⟨20, 0⟩, ⟨30, 0⟩], none, SummBlockIdx.CONNECTED⟩],
   [], 0,
   [⟨box (-5) (-1) (-2) 1, [0], Role.REACTANT, [1]⟩,
    ⟨box 12 (-1) 18 1, [1], Role.INTERMEDIATE, [2]⟩,
    ⟨box 32 (-1) 35 1, [2], Role.PRODUCT, []⟩]⟩

/-- The loader state after the pairs (1, 0) and (3, 2) on four molecules in a row: two blocks,
[1, 0] in node 0 and [3, 2] in node 1. -/
def twoBlocksState : LoaderState :=
  (connectPairs [(1, 0), (3, 2)] (moleculesState (rowDocument []).fragments)).getD default

/-- The four arrays `(rights_row, lefts_row, tops_col, bottoms_col)` of `findPlusNeighbours`
as they are after the two collecting loops (line 141), before they are sorted: the row mates
of the plus with their right and left edges, the column mates with their top and bottom
edges. -/
def plusMates (comps : List ReactionComponent) (plus_pos : Vec2f)
    (mol_tops mol_bottoms mol_lefts mol_rights : FLOAT_INT_PAIRS) :
    FLOAT_INT_PAIRS × FLOAT_INT_PAIRS × FLOAT_INT_PAIRS × FLOAT_INT_PAIRS :=
  let plus_pos_y : FLOAT_INT_PAIR := (plus_pos.y, 0)
  let plus_pos_x : FLOAT_INT_PAIR := (plus_pos.x, 0)
  let tops_above := std_sort pair_comp_mol_asc (std_upper_bound mol_tops plus_pos_y pair_comp_asc)
  let bottoms_below :=
    std_sort pair_comp_mol_asc (std_upper_bound mol_bottoms plus_pos_y pair_comp_des)
  let rights_after :=
    std_sort pair_comp_mol_asc (std_upper_bound mol_rights plus_pos_x pair_comp_asc)
  let lefts_before :=
    std_sort pair_comp_mol_asc (std_upper_bound mol_lefts plus_pos_x pair_comp_des)
  let intersection_top_bottom := std_set_intersection pair_comp_mol_asc tops_above bottoms_below
  let intersection_left_right := std_set_intersection pair_comp_mol_asc lefts_before rights_after
  (collectEdges comps plus_pos Rect2f.right intersection_top_bottom,
   collectEdges comps plus_pos Rect2f.left intersection_top_bottom,
   collectEdges comps plus_pos Rect2f.top intersection_left_right,
   collectEdges comps plus_pos Rect2f.bottom intersection_left_right)

/-- A two-arrow document whose first arrow (0,0)-(10,0) ends inside the box (8,-1)-(18,1) of
fragment 1; fragment 0 lies behind the arrow at x<0. -/
def arrowEndInsideDocument : Document :=
  ⟨false, [box (-5) (-1) (-2) 1, box 8 (-1) 18 1], [],
    [⟨0, ⟨0, 0⟩, ⟨10, 0⟩⟩, ⟨0, ⟨100, 100⟩, ⟨110, 100⟩⟩]⟩

/-- Fragments 0 and 2 side by side with a plus between them, fragment 1 far away from both. -/
def interleavedDocument : Document :=
  ⟨false, [box 0 (-1) 4 1, box 50 50 54 52, box 6 (-1) 10 1], [⟨⟨5, 0⟩⟩], farArrows⟩

/-- The fragment indexes of the molecule a copy call adds; `none` for a block record. -/
def RxnCall.copiedFragments : RxnCall → Option (List Nat)
  | RxnCall.addReactantCopy mol => some mol
  | RxnCall.addProductCopy mol => some mol
  | RxnCall.addIntermediateCopy mol => some mol
  | RxnCall.addUndefinedCopy mol => some mol
  | RxnCall.addCatalystCopy mol => some mol
  | RxnCall.addReactionBlock _ _ _ => none

/-- What the scan loop of an arrow has established about the minima once the blocks with
index below `n` are done: the product-side minimum is a lower bound of the distances of all
blocks passing the begin-to-end test, strict for those before the recorded index, and the
reactant-side minimum likewise for the blocks passing only the end-to-begin test. -/
def ScanMin (arr_begin arr_end : Vec2f) (blocks : List MolSumm) (n : Nat) (acc : ArrowScan) :
    Prop :=
  (∀ (k : Nat) (csb : MolSumm), k < n → blocks[k]? = some csb →
      csb.bbox.rayIntersectsRect arr_begin arr_end = true →
      0 ≤ acc.min_dist_prod ∧ acc.min_dist_prod ≤ csb.bbox.pointDistance arr_end
      ∧ ((k : Int) < acc.idx_cs_min_prod → acc.min_dist_prod < csb.bbox.pointDistance arr_end))
  ∧ (∀ (k : Nat) (csb : MolSumm), k < n → blocks[k]? = some csb →
      csb.bbox.rayIntersectsRect arr_begin arr_end = false →
      csb.bbox.rayIntersectsRect arr_end arr_begin = true →
      0 ≤ acc.min_dist_reac ∧ acc.min_dist_reac ≤ csb.bbox.pointDistance arr_begin
      ∧ ((k : Int) < acc.idx_cs_min_reac → acc.min_dist_reac < csb.bbox.pointDistance arr_begin))

/-- The matches of the effective arrows of a run of the arrow loop, in order: for every arrow
that takes effect, the index of the block matched on the product side and the index of the
block matched on the reactant side. -/
def matchTrace : List MolSumm → List KETReactionArrow → List (Int × Int)
  | _, [] => []
  | blocks, arrow :: rest =>
    (if (scanArrow blocks arrow).min_dist_prod > 0 ∧ (scanArrow blocks arrow).min_dist_reac > 0
      then [((scanArrow blocks arrow).idx_cs_min_prod, (scanArrow blocks arrow).idx_cs_min_reac)]
      else [])
    ++ matchTrace (arrowStep blocks arrow) rest

/-- The role that corresponds to having been matched on the reactant side and on the product
side. -/
def roleOfMatches (reac prod : Bool) : Role :=
  match reac, prod with
  | false, false => Role.UNDEFINED
  | true, false => Role.REACTANT
  | false, true => Role.PRODUCT
  | true, true => Role.INTERMEDIATE

/-- The rectangle `u` is the union of the boxes of the list: the smallest axis-aligned
rectangle that encloses every box; the list is not empty. -/
def IsUnionOf (u : Rect2f) (boxes : List Rect2f) : Prop :=
  boxes ≠ []
  ∧ (∀ bb ∈ boxes, u.left ≤ bb.left ∧ u.bottom ≤ bb.bottom ∧ bb.right ≤ u.right ∧ bb.top ≤ u.top)
  ∧ (∃ bb ∈ boxes, bb.left = u.left) ∧ (∃ bb ∈ boxes, bb.bottom = u.bottom)
  ∧ (∃ bb ∈ boxes, bb.right = u.right) ∧ (∃ bb ∈ boxes, bb.top = u.top)

/-- The boxes of the member components of a block. -/
def memberBoxes (comps : List ReactionComponent) (csb : MolSumm) : List Rect2f :=
  csb.indexes.map (fun v => (comps.getD v default).bbox)

/-- How the plus loop may change the component list: the length, and the kind and the box of
every component, stay as they are; a block index stays as it is or becomes `CONNECTED`. -/
def CompStep (comps comps2 : List ReactionComponent) : Prop :=
  comps2.length = comps.length
  ∧ ∀ (v : Nat) (rc : ReactionComponent), comps[v]? = some rc →
      ∃ rc2, comps2[v]? = some rc2 ∧ rc2.component_type = rc.component_type
        ∧ rc2.bbox = rc.bbox
        ∧ (rc2.summ_block_idx = rc.summ_block_idx
            ∨ rc2.summ_block_idx = SummBlockIdx.CONNECTED)

/-- Two component lists have the same shape: the same kinds and boxes, position by
position. -/
def SameShape (comps comps2 : List ReactionComponent) : Prop :=
  comps2.map (fun rc => (rc.component_type, rc.bbox))
    = comps.map (fun rc => (rc.component_type, rc.bbox))


/-- Modelled from the spec: the components among those from index `i` up to `i + n` that are
still unassigned (`NOT_CONNECTED`), in component order. -/
def unassignedFrom (comps : List ReactionComponent) (i n : Nat) : List Nat :=
  (List.range' i n).filter
    (fun v => decide ((comps.getD v default).summ_block_idx = SummBlockIdx.NOT_CONNECTED))

/-- Modelled from the spec: the singleton block of component `v`, with the box of the
component, role `UNDEFINED` and no edges. -/
def singletonBlock (comps : List ReactionComponent) (v : Nat) : MolSumm :=
  ⟨(comps.getD v default).bbox, [v], Role.UNDEFINED, []⟩

/-- The loader state of the interleaved document after its plus loop: the plus has joined
the components 2 and 0 in the block of node 0. -/
def interleavedLoopState : LoaderState :=
  ⟨[⟨ComponentType.MOLECULE, box 0 (-1) 4 1, [], some 0, SummBlockIdx.CONNECTED⟩,
    ⟨ComponentType.MOLECULE, box 50 50 54 52, [], none, SummBlockIdx.NOT_CONNECTED⟩,
    ⟨ComponentType.MOLECULE, box 6 (-1) 10 1, [], some 0, SummBlockIdx.CONNECTED⟩,
    ⟨ComponentType.PLUS, box 4 (-1) 6 1, [⟨5, 0⟩], none, SummBlockIdx.CONNECTED⟩,
    ⟨ComponentType.ARROW 0, box 100 99 110 101, [⟨100, 100⟩, ⟨110, 100⟩], none,
      SummBlockIdx.NOT_CONNECTED⟩,
    ⟨ComponentType.ARROW 0, box 120 99 130 101, [⟨120, 100⟩, ⟨130, 100⟩], none,
      SummBlockIdx.NOT_CONNECTED⟩],
   [(0, ⟨box 0 (-1) 10 1, [2, 0], Role.UNDEFINED, []⟩)], 1, []⟩

/-- The loader state of the interleaved document after the finalization of the blocks. -/
def interleavedBuilt : LoaderState :=
  ⟨[⟨ComponentType.MOLECULE, box 0 (-1) 4 1, [], some 0, SummBlockIdx.idx 0⟩,
    ⟨ComponentType.MOLECULE, box 50 50 54 52, [], none, SummBlockIdx.idx 1⟩,
    ⟨ComponentType.MOLECULE, box 6 (-1) 10 1, [], some 0, SummBlockIdx.idx 0⟩,
    ⟨ComponentType.PLUS, box 4 (-1) 6 1, [⟨5, 0⟩], none, SummBlockIdx.CONNECTED⟩,
    ⟨ComponentType.ARROW 0, box 100 99 110 101, [⟨100, 100⟩, ⟨110, 100⟩], none,
      SummBlockIdx.NOT_CONNECTED⟩,
    ⟨ComponentType.ARROW 0, box 120 99 130 101, [⟨120, 100⟩, ⟨130, 100⟩], none,
      SummBlockIdx.NOT_CONNECTED⟩],
   [(0, ⟨box 0 (-1) 10 1, [2, 0], Role.UNDEFINED, []⟩)], 1,
   [⟨box 0 (-1) 10 1, [2, 0], Role.UNDEFINED, []⟩, ⟨box 50 50 54 52, [1], Role.UNDEFINED, []⟩]⟩

/-- What the plus loop keeps true of the loader state: every component is `NOT_CONNECTED` or
`CONNECTED`; the members of the list blocks are components marked `CONNECTED`; a component that
is a member of two nodes is so of one and the same node; the nodes have distinct identifiers,
all below `next_node`. -/
def BlocksInv (st : LoaderState) : Prop :=
  (∀ (v : Nat) (rc : ReactionComponent), st._reaction_components[v]? = some rc →
      rc.summ_block_idx = SummBlockIdx.NOT_CONNECTED ∨ rc.summ_block_idx = SummBlockIdx.CONNECTED)
  ∧ (∀ nd ∈ st._component_summ_blocks_list, ∀ v ∈ nd.2.indexes,
      ∃ rc, st._reaction_components[v]? = some rc ∧ rc.summ_block_idx = SummBlockIdx.CONNECTED)
  ∧ (∀ n1 ∈ st._component_summ_blocks_list, ∀ n2 ∈ st._component_summ_blocks_list,
      ∀ v, v ∈ n1.2.indexes → v ∈ n2.2.indexes → n1.1 = n2.1)
  ∧ (st._component_summ_blocks_list.map Prod.fst).Nodup
  ∧ (∀ nd ∈ st._component_summ_blocks_list, nd.1 < st.next_node)
/-! ## Lemmas on the list primitives -/

theorem length_modifyAt {α : Type} (f : α → α) (l : List α) (i : Nat) :
    (modifyAt f l i).length = l.length := by
  induction l generalizing i with
  | nil => rfl
  | cons a l ih => cases i <;> simp [modifyAt, ih]

theorem getElem?_modifyAt {α : Type} (f : α → α) (l : List α) (i k : Nat) :
    (modifyAt f l i)[k]? = if k = i then l[k]?.map f else l[k]? := by
  induction l generalizing i k with
  | nil => simp [modifyAt]
  | cons a l ih =>
    cases i with
    | zero => cases k <;> simp [modifyAt]
    | succ i => cases k <;> simp [modifyAt, ih]

/-! ## C1 -/

/-- C1: `loadReaction` fails with "No arrow in the reaction" exactly when the document has no
reaction arrow; with more than one arrow its result is that of `parseMultipleArrowReaction`,
with exactly one arrow that of `parseOneArrowReaction`. -/
theorem loadReaction_dispatch (sh : BBoxShifts) (rxn : Document) :
    (loadReaction sh rxn = Except.error "No arrow in the reaction" ↔ rxn.arrows.length = 0)
    ∧ (rxn.arrows.length > 1 →
        loadReaction sh rxn = Except.ok (parseMultipleArrowReaction sh rxn))
    ∧ (rxn.arrows.length = 1 →
        loadReaction sh rxn = Except.ok (some (parseOneArrowReaction rxn))) := by
  have hq : (!(!rxn.isQueryReaction || rxn.isQueryReaction)) = false := by
    cases rxn.isQueryReaction <;> rfl
  refine ⟨?_, ?_, ?_⟩
  · constructor
    · intro h
      by_contra h0
      by_cases h1 : rxn.arrows.length > 1
      · simp [loadReaction, hq, h0, h1] at h
      · simp [loadReaction, hq, h0, h1] at h
    · intro h
      simp [loadReaction, hq, h]
  · intro h
    have h0 : rxn.arrows.length ≠ 0 := by omega
    simp [loadReaction, hq, h0, h]
  · intro h
    simp [loadReaction, hq, h]

/-- Witness of C1 on the two-arrow scenario document. -/
theorem loadReaction_dispatch_witness :
    loadReaction exampleShifts scenarioDocument
      = Except.ok (parseMultipleArrowReaction exampleShifts scenarioDocument) :=
  (loadReaction_dispatch exampleShifts scenarioDocument).2.1 (by decide)

/-! ## The arrow scan -/

theorem pointDistance_nonneg (r : Rect2f) (pt : Vec2f) : 0 ≤ r.pointDistance pt := by
  unfold Rect2f.pointDistance
  positivity

theorem scanBlock_inv (arr_begin arr_end : Vec2f) (pre rest : List MolSumm) (csb : MolSumm)
    (acc : ArrowScan) (h : ScanInv arr_begin arr_end (pre ++ csb :: rest) pre.length acc) :
    ScanInv arr_begin arr_end (pre ++ csb :: rest) (pre.length + 1)
      (scanBlock arr_begin arr_end acc pre.length csb) := by
  have hget : (pre ++ csb :: rest)[pre.length]? = some csb := by
    rw [List.getElem?_append_right (le_refl _)]
    simp
  unfold ScanInv at h ⊢
  have weaken : ∀ acc2 : ArrowScan, ScanInv arr_begin arr_end (pre ++ csb :: rest) pre.length acc2 →
      ScanInv arr_begin arr_end (pre ++ csb :: rest) (pre.length + 1) acc2 := by
    intro acc2 h2
    unfold ScanInv at h2 ⊢
    refine ⟨fun h0 => ?_, fun h0 => ?_⟩
    · obtain ⟨k, c, h1, h3, h4⟩ := h2.1 h0
      exact ⟨k, c, h1, by omega, h4⟩
    · obtain ⟨k, c, h1, h3, h4⟩ := h2.2 h0
      exact ⟨k, c, h1, by omega, h4⟩
  unfold scanBlock
  by_cases hp : csb.bbox.rayIntersectsRect arr_begin arr_end = true
  · simp only [hp, if_true]
    split
    · refine ⟨fun _ => ⟨pre.length, csb, rfl, by omega, hget, hp, rfl⟩, fun h0 => ?_⟩
      obtain ⟨k, c, h1, h3, h4⟩ := h.2 h0
      exact ⟨k, c, h1, by omega, h4⟩
    · exact weaken acc h
  · have hp2 : csb.bbox.rayIntersectsRect arr_begin arr_end = false := by
      simpa using hp
    simp only [hp2, Bool.false_eq_true, if_false]
    by_cases hr : csb.bbox.rayIntersectsRect arr_end arr_begin = true
    · simp only [hr, if_true]
      split
      · refine ⟨fun h0 => ?_, fun _ => ⟨pre.length, csb, rfl, by omega, hget, hp2, hr, rfl⟩⟩
        obtain ⟨k, c, h1, h3, h4⟩ := h.1 h0
        exact ⟨k, c, h1, by omega, h4⟩
      · exact weaken acc h
    · simp only [hr, if_false]
      exact weaken acc h

theorem scanBlocks_inv (arr_begin arr_end : Vec2f) (rest pre : List MolSumm) (acc : ArrowScan)
    (h : ScanInv arr_begin arr_end (pre ++ rest) pre.length acc) :
    ScanInv arr_begin arr_end (pre ++ rest) (pre ++ rest).length
      (scanBlocks arr_begin arr_end rest pre.length acc) := by
  induction rest generalizing pre acc with
  | nil => simpa [scanBlocks] using h
  | cons csb rest ih =>
    have h1 := scanBlock_inv arr_begin arr_end pre rest csb acc h
    have h2 := ih (pre ++ [csb]) (scanBlock arr_begin arr_end acc pre.length csb)
      (by simpa using h1)
    simpa [scanBlocks] using h2

theorem scanArrow_inv (blocks : List MolSumm) (arrow : KETReactionArrow) :
    ScanInv arrow._begin arrow._end blocks blocks.length (scanArrow blocks arrow) := by
  have h := scanBlocks_inv arrow._begin arrow._end blocks [] ⟨-1, -1, -1, -1⟩
    (by unfold ScanInv; constructor <;> intro h0 <;> simp at h0)
  simpa [scanArrow] using h

/-! ## C4 -/

/-- C4: when an arrow takes effect, the block matched on the product side goes from
`UNDEFINED` to `PRODUCT` and from `REACTANT` to `INTERMEDIATE` and otherwise keeps its role;
the block matched on the reactant side goes from `UNDEFINED` to `REACTANT` and from `PRODUCT`
to `INTERMEDIATE` and otherwise keeps its role; the two are different blocks of the vector and
every other block keeps its role. -/
theorem arrowStep_roles (blocks : List MolSumm) (arrow : KETReactionArrow)
    (heff : (scanArrow blocks arrow).min_dist_prod > 0 ∧ (scanArrow blocks arrow).min_dist_reac > 0) :
    ∃ p r : Nat, (scanArrow blocks arrow).idx_cs_min_prod = (p : Int)
      ∧ (scanArrow blocks arrow).idx_cs_min_reac = (r : Int)
      ∧ p < blocks.length ∧ r < blocks.length ∧ p ≠ r
      ∧ ∀ k csb, blocks[k]? = some csb →
          ∃ csb2, (arrowStep blocks arrow)[k]? = some csb2
            ∧ (k = p →
                (csb.role = Role.UNDEFINED → csb2.role = Role.PRODUCT)
                ∧ (csb.role = Role.REACTANT → csb2.role = Role.INTERMEDIATE)
                ∧ (csb.role = Role.PRODUCT ∨ csb.role = Role.INTERMEDIATE
                    ∨ csb.role = Role.CATALYST → csb2.role = csb.role))
            ∧ (k = r →
                (csb.role = Role.UNDEFINED → csb2.role = Role.REACTANT)
                ∧ (csb.role = Role.PRODUCT → csb2.role = Role.INTERMEDIATE)
                ∧ (csb.role = Role.REACTANT ∨ csb.role = Role.INTERMEDIATE
                    ∨ csb.role = Role.CATALYST → csb2.role = csb.role))
            ∧ (k ≠ p → k ≠ r → csb2.role = csb.role) := by
  have hinv := scanArrow_inv blocks arrow
  unfold ScanInv at hinv
  obtain ⟨p, cp, hp, hplt, hpget, hpray, -⟩ := hinv.1 (le_of_lt heff.1)
  obtain ⟨r, cr, hr, hrlt, hrget, hrray, -, -⟩ := hinv.2 (le_of_lt heff.2)
  have hne : p ≠ r := by
    rintro rfl
    rw [hpget] at hrget
    cases hrget
    rw [hpray] at hrray
    cases hrray
  refine ⟨p, r, hp, hr, hplt, hrlt, hne, ?_⟩
  intro k csb hk
  have hstep : arrowStep blocks arrow
      = modifyAt (updateReac p) (modifyAt updateProd blocks p) r := by
    simp [arrowStep, applyArrow, heff, hp, hr]
  rw [hstep, getElem?_modifyAt, getElem?_modifyAt]
  by_cases hkr : k = r
  · subst hkr
    have hkp : k ≠ p := fun h => hne h.symm
    refine ⟨updateReac p csb, by simp [hkp, hk], fun h => absurd h hkp, ?_, fun _ h => absurd rfl h⟩
    intro _
    cases hrole : csb.role <;> simp [updateReac, hrole]
  · by_cases hkp : k = p
    · subst hkp
      refine ⟨updateProd csb, by simp [hkr, hk], ?_, fun h => absurd h hkr, fun h => absurd rfl h⟩
      intro _
      cases hrole : csb.role <;> simp [updateProd, hrole]
    · exact ⟨csb, by simp [hkr, hkp, hk], fun h => absurd h hkp, fun h => absurd h hkr, fun _ _ => rfl⟩

/-- Witness of C4: the first arrow of the scenario on three fresh singleton blocks. -/
theorem arrowStep_roles_witness :
    ∃ p r : Nat, (scanArrow (scenarioDocument.fragments.map MolSumm.new) ⟨0, ⟨0, 0⟩, ⟨10, 0⟩⟩).idx_cs_min_prod = (p : Int)
      ∧ (scanArrow (scenarioDocument.fragments.map MolSumm.new) ⟨0, ⟨0, 0⟩, ⟨10, 0⟩⟩).idx_cs_min_reac = (r : Int)
      ∧ p < (scenarioDocument.fragments.map MolSumm.new).length
      ∧ r < (scenarioDocument.fragments.map MolSumm.new).length ∧ p ≠ r
      ∧ ∀ k csb, (scenarioDocument.fragments.map MolSumm.new)[k]? = some csb →
          ∃ csb2, (arrowStep (scenarioDocument.fragments.map MolSumm.new) ⟨0, ⟨0, 0⟩, ⟨10, 0⟩⟩)[k]? = some csb2
            ∧ (k = p →
                (csb.role = Role.UNDEFINED → csb2.role = Role.PRODUCT)
                ∧ (csb.role = Role.REACTANT → csb2.role = Role.INTERMEDIATE)
                ∧ (csb.role = Role.PRODUCT ∨ csb.role = Role.INTERMEDIATE
                    ∨ csb.role = Role.CATALYST → csb2.role = csb.role))
            ∧ (k = r →
                (csb.role = Role.UNDEFINED → csb2.role = Role.REACTANT)
                ∧ (csb.role = Role.PRODUCT → csb2.role = Role.INTERMEDIATE)
                ∧ (csb.role = Role.REACTANT ∨ csb.role = Role.INTERMEDIATE
                    ∨ csb.role = Role.CATALYST → csb2.role = csb.role))
            ∧ (k ≠ p → k ≠ r → csb2.role = csb.role) :=
  arrowStep_roles (scenarioDocument.fragments.map MolSumm.new) ⟨0, ⟨0, 0⟩, ⟨10, 0⟩⟩ (by decide)
/-! ## C5 -/

theorem Role.le_refl (a : Role) : Role.le a a = true := by
  cases a <;> rfl

theorem Role.le_trans (a b c : Role) (h1 : Role.le a b = true) (h2 : Role.le b c = true) :
    Role.le a c = true := by
  cases a <;> cases b <;> cases c <;> first | rfl | exact absurd h1 (by decide) | exact absurd h2 (by decide)

theorem updateProd_le (csb : MolSumm) : Role.le csb.role (updateProd csb).role = true := by
  cases h : csb.role <;> simp [updateProd, h, Role.le]

theorem updateReac_le (p : Int) (csb : MolSumm) :
    Role.le csb.role (updateReac p csb).role = true := by
  cases h : csb.role <;> simp [updateReac, h, Role.le]

theorem arrowStep_le (blocks : List MolSumm) (arrow : KETReactionArrow) (k : Nat) (csb : MolSumm)
    (h : blocks[k]? = some csb) :
    ∃ csb2, (arrowStep blocks arrow)[k]? = some csb2 ∧ Role.le csb.role csb2.role = true := by
  unfold arrowStep applyArrow
  split
  · rw [getElem?_modifyAt, getElem?_modifyAt]
    by_cases h1 : k = (scanArrow blocks arrow).idx_cs_min_reac.toNat
    · by_cases h2 : k = (scanArrow blocks arrow).idx_cs_min_prod.toNat
      · refine ⟨updateReac (scanArrow blocks arrow).idx_cs_min_prod (updateProd csb), by simp [← h1, ← h2, h], ?_⟩
        exact Role.le_trans _ _ _ (updateProd_le csb) (updateReac_le _ _)
      · exact ⟨updateReac (scanArrow blocks arrow).idx_cs_min_prod csb, by simp [← h1, h2, h], updateReac_le _ _⟩
    · by_cases h2 : k = (scanArrow blocks arrow).idx_cs_min_prod.toNat
      · exact ⟨updateProd csb, by simp [h1, ← h2, h], updateProd_le _⟩
      · exact ⟨csb, by simp [h1, h2, h], Role.le_refl _⟩
  · exact ⟨csb, h, Role.le_refl _⟩

/-- C5: over any sequence of arrows, from any state of the block vector, the role of every
block stays equal or moves up in the order `UNDEFINED` < `REACTANT`, `PRODUCT` <
`INTERMEDIATE`; an `INTERMEDIATE` block stays `INTERMEDIATE`, and a block that is not
`UNDEFINED` does not become `UNDEFINED`. -/
theorem handleArrows_role_monotone (blocks : List MolSumm) (arrows : List KETReactionArrow)
    (k : Nat) (csb : MolSumm) (h : blocks[k]? = some csb) :
    ∃ csb2, (handleArrows blocks arrows)[k]? = some csb2
      ∧ Role.le csb.role csb2.role = true
      ∧ (csb.role = Role.INTERMEDIATE → csb2.role = Role.INTERMEDIATE)
      ∧ (csb.role ≠ Role.UNDEFINED → csb2.role ≠ Role.UNDEFINED) := by
  have key : ∃ csb2, (handleArrows blocks arrows)[k]? = some csb2
      ∧ Role.le csb.role csb2.role = true := by
    induction arrows generalizing blocks csb with
    | nil => exact ⟨csb, h, Role.le_refl _⟩
    | cons arrow rest ih =>
      obtain ⟨c1, hc1, hle1⟩ := arrowStep_le blocks arrow k csb h
      obtain ⟨c2, hc2, hle2⟩ := ih (arrowStep blocks arrow) c1 hc1
      exact ⟨c2, by simpa [handleArrows] using hc2, Role.le_trans _ _ _ hle1 hle2⟩
  obtain ⟨csb2, h2, hle⟩ := key
  refine ⟨csb2, h2, hle, ?_, ?_⟩
  · intro hi
    rw [hi] at hle
    cases hr : csb2.role <;> rw [hr] at hle <;> first | rfl | exact absurd hle (by decide)
  · intro hu hc
    rw [hc] at hle
    cases hr : csb.role <;> rw [hr] at hle <;> first | exact absurd hr hu | exact absurd hle (by decide)

/-- Witness of C5: the middle block of the scenario over both arrows. -/
theorem handleArrows_role_monotone_witness :
    ∃ csb2, (handleArrows (scenarioDocument.fragments.map MolSumm.new) scenarioArrows)[1]? = some csb2
      ∧ Role.le (MolSumm.new (box 12 (-1) 18 1)).role csb2.role = true
      ∧ ((MolSumm.new (box 12 (-1) 18 1)).role = Role.INTERMEDIATE → csb2.role = Role.INTERMEDIATE)
      ∧ ((MolSumm.new (box 12 (-1) 18 1)).role ≠ Role.UNDEFINED → csb2.role ≠ Role.UNDEFINED) :=
  handleArrows_role_monotone (scenarioDocument.fragments.map MolSumm.new) scenarioArrows 1
    (MolSumm.new (box 12 (-1) 18 1)) (by decide)
/-! ## C6 -/

/-- C6: `findPlusNeighbours` returns success only with a connection it has written, the
horizontal or the vertical pair, whose two indexes are both Molecule components; when neither
a horizontal nor a vertical pair exists it returns failure. -/
theorem findPlusNeighbours_success_only_molecules (comps : List ReactionComponent)
    (plus_pos : Vec2f) (mol_tops mol_bottoms mol_lefts mol_rights : FLOAT_INT_PAIRS)
    (connection : Nat × Nat) :
    (∀ c : Nat × Nat,
        findPlusNeighbours comps plus_pos mol_tops mol_bottoms mol_lefts mol_rights connection
          = (true, c) →
        isMolecule comps c.1 = true ∧ isMolecule comps c.2 = true
        ∧ ((∃ r rs l ls,
              (findPlusIters comps plus_pos mol_tops mol_bottoms mol_lefts mol_rights).rights_row_it
                = r :: rs
              ∧ (findPlusIters comps plus_pos mol_tops mol_bottoms mol_lefts mol_rights).lefts_row_it
                = l :: ls
              ∧ c = (l.2, r.2))
          ∨ (∃ t ts b bs,
              (findPlusIters comps plus_pos mol_tops mol_bottoms mol_lefts mol_rights).tops_col_it
                = t :: ts
              ∧ (findPlusIters comps plus_pos mol_tops mol_bottoms mol_lefts mol_rights).bottoms_col_it
                = b :: bs
              ∧ c = (t.2, b.2))))
    ∧ (((findPlusIters comps plus_pos mol_tops mol_bottoms mol_lefts mol_rights).rights_row_it = []
          ∨ (findPlusIters comps plus_pos mol_tops mol_bottoms mol_lefts mol_rights).lefts_row_it = []) →
        ((findPlusIters comps plus_pos mol_tops mol_bottoms mol_lefts mol_rights).tops_col_it = []
          ∨ (findPlusIters comps plus_pos mol_tops mol_bottoms mol_lefts mol_rights).bottoms_col_it = []) →
        (findPlusNeighbours comps plus_pos mol_tops mol_bottoms mol_lefts mol_rights connection).1
          = false) := by
  unfold findPlusNeighbours
  generalize findPlusIters comps plus_pos mol_tops mol_bottoms mol_lefts mol_rights = its
  obtain ⟨rr, lr, tc, bc⟩ := its
  constructor
  · intro c hc
    cases rr with
    | nil =>
      cases tc with
      | nil => simp [choosePlusPair, horizontalChoice] at hc
      | cons t ts =>
        cases bc with
        | nil => simp [choosePlusPair, horizontalChoice] at hc
        | cons b bs =>
          simp [choosePlusPair, horizontalChoice] at hc
          obtain ⟨⟨h1, h2⟩, rfl⟩ := hc
          exact ⟨h1, h2, Or.inr ⟨t, ts, b, bs, rfl, rfl, rfl⟩⟩
    | cons r rs =>
      cases lr with
      | nil =>
        cases tc with
        | nil => simp [choosePlusPair, horizontalChoice] at hc
        | cons t ts =>
          cases bc with
          | nil => simp [choosePlusPair, horizontalChoice] at hc
          | cons b bs =>
            simp [choosePlusPair, horizontalChoice] at hc
            obtain ⟨⟨h1, h2⟩, rfl⟩ := hc
            exact ⟨h1, h2, Or.inr ⟨t, ts, b, bs, rfl, rfl, rfl⟩⟩
      | cons l ls =>
        cases tc with
        | nil =>
          simp [choosePlusPair, horizontalChoice] at hc
          obtain ⟨⟨h1, h2⟩, rfl⟩ := hc
          exact ⟨h1, h2, Or.inl ⟨r, rs, l, ls, rfl, rfl, rfl⟩⟩
        | cons t ts =>
          cases bc with
          | nil =>
            simp [choosePlusPair, horizontalChoice] at hc
            obtain ⟨⟨h1, h2⟩, rfl⟩ := hc
            exact ⟨h1, h2, Or.inl ⟨r, rs, l, ls, rfl, rfl, rfl⟩⟩
          | cons b bs =>
            simp only [choosePlusPair, horizontalChoice] at hc
            split at hc
            · simp at hc
              obtain ⟨⟨h1, h2⟩, rfl⟩ := hc
              exact ⟨h1, h2, Or.inr ⟨t, ts, b, bs, rfl, rfl, rfl⟩⟩
            · simp at hc
              obtain ⟨⟨h1, h2⟩, rfl⟩ := hc
              exact ⟨h1, h2, Or.inl ⟨r, rs, l, ls, rfl, rfl, rfl⟩⟩
  · intro hh hv
    cases rr <;> cases lr <;> cases tc <;> cases bc <;>
      simp_all [choosePlusPair, horizontalChoice]

/-- Witness of C6: the plus of a cross-shaped document, where success is returned. -/
theorem findPlusNeighbours_success_only_molecules_witness :
    isMolecule (collectComponents exampleShifts (crossDocument 1 4 5)) 2 = true
    ∧ isMolecule (collectComponents exampleShifts (crossDocument 1 4 5)) 3 = true :=
  have h := (findPlusNeighbours_success_only_molecules
    (collectComponents exampleShifts (crossDocument 1 4 5)) ⟨0, 0⟩
    (sortedEdges (collectComponents exampleShifts (crossDocument 1 4 5))).1
    (sortedEdges (collectComponents exampleShifts (crossDocument 1 4 5))).2.1
    (sortedEdges (collectComponents exampleShifts (crossDocument 1 4 5))).2.2.1
    (sortedEdges (collectComponents exampleShifts (crossDocument 1 4 5))).2.2.2 (0, 0)).1 (2, 3)
    (by decide)
  ⟨h.1, h.2.1⟩

/-! ## C7 and C8 -/

/-- C7, evaluation at the failing input: the plus at the origin has the horizontal pair (1, 0)
with near edges at distance 1 and the vertical pair (2, 3) with edges at distance 5, all four
Molecule components, and `findPlusNeighbours` returns the vertical pair. -/
theorem findPlusNeighbours_vertical_at_smaller_horizontal_gap :
    plusItersOf exampleShifts (crossDocument 1 4 5) ⟨0, 0⟩
      = ⟨[(-1, 0)], [(1, 1)], [(5, 2)], [(-5, 3)]⟩
    ∧ min (fabs (-1 - 0)) (fabs (0 - 1)) < min (fabs (5 - 0)) (fabs (-5 - 0))
    ∧ isMolecule (collectComponents exampleShifts (crossDocument 1 4 5)) 0 = true
    ∧ isMolecule (collectComponents exampleShifts (crossDocument 1 4 5)) 1 = true
    ∧ plusNeighboursOf exampleShifts (crossDocument 1 4 5) ⟨0, 0⟩ = (true, (2, 3)) := by
  decide

/-- C8, evaluation at the failing input: the plus at the origin has the horizontal pair (1, 0)
of Molecule components and the vertical pair (2, 3), the edges of both pairs at distance 2,
and `findPlusNeighbours` returns the vertical pair. -/
theorem findPlusNeighbours_vertical_at_equal_gap :
    plusItersOf exampleShifts (crossDocument 2 1 2) ⟨0, 0⟩
      = ⟨[(-2, 0)], [(2, 1)], [(2, 2)], [(-2, 3)]⟩
    ∧ min (fabs (-2 - 0)) (fabs (0 - 2)) = min (fabs (2 - 0)) (fabs (-2 - 0))
    ∧ isMolecule (collectComponents exampleShifts (crossDocument 2 1 2)) 0 = true
    ∧ isMolecule (collectComponents exampleShifts (crossDocument 2 1 2)) 1 = true
    ∧ plusNeighboursOf exampleShifts (crossDocument 2 1 2) ⟨0, 0⟩ = (true, (2, 3)) := by
  decide
/-! ## C2, C9, C10: evaluations -/

/-- C2, evaluation at the failing input: two molecules with two plus marks between them. Both
plus marks resolve to the pair (1, 0) of Molecule components. The first plus joins the two
components in the block of node 0 with the members [1, 0]. The second plus runs `LI_BOTH`
with both iterators on that one node, where the loop of lines 338-342 appends to the vector it
iterates over: the run is undefined and no finalized blocks are produced, so there is no
partition of the Molecule components. -/
theorem buildBlocks_duplicate_plus :
    plusNeighboursOf exampleShifts duplicatePlusDocument ⟨5, 2⟩ = (true, (1, 0))
    ∧ plusNeighboursOf exampleShifts duplicatePlusDocument ⟨5, -2⟩ = (true, (1, 0))
    ∧ isMolecule (collectComponents exampleShifts duplicatePlusDocument) 0 = true
    ∧ isMolecule (collectComponents exampleShifts duplicatePlusDocument) 1 = true
    ∧ (plusLoop duplicatePlusDocument.fragments.length
          (sortedEdges (collectComponents exampleShifts duplicatePlusDocument))
          (duplicatePlusDocument.pluses.take 1) 0
          ⟨collectComponents exampleShifts duplicatePlusDocument, [], 0, []⟩).map
        (fun st => (st._component_summ_blocks_list.map (fun nd => (nd.1, nd.2.indexes)),
          (st._reaction_components.take 2).map (fun rc => rc.summ_block_it)))
      = some ([(0, [1, 0])], [some 0, some 0])
    ∧ plusLoop duplicatePlusDocument.fragments.length
        (sortedEdges (collectComponents exampleShifts duplicatePlusDocument))
        duplicatePlusDocument.pluses 0
        ⟨collectComponents exampleShifts duplicatePlusDocument, [], 0, []⟩ = none
    ∧ buildBlocks exampleShifts duplicatePlusDocument = none := by
  decide

/-- C9, evaluation at the failing input: after the pair (1, 0) has created the block with
members [1, 0], both components are connected and hold the iterator of node 0. Processing the
pair (1, 0) again runs `LI_BOTH` with `block_first` and `block_second` the same node; the loop
of lines 338-342 appends to the vector it iterates over, which is undefined behaviour, so the
step is not a no-op: it has no result, and neither has the run of the pair list. -/
theorem connectPlus_same_block :
    (connectPairs [(1, 0)] (moleculesState [box 0 (-10) 4 10, box 6 (-10) 10 10])).map
        (fun st => (st._component_summ_blocks_list.map (fun nd => (nd.1, nd.2.indexes)),
          st._reaction_components.map (fun rc => (rc.summ_block_idx, rc.summ_block_it))))
      = some ([(0, [1, 0])],
          [(SummBlockIdx.CONNECTED, some 0), (SummBlockIdx.CONNECTED, some 0)])
    ∧ (connectPairs [(1, 0)] (moleculesState [box 0 (-10) 4 10, box 6 (-10) 10 10])).bind
        (fun st => connectPlus st (1, 0)) = none
    ∧ connectPairs [(1, 0), (1, 0)] (moleculesState [box 0 (-10) 4 10, box 6 (-10) 10 10])
        = none := by
  decide

/-- C10, evaluation at the failing input: four molecules in a row and the pairs of the three
plus marks between them. In the order left to right the third pair dereferences the iterator
of component 2, which `LI_SECOND_ONLY` never assigned, so the run is undefined; in the
reverse order the run ends with the single block [3, 2, 1, 0]. The same holds for the
documents with the plus marks in these two orders. -/
theorem partitionOfPairs_order :
    partitionOfPairs (rowDocument []).fragments [(1, 0), (2, 1), (3, 2)] = none
    ∧ partitionOfPairs (rowDocument []).fragments [(1, 0), (2, 1), (3, 2)].reverse
        = some [[3, 2, 1, 0]]
    ∧ [⟨5, 0⟩, ⟨11, 0⟩, ⟨17, 0⟩].map
        (plusNeighboursOf exampleShifts (rowDocument [⟨⟨5, 0⟩⟩, ⟨⟨11, 0⟩⟩, ⟨⟨17, 0⟩⟩]))
        = [(true, (1, 0)), (true, (2, 1)), (true, (3, 2))]
    ∧ buildBlocks exampleShifts (rowDocument [⟨⟨5, 0⟩⟩, ⟨⟨11, 0⟩⟩, ⟨⟨17, 0⟩⟩]) = none
    ∧ (buildBlocks exampleShifts (rowDocument [⟨⟨17, 0⟩⟩, ⟨⟨11, 0⟩⟩, ⟨⟨5, 0⟩⟩])).map
        (fun st => st._component_summ_blocks.map (fun csb => csb.indexes))
      = some [[3, 2, 1, 0]] := by
  decide
/-! ## C3 -/

theorem ray_along_row_right (r : Rect2f) (bx ex : Int) (hd : bx < ex)
    (hy : r.bottom ≤ 0 ∧ 0 ≤ r.top) (hw : r.left ≤ r.right) :
    r.rayIntersectsRect ⟨bx, 0⟩ ⟨ex, 0⟩ = decide (bx ≤ r.right) := by
  have h1 : raySlab r.left r.right bx (ex - bx) = some (some (r.left - bx, r.right - bx, ex - bx)) := by
    unfold raySlab
    rw [if_pos (by omega)]
  have h2 : raySlab r.bottom r.top 0 (0 - 0) = some none := by
    unfold raySlab
    simp [hy.1, hy.2]
  unfold Rect2f.rayIntersectsRect
  simp only [h1, h2]
  have h3 : r.left - bx ≤ r.right - bx := by omega
  simp [h3]

theorem ray_along_row_left (r : Rect2f) (bx ex : Int) (hd : ex < bx)
    (hy : r.bottom ≤ 0 ∧ 0 ≤ r.top) (hw : r.left ≤ r.right) :
    r.rayIntersectsRect ⟨bx, 0⟩ ⟨ex, 0⟩ = decide (r.left ≤ bx) := by
  have h1 : raySlab r.left r.right bx (ex - bx)
      = some (some (bx - r.right, bx - r.left, -(ex - bx))) := by
    unfold raySlab
    rw [if_neg (by omega), if_pos (by omega)]
  have h2 : raySlab r.bottom r.top 0 (0 - 0) = some none := by
    unfold raySlab
    simp [hy.1, hy.2]
  unfold Rect2f.rayIntersectsRect
  simp only [h1, h2]
  have h3 : bx - r.right ≤ bx - r.left := by omega
  simp [h3]

theorem pointDistance_row_before (r : Rect2f) (px : Int) (hy : r.bottom ≤ 0 ∧ 0 ≤ r.top)
    (hw : r.left ≤ r.right) (hx : px ≤ r.left) :
    r.pointDistance ⟨px, 0⟩ = (r.left - px) * (r.left - px) := by
  unfold Rect2f.pointDistance
  have h1 : max (max (r.left - px) (px - r.right)) 0 = r.left - px := by
    simp only [max_def]
    split_ifs <;> omega
  have h2 : max (max (r.bottom - 0) (0 - r.top)) 0 = 0 := by
    simp only [max_def]
    split_ifs <;> omega
  simp only [h1, h2]
  ring

theorem pointDistance_row_after (r : Rect2f) (px : Int) (hy : r.bottom ≤ 0 ∧ 0 ≤ r.top)
    (hw : r.left ≤ r.right) (hx : r.right ≤ px) :
    r.pointDistance ⟨px, 0⟩ = (px - r.right) * (px - r.right) := by
  unfold Rect2f.pointDistance
  have h1 : max (max (r.left - px) (px - r.right)) 0 = px - r.right := by
    simp only [max_def]
    split_ifs <;> omega
  have h2 : max (max (r.bottom - 0) (0 - r.top)) 0 = 0 := by
    simp only [max_def]
    split_ifs <;> omega
  simp only [h1, h2]
  ring

theorem sq_lt_sq_of_lt (a b : Int) (ha : 0 ≤ a) (hab : a < b) : a * a < b * b := by
  nlinarith

/-- C3: two arrows (0,0)-(10,0) and (20,0)-(30,0), no plus, and three molecule fragments
crossing the line y=0, M1 at x<0, M2 within 10<x<20, M3 at x>30, in any order in the component
list. The reconstruction ends with one block per fragment, block and component index equal:
the block of M1 is `REACTANT` with `arrows_to` the block of M2, the block of M2 is
`INTERMEDIATE` with `arrows_to` the block of M3, the block of M3 is `PRODUCT` without edge. -/
theorem scenario_two_arrows (sh : BBoxShifts) (q : Bool) (ty1 ty2 : Int) (m1 m2 m3 : Rect2f)
    (frags : List Rect2f)
    (h1 : m1.left ≤ m1.right ∧ m1.right < 0 ∧ m1.bottom < 0 ∧ 0 < m1.top)
    (h2 : 10 < m2.left ∧ m2.left ≤ m2.right ∧ m2.right < 20 ∧ m2.bottom < 0 ∧ 0 < m2.top)
    (h3 : 30 < m3.left ∧ m3.left ≤ m3.right ∧ m3.bottom < 0 ∧ 0 < m3.top)
    (hperm : frags.Perm [m1, m2, m3]) :
    ∃ i1 i2 i3 : Nat, frags[i1]? = some m1 ∧ frags[i2]? = some m2 ∧ frags[i3]? = some m3
      ∧ ∃ st, parseMultipleArrowState sh
            ⟨q, frags, [], [⟨ty1, ⟨0, 0⟩, ⟨10, 0⟩⟩, ⟨ty2, ⟨20, 0⟩, ⟨30, 0⟩⟩]⟩ = some st
        ∧ st._component_summ_blocks.length = 3
        ∧ st._reaction_components[i1]?.map (fun rc => rc.summ_block_idx) = some (SummBlockIdx.idx i1)
        ∧ st._reaction_components[i2]?.map (fun rc => rc.summ_block_idx) = some (SummBlockIdx.idx i2)
        ∧ st._reaction_components[i3]?.map (fun rc => rc.summ_block_idx) = some (SummBlockIdx.idx i3)
        ∧ st._component_summ_blocks[i1]? = some ⟨m1, [i1], Role.REACTANT, [i2]⟩
        ∧ st._component_summ_blocks[i2]? = some ⟨m2, [i2], Role.INTERMEDIATE, [i3]⟩
        ∧ st._component_summ_blocks[i3]? = some ⟨m3, [i3], Role.PRODUCT, []⟩ := by
  have hnd : [m1, m2, m3].Nodup := by
    simp only [List.nodup_cons, List.mem_cons, List.mem_singleton, List.not_mem_nil,
      not_false_eq_true, List.nodup_nil, and_true, not_or]
    refine ⟨⟨?_, ?_⟩, ?_⟩ <;> rintro rfl <;> omega
  have hnd2 := hperm.nodup_iff.mpr hnd
  have hlen := hperm.length_eq
  obtain ⟨w1, x1, b1, t1⟩ := h1
  obtain ⟨x2, w2, y2, b2, t2⟩ := h2
  obtain ⟨x3, w3, b3, t3⟩ := h3
  have r11 : m1.rayIntersectsRect ⟨0, 0⟩ ⟨10, 0⟩ = false := by
    rw [ray_along_row_right m1 0 10 (by omega) ⟨by omega, by omega⟩ w1]; simp; omega
  have r12 : m2.rayIntersectsRect ⟨0, 0⟩ ⟨10, 0⟩ = true := by
    rw [ray_along_row_right m2 0 10 (by omega) ⟨by omega, by omega⟩ w2]; simp; omega
  have r13 : m3.rayIntersectsRect ⟨0, 0⟩ ⟨10, 0⟩ = true := by
    rw [ray_along_row_right m3 0 10 (by omega) ⟨by omega, by omega⟩ w3]; simp; omega
  have l11 : m1.rayIntersectsRect ⟨10, 0⟩ ⟨0, 0⟩ = true := by
    rw [ray_along_row_left m1 10 0 (by omega) ⟨by omega, by omega⟩ w1]; simp; omega
  have r21 : m1.rayIntersectsRect ⟨20, 0⟩ ⟨30, 0⟩ = false := by
    rw [ray_along_row_right m1 20 30 (by omega) ⟨by omega, by omega⟩ w1]; simp; omega
  have r22 : m2.rayIntersectsRect ⟨20, 0⟩ ⟨30, 0⟩ = false := by
    rw [ray_along_row_right m2 20 30 (by omega) ⟨by omega, by omega⟩ w2]; simp; omega
  have r23 : m3.rayIntersectsRect ⟨20, 0⟩ ⟨30, 0⟩ = true := by
    rw [ray_along_row_right m3 20 30 (by omega) ⟨by omega, by omega⟩ w3]; simp; omega
  have l21 : m1.rayIntersectsRect ⟨30, 0⟩ ⟨20, 0⟩ = true := by
    rw [ray_along_row_left m1 30 20 (by omega) ⟨by omega, by omega⟩ w1]; simp; omega
  have l22 : m2.rayIntersectsRect ⟨30, 0⟩ ⟨20, 0⟩ = true := by
    rw [ray_along_row_left m2 30 20 (by omega) ⟨by omega, by omega⟩ w2]; simp; omega
  -- distances
  have d12 := pointDistance_row_before m2 10 ⟨by omega, by omega⟩ w2 (by omega)
  have d13 := pointDistance_row_before m3 10 ⟨by omega, by omega⟩ w3 (by omega)
  have d11 := pointDistance_row_after m1 0 ⟨by omega, by omega⟩ w1 (by omega)
  have d23 := pointDistance_row_before m3 30 ⟨by omega, by omega⟩ w3 (by omega)
  have d21 := pointDistance_row_after m1 20 ⟨by omega, by omega⟩ w1 (by omega)
  have d22 := pointDistance_row_after m2 20 ⟨by omega, by omega⟩ w2 (by omega)
  have c1 : m2.pointDistance ⟨10, 0⟩ < m3.pointDistance ⟨10, 0⟩ := by
    rw [d12, d13]; exact sq_lt_sq_of_lt _ _ (by omega) (by omega)
  have c2 : m2.pointDistance ⟨20, 0⟩ < m1.pointDistance ⟨20, 0⟩ := by
    rw [d22, d21]; exact sq_lt_sq_of_lt _ _ (by omega) (by omega)
  have p12 : 0 < m2.pointDistance ⟨10, 0⟩ := by
    rw [d12]; exact mul_pos (by omega) (by omega)
  have p11 : 0 < m1.pointDistance ⟨0, 0⟩ := by
    rw [d11]; exact mul_pos (by omega) (by omega)
  have p23 : 0 < m3.pointDistance ⟨30, 0⟩ := by
    rw [d23]; exact mul_pos (by omega) (by omega)
  have p22 : 0 < m2.pointDistance ⟨20, 0⟩ := by
    rw [d22]; exact mul_pos (by omega) (by omega)
  have n1 : ∀ (r : Rect2f) (p : Vec2f), ¬ r.pointDistance p < 0 :=
    fun r p => not_lt.mpr (pointDistance_nonneg r p)
  have c3 := not_lt.mpr (le_of_lt c1)
  have c4 := not_lt.mpr (le_of_lt c2)
  match frags, hlen, hperm, hnd2 with
  | [a, b, c], _, hperm, hnd2 =>
    have ha : a ∈ [m1, m2, m3] := hperm.subset (by simp)
    have hb : b ∈ [m1, m2, m3] := hperm.subset (by simp)
    have hc : c ∈ [m1, m2, m3] := hperm.subset (by simp)
    simp only [List.mem_cons, List.mem_singleton, List.not_mem_nil, or_false] at ha hb hc
    clear hperm hnd
    rcases ha with rfl | rfl | rfl <;> rcases hb with rfl | rfl | rfl <;>
      rcases hc with rfl | rfl | rfl <;>
      first
      | (exfalso; simp at hnd2; done)
      | (refine ⟨0, 1, 2, rfl, rfl, rfl, ?_⟩
         simp [parseMultipleArrowState, buildBlocks, plusLoop, finalizeBlocks, copyBlocks,
           addSingleMolecules, collectComponents, ReactionComponent.new, MolSumm.new,
           handleArrows, markArrows, markConnected, arrowStep, scanArrow, scanBlocks, scanBlock,
           applyArrow, modifyAt, updateProd, updateReac, r11, r12, r13, l11, r21, r22, r23, l21,
           l22, c1, c2, c3, c4, p12, p11, p23, p22, n1])
      | (refine ⟨0, 2, 1, rfl, rfl, rfl, ?_⟩
         simp [parseMultipleArrowState, buildBlocks, plusLoop, finalizeBlocks, copyBlocks,
           addSingleMolecules, collectComponents, ReactionComponent.new, MolSumm.new,
           handleArrows, markArrows, markConnected, arrowStep, scanArrow, scanBlocks, scanBlock,
           applyArrow, modifyAt, updateProd, updateReac, r11, r12, r13, l11, r21, r22, r23, l21,
           l22, c1, c2, c3, c4, p12, p11, p23, p22, n1])
      | (refine ⟨1, 0, 2, rfl, rfl, rfl, ?_⟩
         simp [parseMultipleArrowState, buildBlocks, plusLoop, finalizeBlocks, copyBlocks,
           addSingleMolecules, collectComponents, ReactionComponent.new, MolSumm.new,
           handleArrows, markArrows, markConnected, arrowStep, scanArrow, scanBlocks, scanBlock,
           applyArrow, modifyAt, updateProd, updateReac, r11, r12, r13, l11, r21, r22, r23, l21,
           l22, c1, c2, c3, c4, p12, p11, p23, p22, n1])
      | (refine ⟨2, 0, 1, rfl, rfl, rfl, ?_⟩
         simp [parseMultipleArrowState, buildBlocks, plusLoop, finalizeBlocks, copyBlocks,
           addSingleMolecules, collectComponents, ReactionComponent.new, MolSumm.new,
           handleArrows, markArrows, markConnected, arrowStep, scanArrow, scanBlocks, scanBlock,
           applyArrow, modifyAt, updateProd, updateReac, r11, r12, r13, l11, r21, r22, r23, l21,
           l22, c1, c2, c3, c4, p12, p11, p23, p22, n1])
      | (refine ⟨1, 2, 0, rfl, rfl, rfl, ?_⟩
         simp [parseMultipleArrowState, buildBlocks, plusLoop, finalizeBlocks, copyBlocks,
           addSingleMolecules, collectComponents, ReactionComponent.new, MolSumm.new,
           handleArrows, markArrows, markConnected, arrowStep, scanArrow, scanBlocks, scanBlock,
           applyArrow, modifyAt, updateProd, updateReac, r11, r12, r13, l11, r21, r22, r23, l21,
           l22, c1, c2, c3, c4, p12, p11, p23, p22, n1])
      | (refine ⟨2, 1, 0, rfl, rfl, rfl, ?_⟩
         simp [parseMultipleArrowState, buildBlocks, plusLoop, finalizeBlocks, copyBlocks,
           addSingleMolecules, collectComponents, ReactionComponent.new, MolSumm.new,
           handleArrows, markArrows, markConnected, arrowStep, scanArrow, scanBlocks, scanBlock,
           applyArrow, modifyAt, updateProd, updateReac, r11, r12, r13, l11, r21, r22, r23, l21,
           l22, c1, c2, c3, c4, p12, p11, p23, p22, n1])

/-- Witness of C3: fragments (-5,-1)-(-2,1), (12,-1)-(18,1) and (32,-1)-(35,1). -/
theorem scenario_two_arrows_witness :
    ∃ i1 i2 i3 : Nat, scenarioDocument.fragments[i1]? = some (box (-5) (-1) (-2) 1)
      ∧ scenarioDocument.fragments[i2]? = some (box 12 (-1) 18 1)
      ∧ scenarioDocument.fragments[i3]? = some (box 32 (-1) 35 1)
      ∧ ∃ st, parseMultipleArrowState exampleShifts
            ⟨false, scenarioDocument.fragments, [],
              [⟨0, ⟨0, 0⟩, ⟨10, 0⟩⟩, ⟨0, ⟨20, 0⟩, ⟨30, 0⟩⟩]⟩ = some st
        ∧ st._component_summ_blocks.length = 3
        ∧ st._reaction_components[i1]?.map (fun rc => rc.summ_block_idx) = some (SummBlockIdx.idx i1)
        ∧ st._reaction_components[i2]?.map (fun rc => rc.summ_block_idx) = some (SummBlockIdx.idx i2)
        ∧ st._reaction_components[i3]?.map (fun rc => rc.summ_block_idx) = some (SummBlockIdx.idx i3)
        ∧ st._component_summ_blocks[i1]?
            = some ⟨box (-5) (-1) (-2) 1, [i1], Role.REACTANT, [i2]⟩
        ∧ st._component_summ_blocks[i2]?
            = some ⟨box 12 (-1) 18 1, [i2], Role.INTERMEDIATE, [i3]⟩
        ∧ st._component_summ_blocks[i3]?
            = some ⟨box 32 (-1) 35 1, [i3], Role.PRODUCT, []⟩ :=
  scenario_two_arrows exampleShifts false 0 0 (box (-5) (-1) (-2) 1) (box 12 (-1) 18 1)
    (box 32 (-1) 35 1) scenarioDocument.fragments (by decide) (by decide) (by decide)
    (List.Perm.refl _)
/-! ## C13 -/

/-- C13: an arrow for which no block passes the begin-to-end ray test, or for which no block
passes the end-to-begin test of the `else if`, leaves the block vector as it is (no role
change, no edge) and marks no component; `arrowStep` is a total function, so no error is
raised. An arrow that changes the vector has a block found in each of the two scans. -/
theorem arrowStep_no_effect (blocks : List MolSumm) (arrow : KETReactionArrow) :
    (((∀ csb ∈ blocks, csb.bbox.rayIntersectsRect arrow._begin arrow._end = false)
        ∨ (∀ csb ∈ blocks, csb.bbox.rayIntersectsRect arrow._begin arrow._end = true
            ∨ csb.bbox.rayIntersectsRect arrow._end arrow._begin = false)) →
      arrowStep blocks arrow = blocks
      ∧ ∀ (comps : List ReactionComponent) (base i : Nat),
          markArrows base [arrow] i blocks comps = comps)
    ∧ (arrowStep blocks arrow ≠ blocks →
        (∃ csb ∈ blocks, csb.bbox.rayIntersectsRect arrow._begin arrow._end = true)
        ∧ (∃ csb ∈ blocks, csb.bbox.rayIntersectsRect arrow._begin arrow._end = false
            ∧ csb.bbox.rayIntersectsRect arrow._end arrow._begin = true)) := by
  have hinv := scanArrow_inv blocks arrow
  unfold ScanInv at hinv
  have key : ((scanArrow blocks arrow).min_dist_prod > 0 ∧ (scanArrow blocks arrow).min_dist_reac > 0) →
      (∃ csb ∈ blocks, csb.bbox.rayIntersectsRect arrow._begin arrow._end = true)
      ∧ (∃ csb ∈ blocks, csb.bbox.rayIntersectsRect arrow._begin arrow._end = false
          ∧ csb.bbox.rayIntersectsRect arrow._end arrow._begin = true) := by
    intro heff
    obtain ⟨p, cp, -, -, hpget, hpray, -⟩ := hinv.1 (le_of_lt heff.1)
    obtain ⟨r, cr, -, -, hrget, hrray, hrray2, -⟩ := hinv.2 (le_of_lt heff.2)
    exact ⟨⟨cp, List.getElem?_mem hpget, hpray⟩, ⟨cr, List.getElem?_mem hrget, hrray, hrray2⟩⟩
  constructor
  · intro h
    have hno : ¬ ((scanArrow blocks arrow).min_dist_prod > 0
        ∧ (scanArrow blocks arrow).min_dist_reac > 0) := by
      intro heff
      obtain ⟨⟨cp, hcp, hp⟩, ⟨cr, hcr, hr1, hr2⟩⟩ := key heff
      rcases h with h | h
      · rw [h cp hcp] at hp
        cases hp
      · rcases h cr hcr with h3 | h3
        · rw [h3] at hr1
          cases hr1
        · rw [h3] at hr2
          cases hr2
    refine ⟨by simp [arrowStep, applyArrow, hno], ?_⟩
    intro comps base i
    simp [markArrows, hno]
  · intro hne
    apply key
    by_contra hno
    exact hne (by simp [arrowStep, applyArrow, hno])

/-- Witness of C13: an arrow along the line y=50 over the three blocks of the scenario. -/
theorem arrowStep_no_effect_witness :
    arrowStep (scenarioDocument.fragments.map MolSumm.new) ⟨0, ⟨0, 50⟩, ⟨10, 50⟩⟩
      = scenarioDocument.fragments.map MolSumm.new :=
  ((arrowStep_no_effect (scenarioDocument.fragments.map MolSumm.new) ⟨0, ⟨0, 50⟩, ⟨10, 50⟩⟩).1
    (Or.inl (by decide))).1

/-! ## C14 -/

theorem loadReaction_of_one_arrow (sh : BBoxShifts) (rxn : Document) (h : rxn.arrows.length = 1) :
    loadReaction sh rxn = Except.ok (some (parseOneArrowReaction rxn)) := by
  have hq : (!(!rxn.isQueryReaction || rxn.isQueryReaction)) = false := by
    cases rxn.isQueryReaction <;> rfl
  simp [loadReaction, hq, h]

/-- C14, counterexample: for the plus at (5,0) between the fragments (0,-1)-(4,1) and
(6,-1)-(10,1) and the arrow (12,0)-(20,0), no call made by `loadReaction` adds a Reactant
containing both fragments, and no reaction block is added. -/
theorem loadReaction_plus_arrow_not_merged :
    ∃ calls, loadReaction exampleShifts plusArrowDocument = Except.ok (some calls)
      ∧ (∀ mol, RxnCall.addReactantCopy mol ∈ calls → ¬ (0 ∈ mol ∧ 1 ∈ mol))
      ∧ ∀ role indexes arrows_to, RxnCall.addReactionBlock role indexes arrows_to ∉ calls := by
  have h : parseOneArrowReaction plusArrowDocument
      = [RxnCall.addReactantCopy [0], RxnCall.addReactantCopy [1], RxnCall.addProductCopy []] := by
    decide
  refine ⟨[RxnCall.addReactantCopy [0], RxnCall.addReactantCopy [1], RxnCall.addProductCopy []],
    by rw [loadReaction_of_one_arrow exampleShifts plusArrowDocument rfl, h], ?_, ?_⟩
  · intro mol hmol
    simp only [List.mem_cons, RxnCall.addReactantCopy.injEq, List.mem_singleton, reduceCtorEq,
      or_false, List.not_mem_nil] at hmol
    rcases hmol with rfl | rfl <;> simp
  · intro role indexes arrows_to h
    simp at h

/-- C14, amended: for that document, whatever the bounding-box margins, `loadReaction` takes
the single-arrow path and adds, in this order, a Reactant with fragment 0 alone, a Reactant
with fragment 1 alone and a Product without fragment. -/
theorem loadReaction_plus_arrow (sh : BBoxShifts) :
    loadReaction sh plusArrowDocument
      = Except.ok (some [RxnCall.addReactantCopy [0], RxnCall.addReactantCopy [1],
          RxnCall.addProductCopy []]) := by
  have h : parseOneArrowReaction plusArrowDocument
      = [RxnCall.addReactantCopy [0], RxnCall.addReactantCopy [1], RxnCall.addProductCopy []] := by
    decide
  have hl : plusArrowDocument.arrows.length = 1 := rfl
  rw [loadReaction_of_one_arrow sh plusArrowDocument hl, h]
/-! ## C16 -/

/-- C16, counterexample: on the three fresh blocks of the scenario the arrow (0,0)-(10,0)
takes effect with sub-type 0 and with sub-type 1 alike, so also with a sub-type that is not the
plain one: block 0 becomes `REACTANT` with the edge to block 1, block 1 becomes `PRODUCT`. -/
theorem arrowStep_any_sub_type :
    (arrowStep (scenarioDocument.fragments.map MolSumm.new) ⟨0, ⟨0, 0⟩, ⟨10, 0⟩⟩).map
        (fun csb => (csb.role, csb.arrows_to))
      = [(Role.REACTANT, [1]), (Role.PRODUCT, []), (Role.UNDEFINED, [])]
    ∧ (arrowStep (scenarioDocument.fragments.map MolSumm.new) ⟨1, ⟨0, 0⟩, ⟨10, 0⟩⟩).map
        (fun csb => (csb.role, csb.arrows_to))
      = [(Role.REACTANT, [1]), (Role.PRODUCT, []), (Role.UNDEFINED, [])] := by
  decide

/-- C16, amended: the arrow loop does not look at the sub-type: replacing the sub-type of
every arrow by any other value leaves the resulting block vector, roles and edges, the same;
every arrow is routed by its geometry alone. -/
theorem handleArrows_sub_type_irrelevant (blocks : List MolSumm)
    (arrows : List KETReactionArrow) (sub_type : KETReactionArrow → Int) :
    handleArrows blocks
        (arrows.map (fun arrow => { arrow with _arrow_type := sub_type arrow }))
      = handleArrows blocks arrows := by
  induction arrows generalizing blocks with
  | nil => rfl
  | cons arrow rest ih =>
    have h : arrowStep blocks { arrow with _arrow_type := sub_type arrow }
        = arrowStep blocks arrow := rfl
    simp only [handleArrows, List.map_cons, List.foldl_cons] at ih ⊢
    rw [h]
    exact ih (arrowStep blocks arrow)

/-! ## C17 -/

/-- C17, counterexample: the distinct pairs (1, 0) and (1, 1) have the same coordinate and
neither precedes the other under `pair_comp_asc` or `pair_comp_des`; the ranges
[(6,1),(6,2)] and [(6,2),(6,1)] are both left as they are by the sort, and the binary search
for 5 finds component 1 in the first and component 2 in the second. -/
theorem pair_comp_coincident :
    ((1, 0) : FLOAT_INT_PAIR) ≠ (1, 1)
    ∧ pair_comp_asc (1, 0) (1, 1) = false ∧ pair_comp_asc (1, 1) (1, 0) = false
    ∧ pair_comp_des (1, 0) (1, 1) = false ∧ pair_comp_des (1, 1) (1, 0) = false
    ∧ std_sort pair_comp_asc [(6, 1), (6, 2)] = [(6, 1), (6, 2)]
    ∧ std_sort pair_comp_asc [(6, 2), (6, 1)] = [(6, 2), (6, 1)]
    ∧ (std_upper_bound [(6, 1), (6, 2)] ((5, 0) : FLOAT_INT_PAIR) pair_comp_asc).head? = some (6, 1)
    ∧ (std_upper_bound [(6, 2), (6, 1)] ((5, 0) : FLOAT_INT_PAIR) pair_comp_asc).head? = some (6, 2) := by
  decide

/-- C17, amended: the comparators look at the coordinate only: `pair_comp_asc a b` holds
exactly when the coordinate of `a` is smaller, `pair_comp_des a b` exactly when it is greater.
Of two pairs exactly one precedes the other exactly when their coordinates differ; pairs with
coincident coordinates are equivalent, whatever their component indexes. -/
theorem pair_comp_by_coordinate (a b : FLOAT_INT_PAIR) :
    pair_comp_asc a b = decide (a.1 < b.1)
    ∧ pair_comp_des a b = decide (b.1 < a.1)
    ∧ ((pair_comp_asc a b = true ∧ pair_comp_asc b a = false
          ∨ pair_comp_asc a b = false ∧ pair_comp_asc b a = true) ↔ a.1 ≠ b.1)
    ∧ ((pair_comp_des a b = true ∧ pair_comp_des b a = false
          ∨ pair_comp_des a b = false ∧ pair_comp_des b a = true) ↔ a.1 ≠ b.1)
    ∧ ((pair_comp_asc a b = false ∧ pair_comp_asc b a = false) ↔ a.1 = b.1)
    ∧ ((pair_comp_des a b = false ∧ pair_comp_des b a = false) ↔ a.1 = b.1) := by
  simp only [pair_comp_asc, pair_comp_des, gt_iff_lt, decide_eq_true_eq, decide_eq_false_iff_not,
    not_lt, true_and]
  refine ⟨?_, ?_, ?_, ?_⟩
  · constructor
    · rintro (⟨h1, h2⟩ | ⟨h1, h2⟩) <;> omega
    · intro h
      omega
  · constructor
    · rintro (⟨h1, h2⟩ | ⟨h1, h2⟩) <;> omega
    · intro h
      omega
  · constructor
    · rintro ⟨h1, h2⟩
      omega
    · intro h
      omega
  · constructor
    · rintro ⟨h1, h2⟩
      omega
    · intro h
      omega
/-! ## Sorting -/

theorem std_sort_perm {α : Type} (comp : α → α → Bool) (l : List α) :
    (std_sort comp l).Perm l :=
  List.perm_insertionSort _ l

theorem std_sort_pairwise_key {α : Type} (key : α → Int) (comp : α → α → Bool)
    (hcomp : ∀ a b, comp a b = decide (key a < key b)) (l : List α) :
    (std_sort comp l).Pairwise (fun a b => key a ≤ key b) := by
  haveI : IsTotal α (fun a b => comp b a = false) :=
    ⟨fun a b => by
      simp only [hcomp, decide_eq_false_iff_not, not_lt]
      omega⟩
  haveI : IsTrans α (fun a b => comp b a = false) :=
    ⟨fun a b c => by
      simp only [hcomp, decide_eq_false_iff_not, not_lt]
      omega⟩
  have h := List.sorted_insertionSort (fun a b => comp b a = false) l
  unfold std_sort
  refine List.Pairwise.imp ?_ h
  intro a b hab
  simpa [hcomp] using hab

/-! ## C11 -/

theorem oneArrowWalk_molecules (l : List OneArrowComponent) (acc : List Nat) (passed : Bool)
    (h : ∀ c ∈ l, c.fragment_type = ReactionFragmentType.MOLECULE) :
    oneArrowWalk l acc passed
      = [RxnCall.addProductCopy (acc ++ l.filterMap (fun c => c.molecule))] := by
  induction l generalizing acc with
  | nil => simp [oneArrowWalk]
  | cons c rest ih =>
    have hc := h c (List.mem_cons_self _ _)
    have hrest : ∀ d ∈ rest, d.fragment_type = ReactionFragmentType.MOLECULE :=
      fun d hd => h d (List.mem_cons_of_mem _ hd)
    rw [oneArrowWalk]
    simp only [hc]
    rw [ih _ hrest]
    cases hm : c.molecule <;> simp [List.filterMap_cons, hm]

theorem oneArrowWalk_split (pre post : List OneArrowComponent) (a : OneArrowComponent)
    (acc : List Nat)
    (hpre : ∀ c ∈ pre, c.fragment_type = ReactionFragmentType.MOLECULE)
    (ha : a.fragment_type = ReactionFragmentType.ARROW) :
    oneArrowWalk (pre ++ a :: post) acc false
      = RxnCall.addReactantCopy (acc ++ pre.filterMap (fun c => c.molecule))
        :: oneArrowWalk post [] true := by
  induction pre generalizing acc with
  | nil => simp [oneArrowWalk, ha]
  | cons c rest ih =>
    have hc := hpre c (List.mem_cons_self _ _)
    have hrest : ∀ d ∈ rest, d.fragment_type = ReactionFragmentType.MOLECULE :=
      fun d hd => hpre d (List.mem_cons_of_mem _ hd)
    rw [List.cons_append, oneArrowWalk]
    simp only [hc]
    rw [ih _ hrest]
    cases hm : c.molecule <;> simp [List.filterMap_cons, hm]

theorem filterMap_molecule_fragments (frags : List Rect2f) :
    (frags.enum.map (fun e => (⟨e.2.left, ReactionFragmentType.MOLECULE, some e.1⟩ :
        OneArrowComponent))).filterMap (fun c => c.molecule)
      = List.range frags.length := by
  rw [List.filterMap_map, ← List.enum_map_fst frags]
  rw [← List.filterMap_eq_map]
  rfl

/-- C11: with exactly one arrow and no plus, `parseOneArrowReaction` makes exactly two calls,
one Reactant copy and then one Product copy. Every fragment is in exactly one of the two
merged molecules; a fragment whose left edge is less than the begin x of the arrow is in the
Reactant, one whose left edge is greater is in the Product. -/
theorem parseOneArrowReaction_no_plus (rxn : Document) (_harrow : rxn.arrows.length = 1)
    (hplus : rxn.pluses = []) :
    ∃ reactant product : List Nat,
      parseOneArrowReaction rxn
        = [RxnCall.addReactantCopy reactant, RxnCall.addProductCopy product]
      ∧ (reactant ++ product).Perm (List.range rxn.fragments.length)
      ∧ ∀ i bbox, rxn.fragments[i]? = some bbox →
          (bbox.left < (rxn.arrows.getD 0 default)._begin.x → i ∈ reactant)
          ∧ ((rxn.arrows.getD 0 default)._begin.x < bbox.left → i ∈ product) := by
  -- the sorted sequence
  generalize hax : (rxn.arrows.getD 0 default)._begin.x = ax
  let mols : List OneArrowComponent :=
    rxn.fragments.enum.map (fun e => ⟨e.2.left, ReactionFragmentType.MOLECULE, some e.1⟩)
  let a : OneArrowComponent := ⟨ax, ReactionFragmentType.ARROW, none⟩
  have hinput : oneArrowComponents rxn = mols ++ [a] := by
    simp only [oneArrowComponents, hplus, hax, mols, a, List.map_nil, List.append_nil]
  have hperm := std_sort_perm (fun a b : OneArrowComponent => decide (a.left_bound < b.left_bound))
    (oneArrowComponents rxn)
  have hsorted := std_sort_pairwise_key (fun c : OneArrowComponent => c.left_bound)
    (fun a b => decide (a.left_bound < b.left_bound)) (fun _ _ => rfl) (oneArrowComponents rxn)
  unfold parseOneArrowReaction
  generalize std_sort (fun a b : OneArrowComponent => decide (a.left_bound < b.left_bound))
    (oneArrowComponents rxn) = s at hperm hsorted
  rw [hinput] at hperm
  have hmem : a ∈ s := hperm.mem_iff.mpr (by simp)
  obtain ⟨pre, post, rfl⟩ := List.append_of_mem hmem
  have hpp : (pre ++ post).Perm mols := by
    have h1 : (a :: (pre ++ post)).Perm (a :: mols) :=
      (List.perm_middle.symm.trans hperm).trans (List.perm_append_comm.trans (by simp))
    exact h1.cons_inv
  have hmol : ∀ c ∈ pre ++ post, c.fragment_type = ReactionFragmentType.MOLECULE := by
    intro c hc
    have := hpp.mem_iff.mp hc
    simp only [mols, List.mem_map] at this
    obtain ⟨e, -, rfl⟩ := this
    rfl
  refine ⟨pre.filterMap (fun c => c.molecule), post.filterMap (fun c => c.molecule), ?_, ?_, ?_⟩
  · rw [oneArrowWalk_split pre post a [] (fun c hc => hmol c (List.mem_append_left _ hc)) rfl,
      oneArrowWalk_molecules post [] true (fun c hc => hmol c (List.mem_append_right _ hc))]
    simp
  · rw [← List.filterMap_append, ← filterMap_molecule_fragments]
    exact hpp.filterMap _
  · intro i bbox hi
    have hentry : (⟨bbox.left, ReactionFragmentType.MOLECULE, some i⟩ : OneArrowComponent)
        ∈ pre ++ post := by
      apply hpp.mem_iff.mpr
      simp only [mols, List.mem_map]
      exact ⟨(i, bbox), List.mk_mem_enum_iff_getElem?.mpr hi, rfl⟩
    rw [List.pairwise_append] at hsorted
    obtain ⟨-, hpost, hpre⟩ := hsorted
    rw [List.pairwise_cons] at hpost
    rcases List.mem_append.mp hentry with h | h
    · refine ⟨fun _ => List.mem_filterMap.mpr ⟨_, h, rfl⟩, fun hlt => ?_⟩
      have := hpre _ h a (List.mem_cons_self _ _)
      simp only [a] at this
      omega
    · refine ⟨fun hlt => ?_, fun _ => List.mem_filterMap.mpr ⟨_, h, rfl⟩⟩
      have := hpost.1 _ h
      simp only [a] at this
      omega

/-- Witness of C11: the fragments of the scenario with the single arrow (0,0)-(10,0). -/
theorem parseOneArrowReaction_no_plus_witness :
    ∃ reactant product : List Nat,
      parseOneArrowReaction ⟨false, scenarioDocument.fragments, [], [⟨0, ⟨0, 0⟩, ⟨10, 0⟩⟩]⟩
        = [RxnCall.addReactantCopy reactant, RxnCall.addProductCopy product]
      ∧ (reactant ++ product).Perm (List.range 3)
      ∧ ∀ i bbox, scenarioDocument.fragments[i]? = some bbox →
          (bbox.left < 0 → i ∈ reactant) ∧ (0 < bbox.left → i ∈ product) :=
  parseOneArrowReaction_no_plus ⟨false, scenarioDocument.fragments, [], [⟨0, ⟨0, 0⟩, ⟨10, 0⟩⟩]⟩
    rfl rfl
/-! ## C12 -/

theorem cutSegments_ne_nil (l : List OneArrowComponent) : cutSegments l ≠ [] := by
  cases l with
  | nil => simp [cutSegments]
  | cons c rest =>
    rw [cutSegments]
    split <;> simp

theorem cutSegments_molecule (c : OneArrowComponent) (rest : List OneArrowComponent)
    (seg : List Nat) (segs : List (List Nat))
    (hc : c.fragment_type = ReactionFragmentType.MOLECULE) (h : cutSegments rest = seg :: segs) :
    cutSegments (c :: rest) = (c.molecule.toList ++ seg) :: segs := by
  rw [cutSegments, hc, h]

theorem cutSegments_separator (c : OneArrowComponent) (rest : List OneArrowComponent)
    (hc : c.fragment_type ≠ ReactionFragmentType.MOLECULE) :
    cutSegments (c :: rest) = [] :: cutSegments rest := by
  rw [cutSegments]
  split
  · rename_i h _
    exact absurd h hc
  · rename_i h _
    exact absurd h hc
  · rfl

theorem oneArrowWalk_after (l : List OneArrowComponent) (acc : List Nat)
    (h : ∀ c ∈ l, c.fragment_type ≠ ReactionFragmentType.ARROW) :
    ∃ seg segs, cutSegments l = seg :: segs
      ∧ oneArrowWalk l acc true
          = RxnCall.addProductCopy (acc ++ seg) :: segs.map RxnCall.addProductCopy := by
  induction l generalizing acc with
  | nil => exact ⟨[], [], rfl, by simp [oneArrowWalk]⟩
  | cons c rest ih =>
    have hc := h c (List.mem_cons_self _ _)
    have hrest : ∀ d ∈ rest, d.fragment_type ≠ ReactionFragmentType.ARROW :=
      fun d hd => h d (List.mem_cons_of_mem _ hd)
    cases hty : c.fragment_type with
    | MOLECULE =>
      obtain ⟨seg, segs, hs, hw⟩ := ih (acc ++ c.molecule.toList) hrest
      refine ⟨c.molecule.toList ++ seg, segs, cutSegments_molecule c rest seg segs hty hs, ?_⟩
      rw [oneArrowWalk]
      simp only [hty]
      rw [hw, List.append_assoc]
    | PLUS =>
      obtain ⟨seg, segs, hs, hw⟩ := ih [] hrest
      refine ⟨[], seg :: segs, ?_, ?_⟩
      · rw [cutSegments_separator c rest (by rw [hty]; decide), hs]
      · rw [oneArrowWalk]
        simp only [hty]
        rw [hw]
        simp
    | ARROW => exact absurd hty hc

theorem oneArrowWalk_before (l : List OneArrowComponent) (acc : List Nat)
    (h : l.countP (fun c => decide (c.fragment_type = ReactionFragmentType.ARROW)) = 1) :
    ∃ seg segs, cutSegments l = seg :: segs
      ∧ oneArrowWalk l acc false
          = (((acc ++ seg) :: segs).take (segmentsBeforeArrow l)).map RxnCall.addReactantCopy
            ++ (((acc ++ seg) :: segs).drop (segmentsBeforeArrow l)).map RxnCall.addProductCopy := by
  induction l generalizing acc with
  | nil => simp at h
  | cons c rest ih =>
    cases hty : c.fragment_type with
    | MOLECULE =>
      have hrest : rest.countP (fun c => decide (c.fragment_type = ReactionFragmentType.ARROW)) = 1 := by
        rw [List.countP_cons_of_neg _ _ (by simp [hty])] at h
        exact h
      obtain ⟨seg, segs, hs, hw⟩ := ih (acc ++ c.molecule.toList) hrest
      refine ⟨c.molecule.toList ++ seg, segs, cutSegments_molecule c rest seg segs hty hs, ?_⟩
      have hnb : segmentsBeforeArrow (c :: rest) = segmentsBeforeArrow rest := by
        simp [segmentsBeforeArrow, List.takeWhile_cons, hty]
      rw [oneArrowWalk]
      simp only [hty]
      rw [hw, hnb, List.append_assoc]
    | PLUS =>
      have hrest : rest.countP (fun c => decide (c.fragment_type = ReactionFragmentType.ARROW)) = 1 := by
        rw [List.countP_cons_of_neg _ _ (by simp [hty])] at h
        exact h
      obtain ⟨seg, segs, hs, hw⟩ := ih [] hrest
      refine ⟨[], seg :: segs, ?_, ?_⟩
      · rw [cutSegments_separator c rest (by rw [hty]; decide), hs]
      · have hnb : segmentsBeforeArrow (c :: rest) = segmentsBeforeArrow rest + 1 := by
          simp [segmentsBeforeArrow, List.takeWhile_cons, hty]
        rw [oneArrowWalk]
        simp only [hty]
        rw [hw, hnb]
        simp
    | ARROW =>
      have hrest : ∀ d ∈ rest, d.fragment_type ≠ ReactionFragmentType.ARROW := by
        rw [List.countP_cons_of_pos _ _ (by simp [hty])] at h
        have h0 : rest.countP (fun c => decide (c.fragment_type = ReactionFragmentType.ARROW)) = 0 := by
          omega
        rw [List.countP_eq_zero] at h0
        intro d hd
        simpa using h0 d hd
      obtain ⟨seg, segs, hs, hw⟩ := oneArrowWalk_after rest [] hrest
      refine ⟨[], seg :: segs, ?_, ?_⟩
      · rw [cutSegments_separator c rest (by rw [hty]; decide), hs]
      · have hnb : segmentsBeforeArrow (c :: rest) = 1 := by
          simp [segmentsBeforeArrow, List.takeWhile_cons, hty]
        rw [oneArrowWalk]
        simp only [hty]
        rw [hw, hnb]
        simp

theorem cutSegments_length (l : List OneArrowComponent) :
    (cutSegments l).length
      = l.countP (fun c => decide (c.fragment_type ≠ ReactionFragmentType.MOLECULE)) + 1 := by
  induction l with
  | nil => rfl
  | cons c rest ih =>
    by_cases hty : c.fragment_type = ReactionFragmentType.MOLECULE
    · obtain ⟨seg, segs, hs⟩ := List.exists_cons_of_ne_nil (cutSegments_ne_nil rest)
      rw [cutSegments_molecule c rest seg segs hty hs, List.countP_cons_of_neg _ _ (by simp [hty]),
        ← ih, hs]
      rfl
    · rw [cutSegments_separator c rest hty, List.countP_cons_of_pos _ _ (by simp [hty]), List.length_cons, ih]

theorem cutSegments_flatten (l : List OneArrowComponent) :
    (cutSegments l).flatten
      = (l.filter (fun c => decide (c.fragment_type = ReactionFragmentType.MOLECULE))).filterMap
          (fun c => c.molecule) := by
  induction l with
  | nil => rfl
  | cons c rest ih =>
    by_cases hty : c.fragment_type = ReactionFragmentType.MOLECULE
    · obtain ⟨seg, segs, hs⟩ := List.exists_cons_of_ne_nil (cutSegments_ne_nil rest)
      rw [cutSegments_molecule c rest seg segs hty hs, List.filter_cons_of_pos (by simp [hty])]
      rw [hs] at ih
      simp only [List.flatten_cons] at ih ⊢
      rw [List.append_assoc, ih]
      cases hm : c.molecule <;> simp [List.filterMap_cons, hm]
    · rw [cutSegments_separator c rest hty, List.filter_cons_of_neg (by simp [hty])]
      simpa using ih
theorem oneArrowComponents_countP_arrow (rxn : Document) :
    (oneArrowComponents rxn).countP
      (fun c => decide (c.fragment_type = ReactionFragmentType.ARROW)) = 1 := by
  simp [oneArrowComponents, List.countP_append, List.countP_map, Function.comp_def]

theorem oneArrowComponents_countP_separator (rxn : Document) :
    (oneArrowComponents rxn).countP
      (fun c => decide (c.fragment_type ≠ ReactionFragmentType.MOLECULE))
      = rxn.pluses.length + 1 := by
  simp [oneArrowComponents, List.countP_append, List.countP_map, Function.comp_def]

theorem oneArrowComponents_molecules (rxn : Document) :
    ((oneArrowComponents rxn).filter
        (fun c => decide (c.fragment_type = ReactionFragmentType.MOLECULE))).filterMap
      (fun c => c.molecule) = List.range rxn.fragments.length := by
  rw [← filterMap_molecule_fragments]
  simp [oneArrowComponents, List.filter_append, List.filter_map, Function.comp_def]

/-- C12: with exactly one arrow, k plus marks and pairwise distinct sort keys, the entries
sorted by key are cut at the arrow and at every plus into k+2 segments; `parseOneArrowReaction`
makes exactly k+2 calls, one per segment from left to right with the fragments of the segment
in sorted order, Reactant copies for the segments before the arrow and Product copies for
those after it; every fragment is in exactly one segment. -/
theorem parseOneArrowReaction_groups (rxn : Document) (_harrow : rxn.arrows.length = 1)
    (hkeys : ((oneArrowComponents rxn).map (fun c => c.left_bound)).Nodup) :
    ∃ sorted : List OneArrowComponent,
      sorted.Perm (oneArrowComponents rxn)
      ∧ sorted.Pairwise (fun a b => a.left_bound < b.left_bound)
      ∧ parseOneArrowReaction rxn = expectedGroups sorted
      ∧ (parseOneArrowReaction rxn).length = rxn.pluses.length + 2
      ∧ (cutSegments sorted).length = rxn.pluses.length + 2
      ∧ (cutSegments sorted).flatten.Perm (List.range rxn.fragments.length) := by
  have hperm := std_sort_perm (fun a b : OneArrowComponent => decide (a.left_bound < b.left_bound))
    (oneArrowComponents rxn)
  have hsorted := std_sort_pairwise_key (fun c : OneArrowComponent => c.left_bound)
    (fun a b => decide (a.left_bound < b.left_bound)) (fun _ _ => rfl) (oneArrowComponents rxn)
  unfold parseOneArrowReaction
  generalize std_sort (fun a b : OneArrowComponent => decide (a.left_bound < b.left_bound))
    (oneArrowComponents rxn) = s at hperm hsorted
  have hnd : s.Pairwise (fun a b => a.left_bound ≠ b.left_bound) := by
    have h1 : (s.map (fun c => c.left_bound)).Nodup := (hperm.map _).nodup_iff.mpr hkeys
    exact List.pairwise_map.mp h1
  have hstrict : s.Pairwise (fun a b => a.left_bound < b.left_bound) :=
    (hsorted.and hnd).imp (fun h => lt_of_le_of_ne h.1 h.2)
  have hcount : s.countP (fun c => decide (c.fragment_type = ReactionFragmentType.ARROW)) = 1 := by
    rw [hperm.countP_eq, oneArrowComponents_countP_arrow]
  have hlen : (cutSegments s).length = rxn.pluses.length + 2 := by
    rw [cutSegments_length, hperm.countP_eq, oneArrowComponents_countP_separator]
  obtain ⟨seg, segs, hs, hw⟩ := oneArrowWalk_before s [] hcount
  have hexp : oneArrowWalk s [] false = expectedGroups s := by
    rw [hw, expectedGroups, hs]
    rfl
  refine ⟨s, hperm, hstrict, hexp, ?_, hlen, ?_⟩
  · rw [hexp, expectedGroups, List.length_append, List.length_map, List.length_map,
      List.length_take, List.length_drop, hlen]
    omega
  · rw [cutSegments_flatten, ← oneArrowComponents_molecules]
    exact (hperm.filter _).filterMap _

/-- Witness of C12: one arrow and two plus marks, four groups. -/
theorem parseOneArrowReaction_groups_witness :
    ∃ sorted : List OneArrowComponent,
      sorted.Perm (oneArrowComponents twoPlusDocument)
      ∧ sorted.Pairwise (fun a b => a.left_bound < b.left_bound)
      ∧ parseOneArrowReaction twoPlusDocument = expectedGroups sorted
      ∧ (parseOneArrowReaction twoPlusDocument).length = 2 + 2
      ∧ (cutSegments sorted).length = 2 + 2
      ∧ (cutSegments sorted).flatten.Perm (List.range 4) :=
  parseOneArrowReaction_groups twoPlusDocument rfl (by decide)
/-! ## C15 -/

theorem constructCopies_spec (blocks : List MolSumm) (rest : List ReactionComponent) (i : Nat)
    (hwf : ∀ rc ∈ rest, rc.component_type = ComponentType.MOLECULE →
      ∃ n csb, rc.summ_block_idx = SummBlockIdx.idx n ∧ blocks[n]? = some csb) :
    ∃ copies, constructCopies blocks rest i = some copies
      ∧ List.Forall₂
          (fun (e : Nat × ReactionComponent) (call : RxnCall) =>
            ∃ n csb, e.2.summ_block_idx = SummBlockIdx.idx n ∧ blocks[n]? = some csb
              ∧ call = copyCall csb.role [e.1])
          ((rest.enumFrom i).filter
            (fun e => decide (e.2.component_type = ComponentType.MOLECULE)))
          copies := by
  induction rest generalizing i with
  | nil => exact ⟨[], rfl, by simp⟩
  | cons rc rest ih =>
    obtain ⟨copies, hc, hf⟩ := ih (i + 1) (fun rc2 h2 => hwf rc2 (List.mem_cons_of_mem _ h2))
    by_cases hty : rc.component_type = ComponentType.MOLECULE
    · obtain ⟨n, csb, hn, hb⟩ := hwf rc (List.mem_cons_self _ _) hty
      refine ⟨copyCall csb.role [i] :: copies, ?_, ?_⟩
      · rw [constructCopies]
        simp [hty, hn, hb, hc]
      · rw [List.enumFrom_cons, List.filter_cons_of_pos (by simp [hty])]
        exact List.Forall₂.cons ⟨n, csb, hn, hb, rfl⟩ hf
    · refine ⟨copies, ?_, ?_⟩
      · rw [constructCopies]
        simp [hty, hc]
      · rw [List.enumFrom_cons, List.filter_cons_of_neg (by simp [hty])]
        exact hf

/-- C15: in a state where every Molecule component refers to a block of the vector,
`constructMultipleArrowReaction` first makes one copy call per Molecule component, in
component order and none for a Plus or Arrow component, the call being the one of the role
of the block the component refers to; then it adds one reaction-block record per block, in
block order, with the role, member indexes and `arrows_to` of the block. -/
theorem constructMultipleArrowReaction_calls (st : LoaderState)
    (hwf : ∀ rc ∈ st._reaction_components, rc.component_type = ComponentType.MOLECULE →
      ∃ n csb, rc.summ_block_idx = SummBlockIdx.idx n ∧ st._component_summ_blocks[n]? = some csb) :
    ∃ copies, constructMultipleArrowReaction st
        = some (copies ++ st._component_summ_blocks.map
            (fun cb => RxnCall.addReactionBlock cb.role cb.indexes cb.arrows_to))
      ∧ List.Forall₂
          (fun (e : Nat × ReactionComponent) (call : RxnCall) =>
            ∃ n csb, e.2.summ_block_idx = SummBlockIdx.idx n
              ∧ st._component_summ_blocks[n]? = some csb
              ∧ (csb.role = Role.REACTANT ∧ call = RxnCall.addReactantCopy [e.1]
                ∨ csb.role = Role.PRODUCT ∧ call = RxnCall.addProductCopy [e.1]
                ∨ csb.role = Role.INTERMEDIATE ∧ call = RxnCall.addIntermediateCopy [e.1]
                ∨ csb.role = Role.UNDEFINED ∧ call = RxnCall.addUndefinedCopy [e.1]
                ∨ csb.role = Role.CATALYST ∧ call = RxnCall.addCatalystCopy [e.1]))
          (st._reaction_components.enum.filter
            (fun e => decide (e.2.component_type = ComponentType.MOLECULE)))
          copies := by
  obtain ⟨copies, hc, hf⟩ :=
    constructCopies_spec st._component_summ_blocks st._reaction_components 0 hwf
  refine ⟨copies, by simp [constructMultipleArrowReaction, hc], ?_⟩
  refine List.Forall₂.imp ?_ hf
  rintro e call ⟨n, csb, hn, hb, rfl⟩
  refine ⟨n, csb, hn, hb, ?_⟩
  cases hr : csb.role <;> simp [copyCall]

theorem scenario_state :
    parseMultipleArrowState exampleShifts scenarioDocument = some scenarioState := by
  decide

/-- Witness of C15: the state of the scenario document. -/
theorem constructMultipleArrowReaction_calls_witness :
    ∃ copies, constructMultipleArrowReaction scenarioState
        = some (copies ++ scenarioState._component_summ_blocks.map
            (fun cb => RxnCall.addReactionBlock cb.role cb.indexes cb.arrows_to))
      ∧ List.Forall₂
          (fun (e : Nat × ReactionComponent) (call : RxnCall) =>
            ∃ n csb, e.2.summ_block_idx = SummBlockIdx.idx n
              ∧ scenarioState._component_summ_blocks[n]? = some csb
              ∧ (csb.role = Role.REACTANT ∧ call = RxnCall.addReactantCopy [e.1]
                ∨ csb.role = Role.PRODUCT ∧ call = RxnCall.addProductCopy [e.1]
                ∨ csb.role = Role.INTERMEDIATE ∧ call = RxnCall.addIntermediateCopy [e.1]
                ∨ csb.role = Role.UNDEFINED ∧ call = RxnCall.addUndefinedCopy [e.1]
                ∨ csb.role = Role.CATALYST ∧ call = RxnCall.addCatalystCopy [e.1]))
          (scenarioState._reaction_components.enum.filter
            (fun e => decide (e.2.component_type = ComponentType.MOLECULE)))
          copies :=
  constructMultipleArrowReaction_calls scenarioState (by
    intro rc hrc hty
    simp only [scenarioState, List.mem_cons, List.mem_singleton, List.not_mem_nil, or_false] at hrc
    rcases hrc with rfl | rfl | rfl | rfl | rfl
    · exact ⟨0, _, rfl, rfl⟩
    · exact ⟨1, _, rfl, rfl⟩
    · exact ⟨2, _, rfl, rfl⟩
    · cases hty
    · cases hty)
/-! ## C20 -/

theorem getElem?_foldl_modifyAt {α : Type} (f : α → α) (hf : ∀ a, f (f a) = f a)
    (indexes : List Nat) (l : List α) (k : Nat) :
    (indexes.foldl (fun cs v => modifyAt f cs v) l)[k]?
      = if k ∈ indexes then l[k]?.map f else l[k]? := by
  induction indexes generalizing l with
  | nil => simp
  | cons v rest ih =>
    rw [List.foldl_cons, ih, getElem?_modifyAt]
    by_cases hkv : k = v
    · subst hkv
      by_cases hk : k ∈ rest
      · cases h : l[k]? <;> simp [hk, hf]
      · simp [hk]
    · by_cases hk : k ∈ rest
      · simp [hk, hkv]
      · simp [hk, hkv]

theorem length_foldl_modifyAt {α : Type} (f : α → α) (indexes : List Nat) (l : List α) :
    (indexes.foldl (fun cs v => modifyAt f cs v) l).length = l.length := by
  induction indexes generalizing l with
  | nil => rfl
  | cons v rest ih => rw [List.foldl_cons, ih, length_modifyAt]

theorem find?_modifyNode (f : MolSumm → MolSumm) (nodes : List (Nat × MolSumm)) (it z : Nat) :
    (modifyNode f nodes it).find? (fun nd => nd.1 == z)
      = (nodes.find? (fun nd => nd.1 == z)).map
          (fun nd => if nd.1 == it then (nd.1, f nd.2) else nd) := by
  induction nodes with
  | nil => rfl
  | cons nd rest ih =>
    have hm : modifyNode f (nd :: rest) it
        = (if nd.1 == it then (nd.1, f nd.2) else nd) :: modifyNode f rest it := rfl
    have h1 : (if nd.1 == it then (nd.1, f nd.2) else nd).1 = nd.1 := by
      split <;> rfl
    rw [hm, List.find?_cons, List.find?_cons, h1]
    cases nd.1 == z
    · exact ih
    · rfl

theorem derefNode_modifyNode (f : MolSumm → MolSumm) (nodes : List (Nat × MolSumm)) (it z : Nat) :
    derefNode (modifyNode f nodes it) z
      = if z = it then (derefNode nodes z).map f else derefNode nodes z := by
  unfold derefNode
  rw [find?_modifyNode]
  cases h : nodes.find? (fun nd => nd.1 == z) with
  | none => simp
  | some nd =>
    have hz : nd.1 = z := by simpa using List.find?_some h
    by_cases hit : z = it
    · simp [hz, hit]
    · simp [hz, hit]

theorem derefNode_eraseNode (nodes : List (Nat × MolSumm)) (it z : Nat) :
    derefNode (eraseNode nodes it) z = if z = it then none else derefNode nodes z := by
  induction nodes with
  | nil => simp [derefNode, eraseNode]
  | cons nd rest ih =>
    simp only [derefNode, eraseNode] at ih ⊢
    by_cases h1 : nd.1 = it
    · rw [List.filter_cons_of_neg (by simp [h1])]
      by_cases h2 : z = it
      · simp [h2]
      · have h3 : ¬ nd.1 = z := by omega
        simpa [h2, h3, List.find?_cons] using ih
    · rw [List.filter_cons_of_pos (by simp [h1])]
      by_cases h2 : nd.1 = z
      · have h3 : ¬ z = it := by omega
        simp [List.find?_cons, h2, h3]
      · simpa [List.find?_cons, h2] using ih

theorem map_fst_modifyNode (f : MolSumm → MolSumm) (nodes : List (Nat × MolSumm)) (it : Nat) :
    (modifyNode f nodes it).map Prod.fst = nodes.map Prod.fst := by
  induction nodes with
  | nil => rfl
  | cons nd rest ih =>
    simp only [modifyNode, List.map_cons] at ih ⊢
    rw [ih]
    split <;> rfl

theorem map_fst_eraseNode (nodes : List (Nat × MolSumm)) (it : Nat) :
    (eraseNode nodes it).map Prod.fst = (nodes.map Prod.fst).filter (fun z => decide (z ≠ it)) := by
  induction nodes with
  | nil => rfl
  | cons nd rest ih =>
    simp only [eraseNode] at ih ⊢
    by_cases h1 : nd.1 = it
    · rw [List.filter_cons_of_neg (by simp [h1]), List.map_cons,
        List.filter_cons_of_neg (by simp [h1]), ih]
    · rw [List.filter_cons_of_pos (by simp [h1]), List.map_cons, List.map_cons,
        List.filter_cons_of_pos (by simp [h1]), ih]

/-- C20: a resolved pair (A, B) with A in block x and B in a different block y. After
`connectPlus` the members of block x are its old members followed by those of block y, its
box is the union of the two boxes, its role and edges are kept; block y is no longer in the
list and the other nodes keep their place and content; every member of y has its iterator set
to x, every other component is unchanged; nothing else of the state changes. -/
theorem connectPlus_merge_blocks (st : LoaderState) (A B x y : Nat)
    (rcA rcB : ReactionComponent) (bx bY : MolSumm)
    (hA : st._reaction_components[A]? = some rcA) (hB : st._reaction_components[B]? = some rcB)
    (hAc : rcA.summ_block_idx ≠ SummBlockIdx.NOT_CONNECTED)
    (hBc : rcB.summ_block_idx ≠ SummBlockIdx.NOT_CONNECTED)
    (hAx : rcA.summ_block_it = some x) (hBy : rcB.summ_block_it = some y) (hxy : x ≠ y)
    (hx : derefNode st._component_summ_blocks_list x = some bx)
    (hy : derefNode st._component_summ_blocks_list y = some bY) :
    ∃ st2, connectPlus st (A, B) = some st2
      ∧ derefNode st2._component_summ_blocks_list x
          = some ⟨merge_bbox bx.bbox bY.bbox, bx.indexes ++ bY.indexes, bx.role, bx.arrows_to⟩
      ∧ derefNode st2._component_summ_blocks_list y = none
      ∧ st2._component_summ_blocks_list.map Prod.fst
          = (st._component_summ_blocks_list.map Prod.fst).filter (fun z => decide (z ≠ y))
      ∧ (∀ z, z ≠ x → z ≠ y →
          derefNode st2._component_summ_blocks_list z = derefNode st._component_summ_blocks_list z)
      ∧ (∀ v rc, st._reaction_components[v]? = some rc →
          st2._reaction_components[v]?
            = some (if v ∈ bY.indexes then { rc with summ_block_it := some x } else rc))
      ∧ st2._reaction_components.length = st._reaction_components.length
      ∧ st2.next_node = st.next_node
      ∧ st2._component_summ_blocks = st._component_summ_blocks := by
  have hstep : connectPlus st (A, B) = some
      { st with
        _reaction_components :=
          bY.indexes.foldl (fun cs v => modifyAt (bindTo x) cs v) st._reaction_components
        _component_summ_blocks_list :=
          eraseNode
            (modifyNode (fun b => { b with indexes := b.indexes ++ bY.indexes })
              (modifyNode (fun b => { b with bbox := merge_bbox b.bbox bY.bbox })
                st._component_summ_blocks_list x) x) y } := by
    simp [connectPlus, hA, hB, hAc, hBc, hAx, hBy, hx, hy, hxy]
  refine ⟨_, hstep, ?_, ?_, ?_, ?_, ?_, ?_, rfl, rfl⟩
  · simp [derefNode_eraseNode, derefNode_modifyNode, hxy, hx]
  · simp [derefNode_eraseNode]
  · simp only [map_fst_eraseNode, map_fst_modifyNode]
  · intro z hzx hzy
    simp [derefNode_eraseNode, derefNode_modifyNode, hzx, hzy]
  · intro v rc hv
    simp only []
    rw [getElem?_foldl_modifyAt (bindTo x) (fun a => rfl), hv]
    by_cases hm : v ∈ bY.indexes <;> simp [hm, bindTo]
  · simp only []
    rw [length_foldl_modifyAt]

/-- Witness of C20: four molecules in two blocks, [1, 0] and [3, 2], joined by the pair (1, 2). -/
theorem connectPlus_merge_blocks_witness :
    ∃ st2, connectPlus twoBlocksState (1, 2) = some st2
      ∧ derefNode st2._component_summ_blocks_list 0
          = some ⟨merge_bbox (box 0 (-1) 10 1) (box 12 (-1) 22 1), [1, 0] ++ [3, 2],
              Role.UNDEFINED, []⟩
      ∧ derefNode st2._component_summ_blocks_list 1 = none
      ∧ st2._component_summ_blocks_list.map Prod.fst = [0] := by
  obtain ⟨st2, h1, h2, h3, h4, -⟩ := connectPlus_merge_blocks twoBlocksState 1 2 0 1
    ⟨ComponentType.MOLECULE, box 6 (-1) 10 1, [], some 0, SummBlockIdx.CONNECTED⟩
    ⟨ComponentType.MOLECULE, box 12 (-1) 16 1, [], some 1, SummBlockIdx.CONNECTED⟩
    ⟨box 0 (-1) 10 1, [1, 0], Role.UNDEFINED, []⟩
    ⟨box 12 (-1) 22 1, [3, 2], Role.UNDEFINED, []⟩
    (by decide) (by decide) (by decide) (by decide) rfl rfl (by decide) (by decide) (by decide)
  exact ⟨st2, h1, h2, h3, h4⟩
/-! ## Binary search in a sorted range -/

theorem findPlusIters_eq_plusMates (comps : List ReactionComponent) (plus_pos : Vec2f)
    (mol_tops mol_bottoms mol_lefts mol_rights : FLOAT_INT_PAIRS) :
    findPlusIters comps plus_pos mol_tops mol_bottoms mol_lefts mol_rights
      = ⟨std_upper_bound (std_sort pair_comp_des
            (plusMates comps plus_pos mol_tops mol_bottoms mol_lefts mol_rights).1)
          (plus_pos.x, 0) pair_comp_des,
         std_upper_bound (std_sort pair_comp_asc
            (plusMates comps plus_pos mol_tops mol_bottoms mol_lefts mol_rights).2.1)
          (plus_pos.x, 0) pair_comp_asc,
         std_upper_bound (std_sort pair_comp_asc
            (plusMates comps plus_pos mol_tops mol_bottoms mol_lefts mol_rights).2.2.1)
          (plus_pos.y, 0) pair_comp_asc,
         std_upper_bound (std_sort pair_comp_des
            (plusMates comps plus_pos mol_tops mol_bottoms mol_lefts mol_rights).2.2.2)
          (plus_pos.y, 0) pair_comp_des⟩ :=
  rfl

theorem dropWhile_eq_cons {α : Type} (p : α → Bool) (l : List α) (h : α) (t : List α)
    (hd : l.dropWhile p = h :: t) :
    p h = false ∧ ∃ pre, l = pre ++ h :: t ∧ ∀ x ∈ pre, p x = true := by
  induction l with
  | nil => simp at hd
  | cons a l ih =>
    rw [List.dropWhile_cons] at hd
    by_cases ha : p a = true
    · rw [if_pos ha] at hd
      obtain ⟨h1, pre, h2, h3⟩ := ih hd
      refine ⟨h1, a :: pre, by rw [h2]; rfl, ?_⟩
      intro x hx
      rcases List.mem_cons.mp hx with rfl | hx
      · exact ha
      · exact h3 x hx
    · rw [if_neg ha] at hd
      cases hd
      exact ⟨by simpa using ha, [], rfl, by simp⟩

theorem upper_bound_sort_first {α : Type} (key : α → Int) (comp : α → α → Bool)
    (hcomp : ∀ a b, comp a b = decide (key a < key b)) (l : List α) (v : α) :
    (std_upper_bound (std_sort comp l) v comp ≠ [] ↔ ∃ e ∈ l, key v < key e)
    ∧ ∀ h t, std_upper_bound (std_sort comp l) v comp = h :: t →
        h ∈ l ∧ key v < key h ∧ ∀ e ∈ l, key v < key e → key h ≤ key e := by
  have hperm := std_sort_perm comp l
  have hsorted := std_sort_pairwise_key key comp hcomp l
  unfold std_upper_bound
  generalize std_sort comp l = s at hperm hsorted
  constructor
  · rw [Ne, List.dropWhile_eq_nil_iff]
    constructor
    · intro h
      by_contra hno
      apply h
      intro x hx
      have : ¬ key v < key x := fun hlt => hno ⟨x, hperm.mem_iff.mp hx, hlt⟩
      simp [hcomp, this]
    · rintro ⟨e, he, hlt⟩ h
      have := h e (hperm.mem_iff.mpr he)
      simp [hcomp, hlt] at this
  · intro h t hd
    obtain ⟨h1, pre, h2, h3⟩ := dropWhile_eq_cons _ s h t hd
    have hkh : key v < key h := by simpa [hcomp] using h1
    refine ⟨hperm.mem_iff.mp (by rw [h2]; simp), hkh, ?_⟩
    intro e he hlt
    have hes : e ∈ pre ++ h :: t := by
      rw [← h2]
      exact hperm.mem_iff.mpr he
    rw [h2, List.pairwise_append] at hsorted
    rcases List.mem_append.mp hes with hp | hp
    · have := h3 e hp
      simp [hcomp, hlt] at this
    · rcases List.mem_cons.mp hp with rfl | hp
      · exact le_refl _
      · exact (List.pairwise_cons.mp hsorted.2.1).1 e hp

theorem pair_comp_asc_key (a b : FLOAT_INT_PAIR) :
    pair_comp_asc a b = decide ((fun e : FLOAT_INT_PAIR => e.1) a < (fun e : FLOAT_INT_PAIR => e.1) b) := by
  simp [pair_comp_asc]

theorem pair_comp_des_key (a b : FLOAT_INT_PAIR) :
    pair_comp_des a b
      = decide ((fun e : FLOAT_INT_PAIR => -e.1) a < (fun e : FLOAT_INT_PAIR => -e.1) b) := by
  simp [pair_comp_des]
/-! ## C19 -/

/-- C19: with `m` the row and column mates of the plus (with their right, left, top and
bottom edges) and `its` the four search results. The horizontal pair exists exactly when some
row mate has its right edge below p.x and some row mate has its left edge above p.x; the
member found through the right edges has the greatest right edge below p.x, the one found
through the left edges the least left edge above p.x, and these two are the pair the
horizontal branch writes. The vertical pair exists exactly when some column mate has its top
edge above p.y and some its bottom edge below p.y; its members have the least such top edge
and the greatest such bottom edge, and the pair returned is this one or the horizontal one. -/
theorem findPlusIters_nearest (comps : List ReactionComponent) (plus_pos : Vec2f)
    (mol_tops mol_bottoms mol_lefts mol_rights : FLOAT_INT_PAIRS)
    (m : FLOAT_INT_PAIRS × FLOAT_INT_PAIRS × FLOAT_INT_PAIRS × FLOAT_INT_PAIRS) (its : PlusIters)
    (hm : m = plusMates comps plus_pos mol_tops mol_bottoms mol_lefts mol_rights)
    (hits : its = findPlusIters comps plus_pos mol_tops mol_bottoms mol_lefts mol_rights) :
    ((its.rights_row_it ≠ [] ∧ its.lefts_row_it ≠ [])
        ↔ (∃ e ∈ m.1, e.1 < plus_pos.x) ∧ (∃ e ∈ m.2.1, plus_pos.x < e.1))
    ∧ (∀ r rs, its.rights_row_it = r :: rs →
        r ∈ m.1 ∧ r.1 < plus_pos.x ∧ ∀ e ∈ m.1, e.1 < plus_pos.x → e.1 ≤ r.1)
    ∧ (∀ l ls, its.lefts_row_it = l :: ls →
        l ∈ m.2.1 ∧ plus_pos.x < l.1 ∧ ∀ e ∈ m.2.1, plus_pos.x < e.1 → l.1 ≤ e.1)
    ∧ (∀ r rs l ls connection, its.rights_row_it = r :: rs → its.lefts_row_it = l :: ls →
        (horizontalChoice comps plus_pos its connection).2.1 = (l.2, r.2))
    ∧ ((its.tops_col_it ≠ [] ∧ its.bottoms_col_it ≠ [])
        ↔ (∃ e ∈ m.2.2.1, plus_pos.y < e.1) ∧ (∃ e ∈ m.2.2.2, e.1 < plus_pos.y))
    ∧ (∀ t ts, its.tops_col_it = t :: ts →
        t ∈ m.2.2.1 ∧ plus_pos.y < t.1 ∧ ∀ e ∈ m.2.2.1, plus_pos.y < e.1 → t.1 ≤ e.1)
    ∧ (∀ b bs, its.bottoms_col_it = b :: bs →
        b ∈ m.2.2.2 ∧ b.1 < plus_pos.y ∧ ∀ e ∈ m.2.2.2, e.1 < plus_pos.y → e.1 ≤ b.1)
    ∧ (∀ t ts b bs connection, its.tops_col_it = t :: ts → its.bottoms_col_it = b :: bs →
        (choosePlusPair comps plus_pos its connection).2 = (t.2, b.2)
        ∨ (choosePlusPair comps plus_pos its connection).2
            = (horizontalChoice comps plus_pos its connection).2.1) := by
  have hR := upper_bound_sort_first (fun e : FLOAT_INT_PAIR => -e.1) pair_comp_des
    pair_comp_des_key m.1 (plus_pos.x, 0)
  have hL := upper_bound_sort_first (fun e : FLOAT_INT_PAIR => e.1) pair_comp_asc
    pair_comp_asc_key m.2.1 (plus_pos.x, 0)
  have hT := upper_bound_sort_first (fun e : FLOAT_INT_PAIR => e.1) pair_comp_asc
    pair_comp_asc_key m.2.2.1 (plus_pos.y, 0)
  have hB := upper_bound_sort_first (fun e : FLOAT_INT_PAIR => -e.1) pair_comp_des
    pair_comp_des_key m.2.2.2 (plus_pos.y, 0)
  simp only [neg_lt_neg_iff, neg_le_neg_iff] at hR hL hT hB
  rw [findPlusIters_eq_plusMates, ← hm] at hits
  subst hits
  refine ⟨?_, hR.2, hL.2, ?_, ?_, hT.2, hB.2, ?_⟩
  · rw [hR.1, hL.1]
  · intro r rs l ls connection h1 h2
    simp only at h1 h2
    simp [horizontalChoice, h1, h2]
  · rw [hT.1, hB.1]
  · intro t ts b bs connection h1 h2
    simp only at h1 h2
    simp only [choosePlusPair, h1, h2]
    split
    · exact Or.inl rfl
    · exact Or.inr rfl

/-- Witness of C19: the plus of a cross-shaped document. -/
theorem findPlusIters_nearest_witness :
    ((plusItersOf exampleShifts (crossDocument 1 4 5) ⟨0, 0⟩).rights_row_it ≠ []
      ∧ (plusItersOf exampleShifts (crossDocument 1 4 5) ⟨0, 0⟩).lefts_row_it ≠ [])
    ↔ (∃ e ∈ (plusMates (collectComponents exampleShifts (crossDocument 1 4 5)) ⟨0, 0⟩
          (sortedEdges (collectComponents exampleShifts (crossDocument 1 4 5))).1
          (sortedEdges (collectComponents exampleShifts (crossDocument 1 4 5))).2.1
          (sortedEdges (collectComponents exampleShifts (crossDocument 1 4 5))).2.2.1
          (sortedEdges (collectComponents exampleShifts (crossDocument 1 4 5))).2.2.2).1,
        e.1 < 0)
      ∧ (∃ e ∈ (plusMates (collectComponents exampleShifts (crossDocument 1 4 5)) ⟨0, 0⟩
          (sortedEdges (collectComponents exampleShifts (crossDocument 1 4 5))).1
          (sortedEdges (collectComponents exampleShifts (crossDocument 1 4 5))).2.1
          (sortedEdges (collectComponents exampleShifts (crossDocument 1 4 5))).2.2.1
          (sortedEdges (collectComponents exampleShifts (crossDocument 1 4 5))).2.2.2).2.1,
        0 < e.1) :=
  (findPlusIters_nearest (collectComponents exampleShifts (crossDocument 1 4 5)) ⟨0, 0⟩
    (sortedEdges (collectComponents exampleShifts (crossDocument 1 4 5))).1
    (sortedEdges (collectComponents exampleShifts (crossDocument 1 4 5))).2.1
    (sortedEdges (collectComponents exampleShifts (crossDocument 1 4 5))).2.2.1
    (sortedEdges (collectComponents exampleShifts (crossDocument 1 4 5))).2.2.2 _ _ rfl rfl).1
/-! ## Row and column mates -/

theorem mem_upper_bound_of_sorted {α : Type} (key : α → Int) (comp : α → α → Bool)
    (hcomp : ∀ a b, comp a b = decide (key a < key b)) (l : List α) (v : α)
    (hsorted : l.Pairwise (fun a b => key a ≤ key b)) (x : α) :
    x ∈ std_upper_bound l v comp ↔ x ∈ l ∧ key v < key x := by
  unfold std_upper_bound
  cases hd : l.dropWhile (fun e => !comp v e) with
  | nil =>
    rw [List.dropWhile_eq_nil_iff] at hd
    constructor
    · intro h
      cases h
    · rintro ⟨hx, hlt⟩
      have := hd x hx
      simp [hcomp, hlt] at this
  | cons h t =>
    obtain ⟨h1, pre, h2, h3⟩ := dropWhile_eq_cons _ l h t hd
    have hkh : key v < key h := by simpa [hcomp] using h1
    rw [h2, List.pairwise_append] at hsorted
    have hht := List.pairwise_cons.mp hsorted.2.1
    constructor
    · intro hx
      refine ⟨by rw [h2]; exact List.mem_append_right _ hx, ?_⟩
      rcases List.mem_cons.mp hx with rfl | hx
      · exact hkh
      · have := hht.1 x hx
        omega
    · rintro ⟨hx, hlt⟩
      rw [h2] at hx
      rcases List.mem_append.mp hx with hp | hp
      · have := h3 x hp
        simp [hcomp, hlt] at this
      · exact hp

theorem pair_comp_mol_asc_key (a b : FLOAT_INT_PAIR) :
    pair_comp_mol_asc a b
      = decide ((fun e : FLOAT_INT_PAIR => (e.2 : Int)) a < (fun e : FLOAT_INT_PAIR => (e.2 : Int)) b) := by
  simp [pair_comp_mol_asc]

theorem mem_set_intersection (l1 l2 : FLOAT_INT_PAIRS)
    (h1 : l1.Pairwise (fun a b => a.2 < b.2)) (h2 : l2.Pairwise (fun a b => a.2 < b.2))
    (x : FLOAT_INT_PAIR) :
    x ∈ std_set_intersection pair_comp_mol_asc l1 l2 ↔ x ∈ l1 ∧ ∃ y ∈ l2, y.2 = x.2 := by
  induction l1 generalizing l2 x with
  | nil => simp [std_set_intersection]
  | cons a l1 ih =>
    have ha := (List.pairwise_cons.mp h1).1
    have hl1 := (List.pairwise_cons.mp h1).2
    have inner : ∀ l2 : FLOAT_INT_PAIRS, l2.Pairwise (fun a b => a.2 < b.2) → ∀ x,
        x ∈ std_set_intersection_aux pair_comp_mol_asc a
              (std_set_intersection pair_comp_mol_asc l1) l2
          ↔ (x = a ∧ ∃ y ∈ l2, y.2 = a.2) ∨ (x ∈ l1 ∧ ∃ y ∈ l2, y.2 = x.2) := by
      intro l2
      induction l2 with
      | nil => intro _ x; simp [std_set_intersection_aux]
      | cons b bs ihb =>
        intro hb x
        have hbb := (List.pairwise_cons.mp hb).1
        have hbs := (List.pairwise_cons.mp hb).2
        rw [std_set_intersection_aux]
        by_cases c1 : a.2 < b.2
        · rw [if_pos (by simp [pair_comp_mol_asc, c1]), ih (b :: bs) hl1 hb]
          constructor
          · intro h
            exact Or.inr h
          · rintro (⟨-, y, hy, hya⟩ | h)
            · exfalso
              rcases List.mem_cons.mp hy with rfl | hy
              · omega
              · have := hbb y hy
                omega
            · exact h
        · rw [if_neg (by simp [pair_comp_mol_asc, c1])]
          by_cases c2 : b.2 < a.2
          · rw [if_pos (by simp [pair_comp_mol_asc, c2]), ihb hbs]
            constructor
            · rintro (⟨hx, y, hy, hya⟩ | ⟨hx, y, hy, hyx⟩)
              · exact Or.inl ⟨hx, y, List.mem_cons_of_mem _ hy, hya⟩
              · exact Or.inr ⟨hx, y, List.mem_cons_of_mem _ hy, hyx⟩
            · rintro (⟨hx, y, hy, hya⟩ | ⟨hx, y, hy, hyx⟩)
              · rcases List.mem_cons.mp hy with rfl | hy
                · omega
                · exact Or.inl ⟨hx, y, hy, hya⟩
              · rcases List.mem_cons.mp hy with rfl | hy
                · have := ha x hx
                  omega
                · exact Or.inr ⟨hx, y, hy, hyx⟩
          · rw [if_neg (by simp [pair_comp_mol_asc, c2]), List.mem_cons, ih bs hl1 hbs]
            have hab : a.2 = b.2 := by omega
            constructor
            · rintro (hx | ⟨hx, y, hy, hyx⟩)
              · exact Or.inl ⟨hx, b, List.mem_cons_self _ _, hab.symm⟩
              · exact Or.inr ⟨hx, y, List.mem_cons_of_mem _ hy, hyx⟩
            · rintro (⟨hx, -⟩ | ⟨hx, y, hy, hyx⟩)
              · exact Or.inl hx
              · rcases List.mem_cons.mp hy with rfl | hy
                · have := ha x hx
                  omega
                · exact Or.inr ⟨hx, y, hy, hyx⟩
    rw [std_set_intersection, inner l2 h2 x, List.mem_cons]
    constructor
    · rintro (⟨rfl, h⟩ | ⟨hx, h⟩)
      · exact ⟨Or.inl rfl, h⟩
      · exact ⟨Or.inr hx, h⟩
    · rintro ⟨rfl | hx, h⟩
      · exact Or.inl ⟨rfl, h⟩
      · exact Or.inr ⟨hx, h⟩
theorem mem_edgeArray (edge : Rect2f → Int) (comps : List ReactionComponent)
    (x : FLOAT_INT_PAIR) :
    x ∈ edgeArray edge comps ↔ ∃ rc, comps[x.2]? = some rc ∧ x.1 = edge rc.bbox := by
  unfold edgeArray
  rw [List.mem_map]
  constructor
  · rintro ⟨e, he, rfl⟩
    exact ⟨e.2, List.mem_enum_iff_getElem?.mp he, rfl⟩
  · rintro ⟨rc, hrc, hx⟩
    refine ⟨(x.2, rc), List.mk_mem_enum_iff_getElem?.mpr hrc, ?_⟩
    rw [Prod.ext_iff]
    exact ⟨hx.symm, rfl⟩

theorem edgeArray_nodup (edge : Rect2f → Int) (comps : List ReactionComponent) :
    ((edgeArray edge comps).map Prod.snd).Nodup := by
  have h : (edgeArray edge comps).map Prod.snd = List.range comps.length := by
    unfold edgeArray
    rw [List.map_map, ← List.enum_map_fst comps]
    rfl
  rw [h]
  exact List.nodup_range _

theorem sort_by_index_strict (l : FLOAT_INT_PAIRS) (hn : (l.map Prod.snd).Nodup) :
    (std_sort pair_comp_mol_asc l).Pairwise (fun a b => a.2 < b.2) := by
  have hle := std_sort_pairwise_key (fun e : FLOAT_INT_PAIR => (e.2 : Int)) pair_comp_mol_asc
    pair_comp_mol_asc_key l
  have hnd : ((std_sort pair_comp_mol_asc l).map Prod.snd).Nodup :=
    ((std_sort_perm pair_comp_mol_asc l).map _).nodup_iff.mpr hn
  have hne : (std_sort pair_comp_mol_asc l).Pairwise (fun a b => a.2 ≠ b.2) :=
    List.pairwise_map.mp hnd
  refine (hle.and hne).imp ?_
  intro a b h
  have h1 : (a.2 : Int) ≤ (b.2 : Int) := h.1
  have h2 := h.2
  omega

theorem upper_bound_nodup (l : FLOAT_INT_PAIRS) (v : FLOAT_INT_PAIR)
    (comp : FLOAT_INT_PAIR → FLOAT_INT_PAIR → Bool) (hn : (l.map Prod.snd).Nodup) :
    ((std_upper_bound l v comp).map Prod.snd).Nodup :=
  List.Nodup.sublist ((List.dropWhile_sublist _).map _) hn

theorem mem_mates (key1 key2 : FLOAT_INT_PAIR → Int)
    (comp1 comp2 : FLOAT_INT_PAIR → FLOAT_INT_PAIR → Bool)
    (hc1 : ∀ a b, comp1 a b = decide (key1 a < key1 b))
    (hc2 : ∀ a b, comp2 a b = decide (key2 a < key2 b))
    (l1 l2 : FLOAT_INT_PAIRS) (v : FLOAT_INT_PAIR)
    (hs1 : l1.Pairwise (fun a b => key1 a ≤ key1 b))
    (hs2 : l2.Pairwise (fun a b => key2 a ≤ key2 b))
    (hn1 : (l1.map Prod.snd).Nodup) (hn2 : (l2.map Prod.snd).Nodup) (x : FLOAT_INT_PAIR) :
    x ∈ std_set_intersection pair_comp_mol_asc
          (std_sort pair_comp_mol_asc (std_upper_bound l1 v comp1))
          (std_sort pair_comp_mol_asc (std_upper_bound l2 v comp2))
      ↔ (x ∈ l1 ∧ key1 v < key1 x) ∧ ∃ z, (z ∈ l2 ∧ key2 v < key2 z) ∧ z.2 = x.2 := by
  rw [mem_set_intersection _ _ (sort_by_index_strict _ (upper_bound_nodup l1 v comp1 hn1))
    (sort_by_index_strict _ (upper_bound_nodup l2 v comp2 hn2))]
  rw [(std_sort_perm pair_comp_mol_asc _).mem_iff, mem_upper_bound_of_sorted key1 comp1 hc1 l1 v hs1]
  constructor
  · rintro ⟨hx, z, hz, hzx⟩
    rw [(std_sort_perm pair_comp_mol_asc _).mem_iff,
      mem_upper_bound_of_sorted key2 comp2 hc2 l2 v hs2] at hz
    exact ⟨hx, z, hz, hzx⟩
  · rintro ⟨hx, z, hz, hzx⟩
    refine ⟨hx, z, ?_, hzx⟩
    rw [(std_sort_perm pair_comp_mol_asc _).mem_iff,
      mem_upper_bound_of_sorted key2 comp2 hc2 l2 v hs2]
    exact hz

theorem mem_collectEdges (comps : List ReactionComponent) (plus_pos : Vec2f)
    (edge : Rect2f → Int) (inter : FLOAT_INT_PAIRS) (e : FLOAT_INT_PAIR) :
    e ∈ collectEdges comps plus_pos edge inter
      ↔ ∃ kvp ∈ inter, (comps.getD kvp.2 default).bbox.pointInRect plus_pos = false
          ∧ e = (edge (comps.getD kvp.2 default).bbox, kvp.2) := by
  unfold collectEdges
  rw [List.mem_map]
  constructor
  · rintro ⟨kvp, hk, rfl⟩
    rw [List.mem_filter] at hk
    exact ⟨kvp, hk.1, by simpa using hk.2, rfl⟩
  · rintro ⟨kvp, hk, hp, rfl⟩
    exact ⟨kvp, List.mem_filter.mpr ⟨hk, by simpa using hp⟩, rfl⟩

theorem getD_of_getElem? (comps : List ReactionComponent) (i : Nat) (rc : ReactionComponent)
    (h : comps[i]? = some rc) : comps.getD i default = rc := by
  rw [List.getD_eq_getElem?_getD, h]
  rfl

theorem mem_row_mates (comps : List ReactionComponent) (plus_pos : Vec2f) (edge : Rect2f → Int)
    (e : FLOAT_INT_PAIR) :
    e ∈ collectEdges comps plus_pos edge
          (std_set_intersection pair_comp_mol_asc
            (std_sort pair_comp_mol_asc
              (std_upper_bound (sortedEdges comps).1 (plus_pos.y, 0) pair_comp_asc))
            (std_sort pair_comp_mol_asc
              (std_upper_bound (sortedEdges comps).2.1 (plus_pos.y, 0) pair_comp_des)))
      ↔ ∃ rc, comps[e.2]? = some rc ∧ e.1 = edge rc.bbox ∧ plus_pos.y < rc.bbox.top
          ∧ rc.bbox.bottom < plus_pos.y ∧ rc.bbox.pointInRect plus_pos = false := by
  rw [mem_collectEdges]
  have hmem : ∀ x : FLOAT_INT_PAIR,
      x ∈ std_set_intersection pair_comp_mol_asc
          (std_sort pair_comp_mol_asc
            (std_upper_bound (sortedEdges comps).1 (plus_pos.y, 0) pair_comp_asc))
          (std_sort pair_comp_mol_asc
            (std_upper_bound (sortedEdges comps).2.1 (plus_pos.y, 0) pair_comp_des))
        ↔ ∃ rc, comps[x.2]? = some rc ∧ x.1 = rc.bbox.top ∧ plus_pos.y < rc.bbox.top
            ∧ rc.bbox.bottom < plus_pos.y := by
    intro x
    simp only [sortedEdges]
    rw [mem_mates (fun e : FLOAT_INT_PAIR => e.1) (fun e : FLOAT_INT_PAIR => -e.1) pair_comp_asc
      pair_comp_des pair_comp_asc_key pair_comp_des_key _ _ _
      (std_sort_pairwise_key _ _ pair_comp_asc_key _)
      (std_sort_pairwise_key _ _ pair_comp_des_key _)
      (((std_sort_perm _ _).map _).nodup_iff.mpr (edgeArray_nodup _ comps))
      (((std_sort_perm _ _).map _).nodup_iff.mpr (edgeArray_nodup _ comps))]
    simp only [(std_sort_perm _ _).mem_iff, mem_edgeArray, neg_lt_neg_iff]
    constructor
    · rintro ⟨⟨⟨rc, hrc, hx⟩, hlt⟩, z, ⟨⟨rc2, hrc2, hz⟩, hlt2⟩, hzx⟩
      rw [hzx, hrc] at hrc2
      cases hrc2
      exact ⟨rc, hrc, hx, by rw [← hx]; exact hlt, by rw [← hz]; exact hlt2⟩
    · rintro ⟨rc, hrc, hx, h1, h2⟩
      exact ⟨⟨⟨rc, hrc, hx⟩, by rw [hx]; exact h1⟩, (rc.bbox.bottom, x.2),
        ⟨⟨rc, hrc, rfl⟩, h2⟩, rfl⟩
  constructor
  · rintro ⟨kvp, hk, hp, rfl⟩
    obtain ⟨rc, hrc, -, h1, h2⟩ := (hmem kvp).mp hk
    rw [getD_of_getElem? comps kvp.2 rc hrc] at hp ⊢
    exact ⟨rc, hrc, rfl, h1, h2, hp⟩
  · rintro ⟨rc, hrc, he, h1, h2, hp⟩
    refine ⟨(rc.bbox.top, e.2), (hmem _).mpr ⟨rc, hrc, rfl, h1, h2⟩, ?_, ?_⟩
    · rw [getD_of_getElem? comps e.2 rc hrc]
      exact hp
    · rw [getD_of_getElem? comps e.2 rc hrc, Prod.ext_iff]
      exact ⟨he, rfl⟩

theorem mem_col_mates (comps : List ReactionComponent) (plus_pos : Vec2f) (edge : Rect2f → Int)
    (e : FLOAT_INT_PAIR) :
    e ∈ collectEdges comps plus_pos edge
          (std_set_intersection pair_comp_mol_asc
            (std_sort pair_comp_mol_asc
              (std_upper_bound (sortedEdges comps).2.2.1 (plus_pos.x, 0) pair_comp_des))
            (std_sort pair_comp_mol_asc
              (std_upper_bound (sortedEdges comps).2.2.2 (plus_pos.x, 0) pair_comp_asc)))
      ↔ ∃ rc, comps[e.2]? = some rc ∧ e.1 = edge rc.bbox ∧ rc.bbox.left < plus_pos.x
          ∧ plus_pos.x < rc.bbox.right ∧ rc.bbox.pointInRect plus_pos = false := by
  rw [mem_collectEdges]
  have hmem : ∀ x : FLOAT_INT_PAIR,
      x ∈ std_set_intersection pair_comp_mol_asc
          (std_sort pair_comp_mol_asc
            (std_upper_bound (sortedEdges comps).2.2.1 (plus_pos.x, 0) pair_comp_des))
          (std_sort pair_comp_mol_asc
            (std_upper_bound (sortedEdges comps).2.2.2 (plus_pos.x, 0) pair_comp_asc))
        ↔ ∃ rc, comps[x.2]? = some rc ∧ x.1 = rc.bbox.left ∧ rc.bbox.left < plus_pos.x
            ∧ plus_pos.x < rc.bbox.right := by
    intro x
    simp only [sortedEdges]
    rw [mem_mates (fun e : FLOAT_INT_PAIR => -e.1) (fun e : FLOAT_INT_PAIR => e.1) pair_comp_des
      pair_comp_asc pair_comp_des_key pair_comp_asc_key _ _ _
      (std_sort_pairwise_key _ _ pair_comp_des_key _)
      (std_sort_pairwise_key _ _ pair_comp_asc_key _)
      (((std_sort_perm _ _).map _).nodup_iff.mpr (edgeArray_nodup _ comps))
      (((std_sort_perm _ _).map _).nodup_iff.mpr (edgeArray_nodup _ comps))]
    simp only [(std_sort_perm _ _).mem_iff, mem_edgeArray, neg_lt_neg_iff]
    constructor
    · rintro ⟨⟨⟨rc, hrc, hx⟩, hlt⟩, z, ⟨⟨rc2, hrc2, hz⟩, hlt2⟩, hzx⟩
      rw [hzx, hrc] at hrc2
      cases hrc2
      exact ⟨rc, hrc, hx, by rw [← hx]; exact hlt, by rw [← hz]; exact hlt2⟩
    · rintro ⟨rc, hrc, hx, h1, h2⟩
      exact ⟨⟨⟨rc, hrc, hx⟩, by rw [hx]; exact h1⟩, (rc.bbox.right, x.2),
        ⟨⟨rc, hrc, rfl⟩, h2⟩, rfl⟩
  constructor
  · rintro ⟨kvp, hk, hp, rfl⟩
    obtain ⟨rc, hrc, -, h1, h2⟩ := (hmem kvp).mp hk
    rw [getD_of_getElem? comps kvp.2 rc hrc] at hp ⊢
    exact ⟨rc, hrc, rfl, h1, h2, hp⟩
  · rintro ⟨rc, hrc, he, h1, h2, hp⟩
    refine ⟨(rc.bbox.left, e.2), (hmem _).mpr ⟨rc, hrc, rfl, h1, h2⟩, ?_, ?_⟩
    · rw [getD_of_getElem? comps e.2 rc hrc]
      exact hp
    · rw [getD_of_getElem? comps e.2 rc hrc, Prod.ext_iff]
      exact ⟨he, rfl⟩
theorem choosePlusPair_written (comps : List ReactionComponent) (plus_pos : Vec2f)
    (its : PlusIters) (connection : Nat × Nat)
    (h : (its.rights_row_it ≠ [] ∧ its.lefts_row_it ≠ [])
      ∨ (its.tops_col_it ≠ [] ∧ its.bottoms_col_it ≠ [])) :
    (∃ r rs l ls, its.rights_row_it = r :: rs ∧ its.lefts_row_it = l :: ls
        ∧ (choosePlusPair comps plus_pos its connection).2 = (l.2, r.2))
    ∨ (∃ t ts b bs, its.tops_col_it = t :: ts ∧ its.bottoms_col_it = b :: bs
        ∧ (choosePlusPair comps plus_pos its connection).2 = (t.2, b.2)) := by
  obtain ⟨rr, lr, tc, bc⟩ := its
  simp only at h ⊢
  cases rr with
  | nil =>
    cases tc with
    | nil => simp at h
    | cons t ts =>
      cases bc with
      | nil => simp at h
      | cons b bs =>
        exact Or.inr ⟨t, ts, b, bs, rfl, rfl, by simp [choosePlusPair, horizontalChoice]⟩
  | cons r rs =>
    cases lr with
    | nil =>
      cases tc with
      | nil => simp at h
      | cons t ts =>
        cases bc with
        | nil => simp at h
        | cons b bs =>
          exact Or.inr ⟨t, ts, b, bs, rfl, rfl, by simp [choosePlusPair, horizontalChoice]⟩
    | cons l ls =>
      cases tc with
      | nil => exact Or.inl ⟨r, rs, l, ls, rfl, rfl, by simp [choosePlusPair, horizontalChoice]⟩
      | cons t ts =>
        cases bc with
        | nil => exact Or.inl ⟨r, rs, l, ls, rfl, rfl, by simp [choosePlusPair, horizontalChoice]⟩
        | cons b bs =>
          by_cases hc : (!(isMolecule comps l.2 && isMolecule comps r.2)
              || decide (min (t.1 - plus_pos.y) (b.1 - plus_pos.y)
                  < min (fabs (r.1 - plus_pos.x)) (fabs (plus_pos.x - l.1)))) = true
          · exact Or.inr ⟨t, ts, b, bs, rfl, rfl, by
              simp only [choosePlusPair, horizontalChoice]
              rw [if_pos hc]⟩
          · exact Or.inl ⟨r, rs, l, ls, rfl, rfl, by
              simp only [choosePlusPair, horizontalChoice]
              rw [if_neg hc]⟩

/-! ## C18 -/

/-- C18: with the edge arrays as `parseMultipleArrowReaction` sorts them, the components
`findPlusNeighbours` collects for the horizontal pair (with their right and their left edges)
are exactly those whose box has top > p.y and bottom < p.y and does not contain p, and those
it collects for the vertical pair (with their top and their bottom edges) are exactly those
whose box has left < p.x and right > p.x and does not contain p. Whenever a horizontal or a
vertical pair exists, neither component of the connection pair returned has a box that
contains p. -/
theorem findPlusNeighbours_mates (comps : List ReactionComponent) (plus_pos : Vec2f)
    (m : FLOAT_INT_PAIRS × FLOAT_INT_PAIRS × FLOAT_INT_PAIRS × FLOAT_INT_PAIRS) (its : PlusIters)
    (hm : m = plusMates comps plus_pos (sortedEdges comps).1 (sortedEdges comps).2.1
      (sortedEdges comps).2.2.1 (sortedEdges comps).2.2.2)
    (hits : its = findPlusIters comps plus_pos (sortedEdges comps).1 (sortedEdges comps).2.1
      (sortedEdges comps).2.2.1 (sortedEdges comps).2.2.2) :
    (∀ e, e ∈ m.1 ↔ ∃ rc, comps[e.2]? = some rc ∧ e.1 = rc.bbox.right
        ∧ plus_pos.y < rc.bbox.top ∧ rc.bbox.bottom < plus_pos.y
        ∧ rc.bbox.pointInRect plus_pos = false)
    ∧ (∀ e, e ∈ m.2.1 ↔ ∃ rc, comps[e.2]? = some rc ∧ e.1 = rc.bbox.left
        ∧ plus_pos.y < rc.bbox.top ∧ rc.bbox.bottom < plus_pos.y
        ∧ rc.bbox.pointInRect plus_pos = false)
    ∧ (∀ e, e ∈ m.2.2.1 ↔ ∃ rc, comps[e.2]? = some rc ∧ e.1 = rc.bbox.top
        ∧ rc.bbox.left < plus_pos.x ∧ plus_pos.x < rc.bbox.right
        ∧ rc.bbox.pointInRect plus_pos = false)
    ∧ (∀ e, e ∈ m.2.2.2 ↔ ∃ rc, comps[e.2]? = some rc ∧ e.1 = rc.bbox.bottom
        ∧ rc.bbox.left < plus_pos.x ∧ plus_pos.x < rc.bbox.right
        ∧ rc.bbox.pointInRect plus_pos = false)
    ∧ ((its.rights_row_it ≠ [] ∧ its.lefts_row_it ≠ [])
        ∨ (its.tops_col_it ≠ [] ∧ its.bottoms_col_it ≠ []) →
      ∀ connection : Nat × Nat, ∃ rc1 rc2,
        comps[(findPlusNeighbours comps plus_pos (sortedEdges comps).1 (sortedEdges comps).2.1
          (sortedEdges comps).2.2.1 (sortedEdges comps).2.2.2 connection).2.1]? = some rc1
        ∧ comps[(findPlusNeighbours comps plus_pos (sortedEdges comps).1 (sortedEdges comps).2.1
          (sortedEdges comps).2.2.1 (sortedEdges comps).2.2.2 connection).2.2]? = some rc2
        ∧ rc1.bbox.pointInRect plus_pos = false ∧ rc2.bbox.pointInRect plus_pos = false) := by
  have h1 : ∀ e, e ∈ m.1 ↔ ∃ rc, comps[e.2]? = some rc ∧ e.1 = rc.bbox.right
      ∧ plus_pos.y < rc.bbox.top ∧ rc.bbox.bottom < plus_pos.y
      ∧ rc.bbox.pointInRect plus_pos = false := by
    intro e
    rw [hm]
    exact mem_row_mates comps plus_pos Rect2f.right e
  have h2 : ∀ e, e ∈ m.2.1 ↔ ∃ rc, comps[e.2]? = some rc ∧ e.1 = rc.bbox.left
      ∧ plus_pos.y < rc.bbox.top ∧ rc.bbox.bottom < plus_pos.y
      ∧ rc.bbox.pointInRect plus_pos = false := by
    intro e
    rw [hm]
    exact mem_row_mates comps plus_pos Rect2f.left e
  have h3 : ∀ e, e ∈ m.2.2.1 ↔ ∃ rc, comps[e.2]? = some rc ∧ e.1 = rc.bbox.top
      ∧ rc.bbox.left < plus_pos.x ∧ plus_pos.x < rc.bbox.right
      ∧ rc.bbox.pointInRect plus_pos = false := by
    intro e
    rw [hm]
    exact mem_col_mates comps plus_pos Rect2f.top e
  have h4 : ∀ e, e ∈ m.2.2.2 ↔ ∃ rc, comps[e.2]? = some rc ∧ e.1 = rc.bbox.bottom
      ∧ rc.bbox.left < plus_pos.x ∧ plus_pos.x < rc.bbox.right
      ∧ rc.bbox.pointInRect plus_pos = false := by
    intro e
    rw [hm]
    exact mem_col_mates comps plus_pos Rect2f.bottom e
  refine ⟨h1, h2, h3, h4, ?_⟩
  intro hex connection
  have hR := (upper_bound_sort_first (fun e : FLOAT_INT_PAIR => -e.1) pair_comp_des
    pair_comp_des_key m.1 (plus_pos.x, 0)).2
  have hL := (upper_bound_sort_first (fun e : FLOAT_INT_PAIR => e.1) pair_comp_asc
    pair_comp_asc_key m.2.1 (plus_pos.x, 0)).2
  have hT := (upper_bound_sort_first (fun e : FLOAT_INT_PAIR => e.1) pair_comp_asc
    pair_comp_asc_key m.2.2.1 (plus_pos.y, 0)).2
  have hB := (upper_bound_sort_first (fun e : FLOAT_INT_PAIR => -e.1) pair_comp_des
    pair_comp_des_key m.2.2.2 (plus_pos.y, 0)).2
  have hits2 := hits
  rw [findPlusIters_eq_plusMates, ← hm] at hits2
  unfold findPlusNeighbours
  rw [← hits]
  rcases choosePlusPair_written comps plus_pos its connection hex with
    ⟨r, rs, l, ls, hr, hl, hc⟩ | ⟨t, ts, b, bs, ht, hb, hc⟩
  · rw [hc]
    rw [hits2] at hr hl
    obtain ⟨rc1, hrc1, -, -, -, hp1⟩ := (h2 l).mp (hL l ls hl).1
    obtain ⟨rc2, hrc2, -, -, -, hp2⟩ := (h1 r).mp (hR r rs hr).1
    exact ⟨rc1, rc2, hrc1, hrc2, hp1, hp2⟩
  · rw [hc]
    rw [hits2] at ht hb
    obtain ⟨rc1, hrc1, -, -, -, hp1⟩ := (h3 t).mp (hT t ts ht).1
    obtain ⟨rc2, hrc2, -, -, -, hp2⟩ := (h4 b).mp (hB b bs hb).1
    exact ⟨rc1, rc2, hrc1, hrc2, hp1, hp2⟩

/-- Witness of C18: the plus of a cross-shaped document; the pair returned is (2, 3). -/
theorem findPlusNeighbours_mates_witness :
    ∃ rc1 rc2, (collectComponents exampleShifts (crossDocument 1 4 5))[2]? = some rc1
      ∧ (collectComponents exampleShifts (crossDocument 1 4 5))[3]? = some rc2
      ∧ rc1.bbox.pointInRect ⟨0, 0⟩ = false ∧ rc2.bbox.pointInRect ⟨0, 0⟩ = false :=
  (findPlusNeighbours_mates (collectComponents exampleShifts (crossDocument 1 4 5)) ⟨0, 0⟩ _ _
    rfl rfl).2.2.2.2 (Or.inl (by decide)) (0, 0)
/-! ## C29 -/

theorem fabs_nonneg (v : Int) : 0 ≤ fabs v := by
  unfold fabs
  split <;> omega

/-- C29: whenever a vertical pair exists, that is some column mate of the plus has its top
edge above p.y and some column mate its bottom edge below p.y, `findPlusNeighbours` writes
the vertical pair, whatever the horizontal search found, and returns true exactly when both
vertical members are Molecule components; the vertical distance it computes is negative and
smaller than the horizontal distance of any horizontal pair. -/
theorem findPlusNeighbours_vertical_wins (comps : List ReactionComponent) (plus_pos : Vec2f)
    (mol_tops mol_bottoms mol_lefts mol_rights : FLOAT_INT_PAIRS) (connection : Nat × Nat)
    (hv : (∃ e ∈ (plusMates comps plus_pos mol_tops mol_bottoms mol_lefts mol_rights).2.2.1,
            plus_pos.y < e.1)
        ∧ (∃ e ∈ (plusMates comps plus_pos mol_tops mol_bottoms mol_lefts mol_rights).2.2.2,
            e.1 < plus_pos.y)) :
    ∃ t ts b bs,
      (findPlusIters comps plus_pos mol_tops mol_bottoms mol_lefts mol_rights).tops_col_it = t :: ts
      ∧ (findPlusIters comps plus_pos mol_tops mol_bottoms mol_lefts mol_rights).bottoms_col_it
          = b :: bs
      ∧ findPlusNeighbours comps plus_pos mol_tops mol_bottoms mol_lefts mol_rights connection
          = (isMolecule comps t.2 && isMolecule comps b.2, (t.2, b.2))
      ∧ min (t.1 - plus_pos.y) (b.1 - plus_pos.y) < 0
      ∧ ∀ r l : FLOAT_INT_PAIR, min (t.1 - plus_pos.y) (b.1 - plus_pos.y)
          < min (fabs (r.1 - plus_pos.x)) (fabs (plus_pos.x - l.1)) := by
  have hT := upper_bound_sort_first (fun e : FLOAT_INT_PAIR => e.1) pair_comp_asc
    pair_comp_asc_key (plusMates comps plus_pos mol_tops mol_bottoms mol_lefts mol_rights).2.2.1
    (plus_pos.y, 0)
  have hB := upper_bound_sort_first (fun e : FLOAT_INT_PAIR => -e.1) pair_comp_des
    pair_comp_des_key (plusMates comps plus_pos mol_tops mol_bottoms mol_lefts mol_rights).2.2.2
    (plus_pos.y, 0)
  simp only [neg_lt_neg_iff, neg_le_neg_iff] at hT hB
  have hits := findPlusIters_eq_plusMates comps plus_pos mol_tops mol_bottoms mol_lefts mol_rights
  unfold findPlusNeighbours
  generalize findPlusIters comps plus_pos mol_tops mol_bottoms mol_lefts mol_rights = its at hits ⊢
  obtain ⟨rr, lr, tc, bc⟩ := its
  simp only [PlusIters.mk.injEq] at hits
  obtain ⟨-, -, htc, hbc⟩ := hits
  rw [← htc] at hT
  rw [← hbc] at hB
  have htne : tc ≠ [] := hT.1.mpr hv.1
  have hbne : bc ≠ [] := hB.1.mpr hv.2
  obtain ⟨t, ts, rfl⟩ := List.exists_cons_of_ne_nil htne
  obtain ⟨b, bs, rfl⟩ := List.exists_cons_of_ne_nil hbne
  have hblt : b.1 < plus_pos.y := (hB.2 b bs rfl).2.1
  have hneg : min (t.1 - plus_pos.y) (b.1 - plus_pos.y) < 0 :=
    lt_of_le_of_lt (min_le_right _ _) (by omega)
  have hlt : ∀ r l : FLOAT_INT_PAIR, min (t.1 - plus_pos.y) (b.1 - plus_pos.y)
      < min (fabs (r.1 - plus_pos.x)) (fabs (plus_pos.x - l.1)) := by
    intro r l
    exact lt_of_lt_of_le hneg (le_min (fabs_nonneg _) (fabs_nonneg _))
  refine ⟨t, ts, b, bs, rfl, rfl, ?_, hneg, hlt⟩
  cases rr with
  | nil => simp [choosePlusPair, horizontalChoice]
  | cons r rs =>
    cases lr with
    | nil => simp [choosePlusPair, horizontalChoice]
    | cons l ls =>
      simp only [choosePlusPair, horizontalChoice]
      rw [if_pos (by simp [hlt r l])]

/-- Witness of C29: the plus of a cross-shaped document whose horizontal neighbours are at
distance 1 and whose vertical neighbours have their far edges at distance 5. -/
theorem findPlusNeighbours_vertical_wins_witness :
    ∃ t ts b bs,
      (plusItersOf exampleShifts (crossDocument 1 4 5) ⟨0, 0⟩).tops_col_it = t :: ts
      ∧ (plusItersOf exampleShifts (crossDocument 1 4 5) ⟨0, 0⟩).bottoms_col_it = b :: bs
      ∧ plusNeighboursOf exampleShifts (crossDocument 1 4 5) ⟨0, 0⟩
          = (isMolecule (collectComponents exampleShifts (crossDocument 1 4 5)) t.2
              && isMolecule (collectComponents exampleShifts (crossDocument 1 4 5)) b.2,
            (t.2, b.2))
      ∧ min (t.1 - 0) (b.1 - 0) < 0
      ∧ ∀ r l : FLOAT_INT_PAIR, min (t.1 - 0) (b.1 - 0) < min (fabs (r.1 - 0)) (fabs (0 - l.1)) :=
  findPlusNeighbours_vertical_wins (collectComponents exampleShifts (crossDocument 1 4 5)) ⟨0, 0⟩
    (sortedEdges (collectComponents exampleShifts (crossDocument 1 4 5))).1
    (sortedEdges (collectComponents exampleShifts (crossDocument 1 4 5))).2.1
    (sortedEdges (collectComponents exampleShifts (crossDocument 1 4 5))).2.2.1
    (sortedEdges (collectComponents exampleShifts (crossDocument 1 4 5))).2.2.2 (0, 0)
    ⟨⟨(5, 2), by decide, by decide⟩, ⟨(-5, 3), by decide, by decide⟩⟩
/-! ## C21 -/

/-- C21, evaluation at the failing input: four molecules in a row; the pair (1, 0) creates
the block of node 0. The pair (2, 1), first component unassigned and second in the block,
appends component 2 to the block and marks it connected, but leaves its iterator unassigned;
the mirror pair (1, 2) binds component 2 to node 0. After the pair (2, 1) a later pair (2, 3)
dereferences that unassigned iterator and the run is undefined. -/
theorem connectPlus_second_only_unbound :
    (connectPairs [(1, 0), (2, 1)] (moleculesState (rowDocument []).fragments)).map
        (fun st => (st._component_summ_blocks_list.map (fun nd => (nd.1, nd.2.indexes, nd.2.bbox)),
          (st._reaction_components.getD 2 default).summ_block_idx,
          (st._reaction_components.getD 2 default).summ_block_it))
      = some ([(0, [1, 0, 2], box 0 (-1) 16 1)], SummBlockIdx.CONNECTED, none)
    ∧ (connectPairs [(1, 0), (1, 2)] (moleculesState (rowDocument []).fragments)).map
        (fun st => (st._component_summ_blocks_list.map (fun nd => (nd.1, nd.2.indexes, nd.2.bbox)),
          (st._reaction_components.getD 2 default).summ_block_idx,
          (st._reaction_components.getD 2 default).summ_block_it))
      = some ([(0, [1, 0, 2], box 0 (-1) 16 1)], SummBlockIdx.CONNECTED, some 0)
    ∧ connectPairs [(1, 0), (2, 1), (2, 3)] (moleculesState (rowDocument []).fragments) = none
    ∧ (connectPairs [(1, 0), (1, 2), (2, 3)] (moleculesState (rowDocument []).fragments)).map
        (fun st => st._component_summ_blocks_list.map (fun nd => (nd.1, nd.2.indexes)))
      = some [(0, [1, 0, 2, 3])] := by
  refine ⟨?_, ?_, ?_, ?_⟩
  · decide
  · decide
  · decide
  · decide

/-! ## C25 -/

/-- C25, evaluation at the failing input: the arrow (0,0)-(10,0) ends inside the box of
fragment 1. Both scans find a block, block 1 from begin to end at distance 0 and block 0 from
end to begin, yet the arrow has no effect: after the arrow loop both blocks are `UNDEFINED`
and no edge has been appended. -/
theorem arrow_end_inside_box_no_effect :
    (buildBlocks exampleShifts arrowEndInsideDocument).map
        (fun st => scanArrow st._component_summ_blocks ⟨0, ⟨0, 0⟩, ⟨10, 0⟩⟩)
      = some ⟨0, 4, 1, 0⟩
    ∧ (parseMultipleArrowState exampleShifts arrowEndInsideDocument).map
        (fun st => st._component_summ_blocks.map (fun csb => (csb.indexes, csb.role, csb.arrows_to)))
      = some [([0], Role.UNDEFINED, []), ([1], Role.UNDEFINED, [])] := by
  decide

/-! ## C26 -/

/-- C26, counterexample: components 0 and 2 are joined in block 0 (members [2, 0]) and
component 1 is alone in block 1; the copies are made in the order 0, 1, 2. -/
theorem construct_copies_in_component_order :
    parseMultipleArrowReaction exampleShifts interleavedDocument
      = some [RxnCall.addUndefinedCopy [0], RxnCall.addUndefinedCopy [1],
          RxnCall.addUndefinedCopy [2],
          RxnCall.addReactionBlock Role.UNDEFINED [2, 0] [],
          RxnCall.addReactionBlock Role.UNDEFINED [1] []] := by
  decide

/-- C26, amended: in a state where every Molecule component refers to a block of the vector,
`constructMultipleArrowReaction` makes the fragment copies in component index order, one per
Molecule component, whatever blocks the components belong to, and then adds the block
records. -/
theorem constructMultipleArrowReaction_copy_order (st : LoaderState)
    (hwf : ∀ rc ∈ st._reaction_components, rc.component_type = ComponentType.MOLECULE →
      ∃ n csb, rc.summ_block_idx = SummBlockIdx.idx n ∧ st._component_summ_blocks[n]? = some csb) :
    ∃ copies, constructMultipleArrowReaction st
        = some (copies ++ st._component_summ_blocks.map
            (fun cb => RxnCall.addReactionBlock cb.role cb.indexes cb.arrows_to))
      ∧ copies.map RxnCall.copiedFragments
          = (st._reaction_components.enum.filter
              (fun e => decide (e.2.component_type = ComponentType.MOLECULE))).map
              (fun e => some [e.1])
      ∧ ((st._reaction_components.enum.filter
            (fun e => decide (e.2.component_type = ComponentType.MOLECULE))).map
            Prod.fst).Pairwise (fun i j => i < j) := by
  obtain ⟨copies, hc, hf⟩ :=
    constructCopies_spec st._component_summ_blocks st._reaction_components 0 hwf
  refine ⟨copies, by simp [constructMultipleArrowReaction, hc], ?_, ?_⟩
  · clear hc
    rw [List.enum]
    generalize (List.enumFrom 0 st._reaction_components).filter
      (fun e => decide (e.2.component_type = ComponentType.MOLECULE)) = es at hf
    induction hf with
    | nil => rfl
    | cons h _ ih =>
      obtain ⟨n, csb, -, -, rfl⟩ := h
      rw [List.map_cons, List.map_cons, ih]
      cases csb.role <;> rfl
  · have hsub : ((st._reaction_components.enum.filter
          (fun e => decide (e.2.component_type = ComponentType.MOLECULE))).map Prod.fst).Sublist
        (List.range st._reaction_components.length) := by
      rw [← List.enum_map_fst]
      exact (List.filter_sublist _).map _
    exact List.Pairwise.sublist hsub (List.pairwise_lt_range _)

/-- Witness of C26 amended: the state of the scenario document. -/
theorem constructMultipleArrowReaction_copy_order_witness :
    ∃ copies, constructMultipleArrowReaction scenarioState
        = some (copies ++ scenarioState._component_summ_blocks.map
            (fun cb => RxnCall.addReactionBlock cb.role cb.indexes cb.arrows_to))
      ∧ copies.map RxnCall.copiedFragments = [some [0], some [1], some [2]] := by
  obtain ⟨copies, h1, h2, -⟩ := constructMultipleArrowReaction_copy_order scenarioState (by
    intro rc hrc hty
    simp only [scenarioState, List.mem_cons, List.mem_singleton, List.not_mem_nil, or_false] at hrc
    rcases hrc with rfl | rfl | rfl | rfl | rfl
    · exact ⟨0, _, rfl, rfl⟩
    · exact ⟨1, _, rfl, rfl⟩
    · exact ⟨2, _, rfl, rfl⟩
    · cases hty
    · cases hty)
  exact ⟨copies, h1, h2⟩
/-! ## The minima of the arrow scan -/

theorem scanBlock_min (arr_begin arr_end : Vec2f) (pre rest : List MolSumm) (csb : MolSumm)
    (acc : ArrowScan)
    (hinv : ScanInv arr_begin arr_end (pre ++ csb :: rest) pre.length acc)
    (h : ScanMin arr_begin arr_end (pre ++ csb :: rest) pre.length acc) :
    ScanMin arr_begin arr_end (pre ++ csb :: rest) (pre.length + 1)
      (scanBlock arr_begin arr_end acc pre.length csb) := by
  have hget : (pre ++ csb :: rest)[pre.length]? = some csb := by
    rw [List.getElem?_append_right (le_refl _)]
    simp
  unfold ScanInv at hinv
  unfold ScanMin at h ⊢
  obtain ⟨hP, hR⟩ := h
  have hidxP : 0 ≤ acc.min_dist_prod → acc.idx_cs_min_prod < (pre.length : Int) := by
    intro h0
    obtain ⟨k, c, hk, hlt, -⟩ := hinv.1 h0
    omega
  have hidxR : 0 ≤ acc.min_dist_reac → acc.idx_cs_min_reac < (pre.length : Int) := by
    intro h0
    obtain ⟨k, c, hk, hlt, -⟩ := hinv.2 h0
    omega
  unfold scanBlock
  by_cases hp : csb.bbox.rayIntersectsRect arr_begin arr_end = true
  · simp only [hp, if_true]
    have hd := pointDistance_nonneg csb.bbox arr_end
    split
    · rename_i hupd
      refine ⟨?_, ?_⟩
      · intro k c hk hkc hray
        by_cases hkn : k = pre.length
        · subst hkn
          rw [hget] at hkc
          cases hkc
          exact ⟨hd, le_refl _, fun hlt => absurd hlt (lt_irrefl _)⟩
        · obtain ⟨h0, h1, -⟩ := hP k c (by omega) hkc hray
          have hlt : csb.bbox.pointDistance arr_end < acc.min_dist_prod := by
            rcases hupd with hneg | hlt
            · omega
            · exact hlt
          exact ⟨hd, by simp only; omega, fun _ => by simp only; omega⟩
      · intro k c hk hkc hray1 hray2
        by_cases hkn : k = pre.length
        · subst hkn
          rw [hget] at hkc
          cases hkc
          rw [hp] at hray1
          cases hray1
        · exact hR k c (by omega) hkc hray1 hray2
    · rename_i hupd
      have hge : 0 ≤ acc.min_dist_prod ∧ acc.min_dist_prod ≤ csb.bbox.pointDistance arr_end := by
        constructor
        · by_contra hc
          exact hupd (Or.inl (by omega))
        · by_contra hc
          exact hupd (Or.inr (by omega))
      refine ⟨?_, ?_⟩
      · intro k c hk hkc hray
        by_cases hkn : k = pre.length
        · subst hkn
          rw [hget] at hkc
          cases hkc
          refine ⟨hge.1, hge.2, fun hlt => ?_⟩
          have := hidxP hge.1
          omega
        · exact hP k c (by omega) hkc hray
      · intro k c hk hkc hray1 hray2
        by_cases hkn : k = pre.length
        · subst hkn
          rw [hget] at hkc
          cases hkc
          rw [hp] at hray1
          cases hray1
        · exact hR k c (by omega) hkc hray1 hray2
  · have hp2 : csb.bbox.rayIntersectsRect arr_begin arr_end = false := by
      simpa using hp
    simp only [hp2, Bool.false_eq_true, if_false]
    by_cases hr : csb.bbox.rayIntersectsRect arr_end arr_begin = true
    · simp only [hr, if_true]
      have hd := pointDistance_nonneg csb.bbox arr_begin
      split
      · rename_i hupd
        refine ⟨?_, ?_⟩
        · intro k c hk hkc hray
          by_cases hkn : k = pre.length
          · subst hkn
            rw [hget] at hkc
            cases hkc
            rw [hp2] at hray
            cases hray
          · exact hP k c (by omega) hkc hray
        · intro k c hk hkc hray1 hray2
          by_cases hkn : k = pre.length
          · subst hkn
            rw [hget] at hkc
            cases hkc
            exact ⟨hd, le_refl _, fun hlt => absurd hlt (lt_irrefl _)⟩
          · obtain ⟨h0, h1, -⟩ := hR k c (by omega) hkc hray1 hray2
            have hlt : csb.bbox.pointDistance arr_begin < acc.min_dist_reac := by
              rcases hupd with hneg | hlt
              · omega
              · exact hlt
            exact ⟨hd, by simp only; omega, fun _ => by simp only; omega⟩
      · rename_i hupd
        have hge : 0 ≤ acc.min_dist_reac
            ∧ acc.min_dist_reac ≤ csb.bbox.pointDistance arr_begin := by
          constructor
          · by_contra hc
            exact hupd (Or.inl (by omega))
          · by_contra hc
            exact hupd (Or.inr (by omega))
        refine ⟨?_, ?_⟩
        · intro k c hk hkc hray
          by_cases hkn : k = pre.length
          · subst hkn
            rw [hget] at hkc
            cases hkc
            rw [hp2] at hray
            cases hray
          · exact hP k c (by omega) hkc hray
        · intro k c hk hkc hray1 hray2
          by_cases hkn : k = pre.length
          · subst hkn
            rw [hget] at hkc
            cases hkc
            refine ⟨hge.1, hge.2, fun hlt => ?_⟩
            have := hidxR hge.1
            omega
          · exact hR k c (by omega) hkc hray1 hray2
    · simp only [hr, if_false]
      refine ⟨?_, ?_⟩
      · intro k c hk hkc hray
        by_cases hkn : k = pre.length
        · subst hkn
          rw [hget] at hkc
          cases hkc
          rw [hp2] at hray
          cases hray
        · exact hP k c (by omega) hkc hray
      · intro k c hk hkc hray1 hray2
        by_cases hkn : k = pre.length
        · subst hkn
          rw [hget] at hkc
          cases hkc
          exact absurd hray2 hr
        · exact hR k c (by omega) hkc hray1 hray2

theorem scanBlocks_min (arr_begin arr_end : Vec2f) (rest pre : List MolSumm) (acc : ArrowScan)
    (hinv : ScanInv arr_begin arr_end (pre ++ rest) pre.length acc)
    (h : ScanMin arr_begin arr_end (pre ++ rest) pre.length acc) :
    ScanMin arr_begin arr_end (pre ++ rest) (pre ++ rest).length
      (scanBlocks arr_begin arr_end rest pre.length acc) := by
  induction rest generalizing pre acc with
  | nil => simpa [scanBlocks] using h
  | cons csb rest ih =>
    have h1 := scanBlock_inv arr_begin arr_end pre rest csb acc hinv
    have h2 := scanBlock_min arr_begin arr_end pre rest csb acc hinv h
    have h3 := ih (pre ++ [csb]) (scanBlock arr_begin arr_end acc pre.length csb)
      (by simpa using h1) (by simpa using h2)
    simpa [scanBlocks] using h3

theorem scanArrow_min (blocks : List MolSumm) (arrow : KETReactionArrow) :
    ScanMin arrow._begin arrow._end blocks blocks.length (scanArrow blocks arrow) := by
  have h := scanBlocks_min arrow._begin arrow._end blocks [] ⟨-1, -1, -1, -1⟩
    (by unfold ScanInv; constructor <;> intro h0 <;> simp at h0)
    (by
      unfold ScanMin
      constructor
      · intro k c hk
        simp at hk
      · intro k c hk
        simp at hk)
  simpa [scanArrow] using h
theorem arrowStep_of_effect (blocks : List MolSumm) (arrow : KETReactionArrow)
    (heff : (scanArrow blocks arrow).min_dist_prod > 0 ∧ (scanArrow blocks arrow).min_dist_reac > 0) :
    ∃ (p r : Nat) (cp cr : MolSumm),
      (scanArrow blocks arrow).idx_cs_min_prod = (p : Int)
      ∧ (scanArrow blocks arrow).idx_cs_min_reac = (r : Int)
      ∧ blocks[p]? = some cp ∧ blocks[r]? = some cr ∧ p ≠ r
      ∧ cp.bbox.rayIntersectsRect arrow._begin arrow._end = true
      ∧ (scanArrow blocks arrow).min_dist_prod = cp.bbox.pointDistance arrow._end
      ∧ cr.bbox.rayIntersectsRect arrow._begin arrow._end = false
      ∧ cr.bbox.rayIntersectsRect arrow._end arrow._begin = true
      ∧ (scanArrow blocks arrow).min_dist_reac = cr.bbox.pointDistance arrow._begin
      ∧ arrowStep blocks arrow = modifyAt (updateReac p) (modifyAt updateProd blocks p) r := by
  have hinv := scanArrow_inv blocks arrow
  unfold ScanInv at hinv
  obtain ⟨p, cp, hp, -, hpget, hpray, hpd⟩ := hinv.1 (le_of_lt heff.1)
  obtain ⟨r, cr, hr, -, hrget, hrray, hrray2, hrd⟩ := hinv.2 (le_of_lt heff.2)
  have hne : p ≠ r := by
    rintro rfl
    rw [hpget] at hrget
    cases hrget
    rw [hpray] at hrray
    cases hrray
  refine ⟨p, r, cp, cr, hp, hr, hpget, hrget, hne, hpray, hpd, hrray, hrray2, hrd, ?_⟩
  simp [arrowStep, applyArrow, heff, hp, hr]

/-! ## C24 -/

/-- C24, counterexample: for the arrow (0,0)-(10,0) over the three fresh blocks of the
scenario, the block that receives the reactant-side update and the edge is block 0, whose
box is not intersected by the ray from begin to end (it is intersected by the ray from end to
begin), and the block that receives the product-side update, the target of the edge, is
block 1, whose box is intersected by the ray from begin to end and not by the reverse one. -/
theorem arrowStep_tail_is_behind :
    (arrowStep (scenarioDocument.fragments.map MolSumm.new) ⟨0, ⟨0, 0⟩, ⟨10, 0⟩⟩).map
        (fun csb => (csb.role, csb.arrows_to))
      = [(Role.REACTANT, [1]), (Role.PRODUCT, []), (Role.UNDEFINED, [])]
    ∧ (box (-5) (-1) (-2) 1).rayIntersectsRect ⟨0, 0⟩ ⟨10, 0⟩ = false
    ∧ (box (-5) (-1) (-2) 1).rayIntersectsRect ⟨10, 0⟩ ⟨0, 0⟩ = true
    ∧ (box 12 (-1) 18 1).rayIntersectsRect ⟨0, 0⟩ ⟨10, 0⟩ = true
    ∧ (box 12 (-1) 18 1).rayIntersectsRect ⟨10, 0⟩ ⟨0, 0⟩ = false := by
  decide

/-- C24, amended: for every arrow (begin b, end e) that takes effect, the block that receives
the product-side update and is the target of the edge is the block of minimum distance to e,
the first such in index order, among the blocks whose box is intersected by the ray from b to
e; the block that receives the reactant-side update and to whose `arrows_to` the edge is
appended is the block of minimum distance to b, the first such in index order, among the
blocks whose box is intersected by the ray from e to b and not by the ray from b to e. -/
theorem arrowStep_matched_blocks (blocks : List MolSumm) (arrow : KETReactionArrow)
    (heff : (scanArrow blocks arrow).min_dist_prod > 0 ∧ (scanArrow blocks arrow).min_dist_reac > 0) :
    ∃ (p r : Nat) (cp cr : MolSumm),
      blocks[p]? = some cp ∧ blocks[r]? = some cr
      ∧ cp.bbox.rayIntersectsRect arrow._begin arrow._end = true
      ∧ (∀ (k : Nat) (c : MolSumm), blocks[k]? = some c →
          c.bbox.rayIntersectsRect arrow._begin arrow._end = true →
          cp.bbox.pointDistance arrow._end ≤ c.bbox.pointDistance arrow._end
          ∧ (k < p → cp.bbox.pointDistance arrow._end < c.bbox.pointDistance arrow._end))
      ∧ cr.bbox.rayIntersectsRect arrow._begin arrow._end = false
      ∧ cr.bbox.rayIntersectsRect arrow._end arrow._begin = true
      ∧ (∀ (k : Nat) (c : MolSumm), blocks[k]? = some c →
          c.bbox.rayIntersectsRect arrow._begin arrow._end = false →
          c.bbox.rayIntersectsRect arrow._end arrow._begin = true →
          cr.bbox.pointDistance arrow._begin ≤ c.bbox.pointDistance arrow._begin
          ∧ (k < r → cr.bbox.pointDistance arrow._begin < c.bbox.pointDistance arrow._begin))
      ∧ (arrowStep blocks arrow)[p]? = some (updateProd cp)
      ∧ (arrowStep blocks arrow)[r]? = some (updateReac p cr)
      ∧ (updateProd cp).arrows_to = cp.arrows_to
      ∧ (updateReac p cr).arrows_to = cr.arrows_to ++ [p] := by
  obtain ⟨p, r, cp, cr, hp, hr, hpget, hrget, hne, hpray, hpd, hrray, hrray2, hrd, hstep⟩ :=
    arrowStep_of_effect blocks arrow heff
  have hmin := scanArrow_min blocks arrow
  unfold ScanMin at hmin
  have hlen : ∀ (k : Nat) (c : MolSumm), blocks[k]? = some c → k < blocks.length := by
    intro k c hk
    by_contra hge
    rw [List.getElem?_eq_none (by omega)] at hk
    cases hk
  refine ⟨p, r, cp, cr, hpget, hrget, hpray, ?_, hrray, hrray2, ?_, ?_, ?_, ?_, ?_⟩
  · intro k c hk hray
    obtain ⟨-, h1, h2⟩ := hmin.1 k c (hlen k c hk) hk hray
    rw [hpd] at h1
    rw [hpd, hp] at h2
    exact ⟨h1, fun hlt => h2 (by omega)⟩
  · intro k c hk hray1 hray2
    obtain ⟨-, h1, h2⟩ := hmin.2 k c (hlen k c hk) hk hray1 hray2
    rw [hrd] at h1
    rw [hrd, hr] at h2
    exact ⟨h1, fun hlt => h2 (by omega)⟩
  · rw [hstep, getElem?_modifyAt, getElem?_modifyAt]
    simp [hne, hpget]
  · rw [hstep, getElem?_modifyAt, getElem?_modifyAt]
    simp [Ne.symm hne, hrget]
  · unfold updateProd
    split
    · rfl
    · split <;> rfl
  · unfold updateReac
    simp only
    split
    · rfl
    · split <;> rfl

/-- Witness of C24 amended: the first arrow of the scenario on three fresh blocks. -/
theorem arrowStep_matched_blocks_witness :
    ∃ (p r : Nat) (cp cr : MolSumm),
      (scenarioDocument.fragments.map MolSumm.new)[p]? = some cp
      ∧ (scenarioDocument.fragments.map MolSumm.new)[r]? = some cr
      ∧ cp.bbox.rayIntersectsRect ⟨0, 0⟩ ⟨10, 0⟩ = true
      ∧ cr.bbox.rayIntersectsRect ⟨0, 0⟩ ⟨10, 0⟩ = false
      ∧ cr.bbox.rayIntersectsRect ⟨10, 0⟩ ⟨0, 0⟩ = true
      ∧ (arrowStep (scenarioDocument.fragments.map MolSumm.new) ⟨0, ⟨0, 0⟩, ⟨10, 0⟩⟩)[p]?
          = some (updateProd cp)
      ∧ (arrowStep (scenarioDocument.fragments.map MolSumm.new) ⟨0, ⟨0, 0⟩, ⟨10, 0⟩⟩)[r]?
          = some (updateReac p cr) := by
  obtain ⟨p, r, cp, cr, h1, h2, h3, -, h5, h6, -, h8, h9, -⟩ :=
    arrowStep_matched_blocks (scenarioDocument.fragments.map MolSumm.new)
      ⟨0, ⟨0, 0⟩, ⟨10, 0⟩⟩ (by decide)
  exact ⟨p, r, cp, cr, h1, h2, h3, h5, h6, h8, h9⟩
/-! ## C27 -/

theorem sum_map_modifyAt {α : Type} (f : α → α) (g : α → Nat) (l : List α) (i : Nat) (b : α)
    (h : l[i]? = some b) :
    ((modifyAt f l i).map g).sum + g b = (l.map g).sum + g (f b) := by
  induction l generalizing i with
  | nil => simp at h
  | cons a l ih =>
    cases i with
    | zero =>
      simp only [List.getElem?_cons_zero, Option.some.injEq] at h
      subst h
      simp only [modifyAt, List.map_cons, List.sum_cons]
      omega
    | succ i =>
      simp only [List.getElem?_cons_succ] at h
      have := ih i h
      simp only [modifyAt, List.map_cons, List.sum_cons]
      omega

theorem arrowStep_edges (blocks : List MolSumm) (arrow : KETReactionArrow)
    (h : ∀ k b, blocks[k]? = some b → ∀ t ∈ b.arrows_to, t < blocks.length ∧ t ≠ k) :
    (arrowStep blocks arrow).length = blocks.length
    ∧ (∀ k b, (arrowStep blocks arrow)[k]? = some b →
        ∀ t ∈ b.arrows_to, t < blocks.length ∧ t ≠ k)
    ∧ ((arrowStep blocks arrow).map (fun b => b.arrows_to.length)).sum
        ≤ (blocks.map (fun b => b.arrows_to.length)).sum + 1 := by
  by_cases heff : (scanArrow blocks arrow).min_dist_prod > 0
      ∧ (scanArrow blocks arrow).min_dist_reac > 0
  · obtain ⟨p, r, cp, cr, -, -, hpget, hrget, hne, -, -, -, -, -, hstep⟩ :=
      arrowStep_of_effect blocks arrow heff
    have hplt : p < blocks.length := by
      by_contra hge
      rw [List.getElem?_eq_none (by omega)] at hpget
      cases hpget
    have hprod : ∀ c : MolSumm, (updateProd c).arrows_to = c.arrows_to := by
      intro c
      unfold updateProd
      split
      · rfl
      · split <;> rfl
    have hreac : ∀ c : MolSumm, (updateReac p c).arrows_to = c.arrows_to ++ [p] := by
      intro c
      unfold updateReac
      simp only
      split
      · rfl
      · split <;> rfl
    rw [hstep]
    refine ⟨by rw [length_modifyAt, length_modifyAt], ?_, ?_⟩
    · intro k b hk t ht
      rw [getElem?_modifyAt, getElem?_modifyAt] at hk
      by_cases hkr : k = r
      · subst hkr
        simp only [if_true, Ne.symm hne, if_false, hrget, Option.map_some',
          Option.some.injEq] at hk
        subst hk
        rw [hreac, List.mem_append, List.mem_singleton] at ht
        rcases ht with ht | rfl
        · exact h k cr hrget t ht
        · exact ⟨hplt, hne⟩
      · by_cases hkp : k = p
        · subst hkp
          simp only [hkr, if_false, if_true, hpget, Option.map_some', Option.some.injEq] at hk
          subst hk
          rw [hprod] at ht
          exact h k cp hpget t ht
        · simp only [hkr, hkp, if_false] at hk
          exact h k b hk t ht
    · have hmid : (modifyAt updateProd blocks p)[r]? = some cr := by
        rw [getElem?_modifyAt]
        simp [Ne.symm hne, hrget]
      have h1 := sum_map_modifyAt (updateReac p) (fun b => b.arrows_to.length)
        (modifyAt updateProd blocks p) r cr hmid
      have h2 := sum_map_modifyAt updateProd (fun b => b.arrows_to.length) blocks p cp hpget
      simp only [hreac, hprod, List.length_append, List.length_singleton] at h1 h2
      omega
  · have hstep : arrowStep blocks arrow = blocks := by
      simp [arrowStep, applyArrow, heff]
    rw [hstep]
    exact ⟨rfl, h, by omega⟩

theorem handleArrows_edges_aux (arrows : List KETReactionArrow) (blocks : List MolSumm)
    (h : ∀ k b, blocks[k]? = some b → ∀ t ∈ b.arrows_to, t < blocks.length ∧ t ≠ k) :
    (handleArrows blocks arrows).length = blocks.length
    ∧ (∀ k b, (handleArrows blocks arrows)[k]? = some b →
        ∀ t ∈ b.arrows_to, t < blocks.length ∧ t ≠ k)
    ∧ ((handleArrows blocks arrows).map (fun b => b.arrows_to.length)).sum
        ≤ (blocks.map (fun b => b.arrows_to.length)).sum + arrows.length := by
  induction arrows generalizing blocks with
  | nil => exact ⟨rfl, h, by simp [handleArrows]⟩
  | cons arrow rest ih =>
    obtain ⟨h1, h2, h3⟩ := arrowStep_edges blocks arrow h
    obtain ⟨h4, h5, h6⟩ := ih (arrowStep blocks arrow) (by rw [h1]; exact h2)
    rw [h1] at h4 h5
    have hfold : handleArrows blocks (arrow :: rest) = handleArrows (arrowStep blocks arrow) rest :=
      rfl
    rw [hfold]
    refine ⟨h4, h5, ?_⟩
    rw [List.length_cons]
    omega

/-- C27: starting from blocks without edges, as finalization leaves them, after any sequence
of arrows the block vector has its length unchanged, every entry of every `arrows_to` is an
index into the vector and differs from the index of the block that holds it, and the total
number of edges is at most the number of arrows. -/
theorem handleArrows_edges (blocks : List MolSumm) (arrows : List KETReactionArrow)
    (h0 : ∀ b ∈ blocks, b.arrows_to = []) :
    (handleArrows blocks arrows).length = blocks.length
    ∧ (∀ k b, (handleArrows blocks arrows)[k]? = some b →
        ∀ t ∈ b.arrows_to, t < (handleArrows blocks arrows).length ∧ t ≠ k)
    ∧ ((handleArrows blocks arrows).map (fun b => b.arrows_to.length)).sum ≤ arrows.length := by
  have hinit : ∀ k b, blocks[k]? = some b → ∀ t ∈ b.arrows_to, t < blocks.length ∧ t ≠ k := by
    intro k b hk t ht
    rw [h0 b (List.getElem?_mem hk)] at ht
    cases ht
  have hsum : (blocks.map (fun b => b.arrows_to.length)).sum = 0 := by
    rw [List.sum_eq_zero]
    intro x hx
    obtain ⟨b, hb, rfl⟩ := List.mem_map.mp hx
    rw [h0 b hb]
    rfl
  obtain ⟨h1, h2, h3⟩ := handleArrows_edges_aux arrows blocks hinit
  refine ⟨h1, ?_, by omega⟩
  rw [h1]
  exact h2

/-- Witness of C27: the two arrows of the scenario on three fresh blocks. -/
theorem handleArrows_edges_witness :
    (handleArrows (scenarioDocument.fragments.map MolSumm.new) scenarioArrows).length = 3
    ∧ ((handleArrows (scenarioDocument.fragments.map MolSumm.new) scenarioArrows).map
        (fun b => b.arrows_to.length)).sum ≤ 2 :=
  have h := handleArrows_edges (scenarioDocument.fragments.map MolSumm.new) scenarioArrows
    (by decide)
  ⟨h.1, h.2.2⟩
/-! ## C28 -/

theorem arrowStep_role_flags (blocks : List MolSumm) (arrow : KETReactionArrow) (k : Nat)
    (b : MolSumm) (r0 p0 : Bool) (hk : blocks[k]? = some b) (hrole : b.role = roleOfMatches r0 p0) :
    ∃ b2, (arrowStep blocks arrow)[k]? = some b2
      ∧ b2.role = roleOfMatches
          (r0 || (matchTrace blocks [arrow]).any (fun m => decide (m.2 = (k : Int))))
          (p0 || (matchTrace blocks [arrow]).any (fun m => decide (m.1 = (k : Int)))) := by
  by_cases heff : (scanArrow blocks arrow).min_dist_prod > 0
      ∧ (scanArrow blocks arrow).min_dist_reac > 0
  · obtain ⟨p, r, cp, cr, hp, hr, hpget, hrget, hne, -, -, -, -, -, hstep⟩ :=
      arrowStep_of_effect blocks arrow heff
    have htrace : matchTrace blocks [arrow] = [((p : Int), (r : Int))] := by
      simp [matchTrace, heff, hp, hr]
    rw [htrace, hstep, getElem?_modifyAt, getElem?_modifyAt]
    by_cases hkr : k = r
    · subst hkr
      have hkp : ¬ p = k := hne
      refine ⟨updateReac p b, by simp [Ne.symm hne, hk], ?_⟩
      cases r0 <;> cases p0 <;> simp [updateReac, hrole, roleOfMatches, hkp]
    · by_cases hkp : k = p
      · subst hkp
        have hrk : ¬ r = k := Ne.symm hne
        refine ⟨updateProd b, by simp [hkr, hk], ?_⟩
        cases r0 <;> cases p0 <;> simp [updateProd, hrole, roleOfMatches, hrk]
      · have h1 : ¬ r = k := fun h => hkr h.symm
        have h2 : ¬ p = k := fun h => hkp h.symm
        refine ⟨b, by simp [hkr, hkp, hk], ?_⟩
        simp [hrole, h1, h2]
  · have hstep : arrowStep blocks arrow = blocks := by
      simp [arrowStep, applyArrow, heff]
    have htrace : matchTrace blocks [arrow] = [] := by
      simp [matchTrace, heff]
    rw [hstep, htrace]
    exact ⟨b, hk, by simp [hrole]⟩

theorem matchTrace_cons (blocks : List MolSumm) (arrow : KETReactionArrow)
    (rest : List KETReactionArrow) :
    matchTrace blocks (arrow :: rest)
      = matchTrace blocks [arrow] ++ matchTrace (arrowStep blocks arrow) rest := by
  simp [matchTrace]

theorem handleArrows_role_flags (arrows : List KETReactionArrow) (blocks : List MolSumm)
    (k : Nat) (b : MolSumm) (r0 p0 : Bool) (hk : blocks[k]? = some b)
    (hrole : b.role = roleOfMatches r0 p0) :
    ∃ b2, (handleArrows blocks arrows)[k]? = some b2
      ∧ b2.role = roleOfMatches
          (r0 || (matchTrace blocks arrows).any (fun m => decide (m.2 = (k : Int))))
          (p0 || (matchTrace blocks arrows).any (fun m => decide (m.1 = (k : Int)))) := by
  induction arrows generalizing blocks b r0 p0 with
  | nil => exact ⟨b, hk, by simp [matchTrace, hrole]⟩
  | cons arrow rest ih =>
    obtain ⟨b1, hb1, hr1⟩ := arrowStep_role_flags blocks arrow k b r0 p0 hk hrole
    obtain ⟨b2, hb2, hr2⟩ := ih (arrowStep blocks arrow) b1 _ _ hb1 hr1
    refine ⟨b2, hb2, ?_⟩
    have ht := matchTrace_cons blocks arrow rest
    rw [hr2, ht, List.any_append, List.any_append, Bool.or_assoc, Bool.or_assoc]

/-- C28: starting from blocks that are all `UNDEFINED`, after any sequence of arrows the block
with index k is `UNDEFINED` exactly when no effective arrow matched it, `REACTANT` exactly
when some effective arrow matched it on the reactant side and none on the product side,
`PRODUCT` exactly when some matched it on the product side and none on the reactant side,
`INTERMEDIATE` exactly when it was matched on each side; it is never `CATALYST`. -/
theorem handleArrows_role_by_matches (blocks : List MolSumm) (arrows : List KETReactionArrow)
    (h0 : ∀ b ∈ blocks, b.role = Role.UNDEFINED) (k : Nat) (b : MolSumm)
    (hk : blocks[k]? = some b) :
    ∃ b2, (handleArrows blocks arrows)[k]? = some b2
      ∧ (b2.role = Role.UNDEFINED
          ↔ ∀ m ∈ matchTrace blocks arrows, m.1 ≠ (k : Int) ∧ m.2 ≠ (k : Int))
      ∧ (b2.role = Role.REACTANT
          ↔ (∃ m ∈ matchTrace blocks arrows, m.2 = (k : Int))
            ∧ ∀ m ∈ matchTrace blocks arrows, m.1 ≠ (k : Int))
      ∧ (b2.role = Role.PRODUCT
          ↔ (∃ m ∈ matchTrace blocks arrows, m.1 = (k : Int))
            ∧ ∀ m ∈ matchTrace blocks arrows, m.2 ≠ (k : Int))
      ∧ (b2.role = Role.INTERMEDIATE
          ↔ (∃ m ∈ matchTrace blocks arrows, m.1 = (k : Int))
            ∧ ∃ m ∈ matchTrace blocks arrows, m.2 = (k : Int))
      ∧ b2.role ≠ Role.CATALYST := by
  obtain ⟨b2, hb2, hrole⟩ := handleArrows_role_flags arrows blocks k b false false hk
    (by rw [h0 b (List.getElem?_mem hk)]; rfl)
  refine ⟨b2, hb2, ?_⟩
  rw [hrole]
  simp only [Bool.false_or]
  cases hr : (matchTrace blocks arrows).any (fun m => decide (m.2 = (k : Int))) <;>
    cases hp : (matchTrace blocks arrows).any (fun m => decide (m.1 = (k : Int))) <;>
    simp only [List.any_eq_true, List.any_eq_false, decide_eq_true_eq] at hr hp
  · refine ⟨?_, ?_, ?_, ?_, by decide⟩
    · exact ⟨fun _ m hm => ⟨hp m hm, hr m hm⟩, fun _ => rfl⟩
    · exact ⟨fun h => (by cases h), fun ⟨⟨m, hm, h⟩, _⟩ => absurd h (hr m hm)⟩
    · exact ⟨fun h => (by cases h), fun ⟨⟨m, hm, h⟩, _⟩ => absurd h (hp m hm)⟩
    · exact ⟨fun h => (by cases h), fun ⟨⟨m, hm, h⟩, _⟩ => absurd h (hp m hm)⟩
  · obtain ⟨mp, hmp, hmp1⟩ := hp
    refine ⟨?_, ?_, ?_, ?_, by decide⟩
    · exact ⟨fun h => (by cases h), fun h => absurd hmp1 (h mp hmp).1⟩
    · exact ⟨fun h => (by cases h), fun ⟨_, h⟩ => absurd hmp1 (h mp hmp)⟩
    · exact ⟨fun _ => ⟨⟨mp, hmp, hmp1⟩, fun m hm => hr m hm⟩, fun _ => rfl⟩
    · exact ⟨fun h => (by cases h), fun ⟨_, ⟨m, hm, h⟩⟩ => absurd h (hr m hm)⟩
  · obtain ⟨mr, hmr, hmr1⟩ := hr
    refine ⟨?_, ?_, ?_, ?_, by decide⟩
    · exact ⟨fun h => (by cases h), fun h => absurd hmr1 (h mr hmr).2⟩
    · exact ⟨fun _ => ⟨⟨mr, hmr, hmr1⟩, fun m hm => hp m hm⟩, fun _ => rfl⟩
    · exact ⟨fun h => (by cases h), fun ⟨_, h⟩ => absurd hmr1 (h mr hmr)⟩
    · exact ⟨fun h => (by cases h), fun ⟨⟨m, hm, h⟩, _⟩ => absurd h (hp m hm)⟩
  · obtain ⟨mr, hmr, hmr1⟩ := hr
    obtain ⟨mp, hmp, hmp1⟩ := hp
    refine ⟨?_, ?_, ?_, ?_, by decide⟩
    · exact ⟨fun h => (by cases h), fun h => absurd hmr1 (h mr hmr).2⟩
    · exact ⟨fun h => (by cases h), fun ⟨_, h⟩ => absurd hmp1 (h mp hmp)⟩
    · exact ⟨fun h => (by cases h), fun ⟨_, h⟩ => absurd hmr1 (h mr hmr)⟩
    · exact ⟨fun _ => ⟨⟨mp, hmp, hmp1⟩, ⟨mr, hmr, hmr1⟩⟩, fun _ => rfl⟩

/-- Witness of C28: the middle block of the scenario, matched on each side once. -/
theorem handleArrows_role_by_matches_witness :
    ∃ b2, (handleArrows (scenarioDocument.fragments.map MolSumm.new) scenarioArrows)[1]? = some b2
      ∧ (b2.role = Role.INTERMEDIATE
          ↔ (∃ m ∈ matchTrace (scenarioDocument.fragments.map MolSumm.new) scenarioArrows,
                m.1 = ((1 : Nat) : Int))
            ∧ ∃ m ∈ matchTrace (scenarioDocument.fragments.map MolSumm.new) scenarioArrows,
                m.2 = ((1 : Nat) : Int)) := by
  obtain ⟨b2, h1, -, -, -, h5, -⟩ :=
    handleArrows_role_by_matches (scenarioDocument.fragments.map MolSumm.new) scenarioArrows
      (by decide) 1 (MolSumm.new (box 12 (-1) 18 1)) (by decide)
  exact ⟨b2, h1, h5⟩
/-! ## The merge cases of the plus loop -/

theorem CompStep.step_refl (comps : List ReactionComponent) : CompStep comps comps :=
  ⟨rfl, fun _ rc h => ⟨rc, h, rfl, rfl, Or.inl rfl⟩⟩

theorem CompStep.step_trans {c1 c2 c3 : List ReactionComponent} (h12 : CompStep c1 c2)
    (h23 : CompStep c2 c3) : CompStep c1 c3 := by
  refine ⟨h23.1.trans h12.1, ?_⟩
  intro v rc hv
  obtain ⟨rc2, hv2, ht2, hb2, hi2⟩ := h12.2 v rc hv
  obtain ⟨rc3, hv3, ht3, hb3, hi3⟩ := h23.2 v rc2 hv2
  refine ⟨rc3, hv3, ht3.trans ht2, hb3.trans hb2, ?_⟩
  rcases hi3 with hi3 | hi3
  · rcases hi2 with hi2 | hi2
    · exact Or.inl (hi3.trans hi2)
    · exact Or.inr (hi3.trans hi2)
  · exact Or.inr hi3

theorem CompStep.step_modifyAt (comps : List ReactionComponent) (f : ReactionComponent → ReactionComponent)
    (i : Nat)
    (hf : ∀ rc, (f rc).component_type = rc.component_type ∧ (f rc).bbox = rc.bbox
      ∧ ((f rc).summ_block_idx = rc.summ_block_idx
          ∨ (f rc).summ_block_idx = SummBlockIdx.CONNECTED)) :
    CompStep comps (modifyAt f comps i) := by
  refine ⟨length_modifyAt f comps i, ?_⟩
  intro v rc hv
  rw [getElem?_modifyAt, hv]
  by_cases hvi : v = i
  · exact ⟨f rc, by simp [hvi], (hf rc).1, (hf rc).2.1, (hf rc).2.2⟩
  · exact ⟨rc, by simp [hvi], rfl, rfl, Or.inl rfl⟩

theorem markConnected_ok (rc : ReactionComponent) :
    (markConnected rc).component_type = rc.component_type ∧ (markConnected rc).bbox = rc.bbox
      ∧ ((markConnected rc).summ_block_idx = rc.summ_block_idx
          ∨ (markConnected rc).summ_block_idx = SummBlockIdx.CONNECTED) :=
  ⟨rfl, rfl, Or.inr rfl⟩

theorem bindTo_ok (it : Nat) (rc : ReactionComponent) :
    (bindTo it rc).component_type = rc.component_type ∧ (bindTo it rc).bbox = rc.bbox
      ∧ ((bindTo it rc).summ_block_idx = rc.summ_block_idx
          ∨ (bindTo it rc).summ_block_idx = SummBlockIdx.CONNECTED) :=
  ⟨rfl, rfl, Or.inl rfl⟩

theorem CompStep.foldl_bindTo (it : Nat) (indexes : List Nat) (comps : List ReactionComponent) :
    CompStep comps (indexes.foldl (fun cs v => Indigo.modifyAt (bindTo it) cs v) comps) := by
  induction indexes generalizing comps with
  | nil => exact CompStep.step_refl comps
  | cons v rest ih =>
    rw [List.foldl_cons]
    exact (CompStep.step_modifyAt comps (bindTo it) v (bindTo_ok it)).step_trans (ih _)

theorem modifyNode_modifyNode (f g : MolSumm → MolSumm) (nodes : List (Nat × MolSumm))
    (it : Nat) :
    modifyNode g (modifyNode f nodes it) it = modifyNode (fun b => g (f b)) nodes it := by
  induction nodes with
  | nil => rfl
  | cons nd rest ih =>
    simp only [modifyNode, List.map_cons, List.map_map] at ih ⊢
    rw [ih]
    by_cases h : nd.1 = it
    · simp [h]
    · simp [h]

theorem mem_modifyNode (f : MolSumm → MolSumm) (nodes : List (Nat × MolSumm)) (it : Nat)
    (nd2 : Nat × MolSumm) :
    nd2 ∈ modifyNode f nodes it
      ↔ ∃ nd ∈ nodes, nd2.1 = nd.1 ∧ nd2.2 = if nd.1 = it then f nd.2 else nd.2 := by
  unfold modifyNode
  rw [List.mem_map]
  constructor
  · rintro ⟨nd, hnd, rfl⟩
    refine ⟨nd, hnd, ?_⟩
    by_cases h : nd.1 = it <;> simp [h]
  · rintro ⟨nd, hnd, h1, h2⟩
    refine ⟨nd, hnd, ?_⟩
    by_cases h : nd.1 = it
    · simp only [h, beq_self_eq_true, if_true] at h2 ⊢
      rw [Prod.ext_iff]
      exact ⟨by simp [h1, h], h2.symm⟩
    · simp only [h, if_false] at h2
      simp only [beq_iff_eq, h, if_false]
      rw [Prod.ext_iff]
      exact ⟨h1.symm, h2.symm⟩

theorem mem_eraseNode (nodes : List (Nat × MolSumm)) (it : Nat) (nd : Nat × MolSumm) :
    nd ∈ eraseNode nodes it ↔ nd ∈ nodes ∧ nd.1 ≠ it := by
  unfold eraseNode
  rw [List.mem_filter]
  simp

theorem derefNode_mem (nodes : List (Nat × MolSumm)) (it : Nat) (b : MolSumm)
    (h : derefNode nodes it = some b) : (it, b) ∈ nodes := by
  unfold derefNode at h
  cases hf : nodes.find? (fun nd => nd.1 == it) with
  | none => rw [hf] at h; cases h
  | some nd =>
    rw [hf] at h
    simp only [Option.map_some', Option.some.injEq] at h
    have h1 : nd.1 = it := by simpa using List.find?_some hf
    have h2 := List.mem_of_find?_eq_some hf
    rw [← h1, ← h]
    exact h2
theorem connectPlus_spec (st st2 : LoaderState) (pair : Nat × Nat)
    (h : connectPlus st pair = some st2) :
    CompStep st._reaction_components st2._reaction_components
    ∧ st2._component_summ_blocks = st._component_summ_blocks
    ∧ ((∃ rcF rcS, st._reaction_components[pair.1]? = some rcF
          ∧ st._reaction_components[pair.2]? = some rcS
          ∧ rcF.summ_block_idx = SummBlockIdx.NOT_CONNECTED
          ∧ rcS.summ_block_idx = SummBlockIdx.NOT_CONNECTED
          ∧ st2._component_summ_blocks_list = st._component_summ_blocks_list
              ++ [(st.next_node,
                  ⟨merge_bbox rcF.bbox rcS.bbox, [pair.1, pair.2], Role.UNDEFINED, []⟩)]
          ∧ st2.next_node = st.next_node + 1
          ∧ ∀ v ∈ [pair.1, pair.2], ∃ rc2, st2._reaction_components[v]? = some rc2
              ∧ rc2.summ_block_idx = SummBlockIdx.CONNECTED)
      ∨ (∃ a x rcA bx, st._reaction_components[a]? = some rcA
          ∧ rcA.summ_block_idx = SummBlockIdx.NOT_CONNECTED
          ∧ derefNode st._component_summ_blocks_list x = some bx
          ∧ st2._component_summ_blocks_list
              = modifyNode (fun b => { b with indexes := b.indexes ++ [a]
                                              bbox := merge_bbox b.bbox rcA.bbox })
                  st._component_summ_blocks_list x
          ∧ st2.next_node = st.next_node
          ∧ ∃ rc2, st2._reaction_components[a]? = some rc2
              ∧ rc2.summ_block_idx = SummBlockIdx.CONNECTED)
      ∨ (∃ x y bx bY, derefNode st._component_summ_blocks_list x = some bx
          ∧ derefNode st._component_summ_blocks_list y = some bY
          ∧ st2._component_summ_blocks_list
              = eraseNode
                  (modifyNode (fun b => { b with bbox := merge_bbox b.bbox bY.bbox
                                                 indexes := b.indexes ++ bY.indexes })
                    st._component_summ_blocks_list x) y
          ∧ st2.next_node = st.next_node)) := by
  cases hF : st._reaction_components[pair.1]? with
  | none => simp [connectPlus, hF] at h
  | some rcF =>
    cases hS : st._reaction_components[pair.2]? with
    | none => simp [connectPlus, hF, hS] at h
    | some rcS =>
      by_cases hFc : rcF.summ_block_idx = SummBlockIdx.NOT_CONNECTED
      · by_cases hSc : rcS.summ_block_idx = SummBlockIdx.NOT_CONNECTED
        · -- LI_NEW_CONNECTION
          simp only [connectPlus, hF, hS, hFc, hSc, Option.bind_eq_bind, Option.some_bind,
            decide_True, Option.pure_def, Option.some.injEq] at h
          subst h
          refine ⟨?_, rfl, Or.inl ⟨rcF, rcS, rfl, rfl, hFc, hSc, rfl, rfl, ?_⟩⟩
          · exact (((CompStep.step_modifyAt _ _ _ markConnected_ok).step_trans
              (CompStep.step_modifyAt _ _ _ markConnected_ok)).step_trans
              (CompStep.step_modifyAt _ _ _ (bindTo_ok _))).step_trans
              (CompStep.step_modifyAt _ _ _ (bindTo_ok _))
          · intro v hv
            simp only [List.mem_cons, List.mem_singleton, List.not_mem_nil, or_false] at hv
            simp only [getElem?_modifyAt]
            rcases hv with rfl | rfl
            · by_cases hfs : pair.1 = pair.2
              · simp [hfs, hS, bindTo, markConnected]
              · simp [hfs, hF, bindTo, markConnected]
            · by_cases hfs : pair.2 = pair.1
              · simp [hfs, hF, bindTo, markConnected]
              · simp [hfs, hS, bindTo, markConnected]
        · -- LI_SECOND_ONLY
          cases hit : rcS.summ_block_it with
          | none => simp [connectPlus, hF, hS, hFc, hSc, hit] at h
          | some y =>
            cases hd : derefNode st._component_summ_blocks_list y with
            | none => simp [connectPlus, hF, hS, hFc, hSc, hit, hd] at h
            | some bY =>
              simp only [connectPlus, hF, hS, hFc, hSc, hit, hd, Option.bind_eq_bind,
                Option.some_bind, decide_True, decide_False, Option.pure_def,
                Option.some.injEq] at h
              subst h
              refine ⟨CompStep.step_modifyAt _ _ _ markConnected_ok, rfl,
                Or.inr (Or.inl ⟨pair.1, y, rcF, bY, hF, hFc, hd, rfl, rfl, ?_⟩)⟩
              simp [getElem?_modifyAt, hF, markConnected]
      · by_cases hSc : rcS.summ_block_idx = SummBlockIdx.NOT_CONNECTED
        · -- LI_FIRST_ONLY
          cases hit : rcF.summ_block_it with
          | none => simp [connectPlus, hF, hS, hFc, hSc, hit] at h
          | some x =>
            cases hd : derefNode st._component_summ_blocks_list x with
            | none => simp [connectPlus, hF, hS, hFc, hSc, hit, hd] at h
            | some bx =>
              simp only [connectPlus, hF, hS, hFc, hSc, hit, hd, Option.bind_eq_bind,
                Option.some_bind, decide_True, decide_False, Option.pure_def,
                Option.some.injEq] at h
              subst h
              refine ⟨(CompStep.step_modifyAt _ _ _ (bindTo_ok _)).step_trans
                  (CompStep.step_modifyAt _ _ _ markConnected_ok), rfl,
                Or.inr (Or.inl ⟨pair.2, x, rcS, bx, hS, hSc, hd, rfl, rfl, ?_⟩)⟩
              simp [getElem?_modifyAt, hS, markConnected, bindTo]
        · -- LI_BOTH
          cases hitF : rcF.summ_block_it with
          | none => simp [connectPlus, hF, hS, hFc, hSc, hitF] at h
          | some x =>
            cases hitS : rcS.summ_block_it with
            | none => simp [connectPlus, hF, hS, hFc, hSc, hitF, hitS] at h
            | some y =>
              cases hdx : derefNode st._component_summ_blocks_list x with
              | none => simp [connectPlus, hF, hS, hFc, hSc, hitF, hitS, hdx] at h
              | some bx =>
                cases hdy : derefNode st._component_summ_blocks_list y with
                | none => simp [connectPlus, hF, hS, hFc, hSc, hitF, hitS, hdx, hdy] at h
                | some bY =>
                  simp only [connectPlus, hF, hS, hFc, hSc, hitF, hitS, hdx, hdy,
                    Option.bind_eq_bind, Option.some_bind, decide_False, Option.pure_def] at h
                  split at h
                  · cases h
                  simp only [Option.some.injEq] at h
                  subst h
                  refine ⟨CompStep.foldl_bindTo _ _ _, rfl,
                    Or.inr (Or.inr ⟨x, y, bx, bY, hdx, hdy, ?_, rfl⟩)⟩
                  simp only []
                  rw [modifyNode_modifyNode]
/-! ## Boxes of the blocks -/

theorem isUnionOf_single (a : Rect2f) : IsUnionOf a [a] := by
  refine ⟨by simp, ?_, ⟨a, by simp, rfl⟩, ⟨a, by simp, rfl⟩, ⟨a, by simp, rfl⟩, ⟨a, by simp, rfl⟩⟩
  intro bb hbb
  rw [List.mem_singleton] at hbb
  subst hbb
  exact ⟨le_refl _, le_refl _, le_refl _, le_refl _⟩

theorem isUnionOf_merge (u1 u2 : Rect2f) (l1 l2 : List Rect2f) (h1 : IsUnionOf u1 l1)
    (h2 : IsUnionOf u2 l2) : IsUnionOf (merge_bbox u1 u2) (l1 ++ l2) := by
  obtain ⟨n1, e1, ⟨a1, ha1, ra1⟩, ⟨b1, hb1, rb1⟩, ⟨c1, hc1, rc1⟩, ⟨d1, hd1, rd1⟩⟩ := h1
  obtain ⟨n2, e2, ⟨a2, ha2, ra2⟩, ⟨b2, hb2, rb2⟩, ⟨c2, hc2, rc2⟩, ⟨d2, hd2, rd2⟩⟩ := h2
  have hl : (merge_bbox u1 u2).left = min u1.left u2.left := rfl
  have hb : (merge_bbox u1 u2).bottom = min u1.bottom u2.bottom := rfl
  have hr : (merge_bbox u1 u2).right = max u1.right u2.right := rfl
  have ht : (merge_bbox u1 u2).top = max u1.top u2.top := rfl
  refine ⟨by simp [n1], ?_, ?_, ?_, ?_, ?_⟩
  · intro bb hbb
    rw [hl, hb, hr, ht]
    rcases List.mem_append.mp hbb with h | h
    · obtain ⟨p1, p2, p3, p4⟩ := e1 bb h
      exact ⟨le_trans (min_le_left _ _) p1, le_trans (min_le_left _ _) p2,
        le_trans p3 (le_max_left _ _), le_trans p4 (le_max_left _ _)⟩
    · obtain ⟨p1, p2, p3, p4⟩ := e2 bb h
      exact ⟨le_trans (min_le_right _ _) p1, le_trans (min_le_right _ _) p2,
        le_trans p3 (le_max_right _ _), le_trans p4 (le_max_right _ _)⟩
  · rw [hl]
    rcases min_choice u1.left u2.left with h | h
    · exact ⟨a1, List.mem_append_left _ ha1, by rw [h, ra1]⟩
    · exact ⟨a2, List.mem_append_right _ ha2, by rw [h, ra2]⟩
  · rw [hb]
    rcases min_choice u1.bottom u2.bottom with h | h
    · exact ⟨b1, List.mem_append_left _ hb1, by rw [h, rb1]⟩
    · exact ⟨b2, List.mem_append_right _ hb2, by rw [h, rb2]⟩
  · rw [hr]
    rcases max_choice u1.right u2.right with h | h
    · exact ⟨c1, List.mem_append_left _ hc1, by rw [h, rc1]⟩
    · exact ⟨c2, List.mem_append_right _ hc2, by rw [h, rc2]⟩
  · rw [ht]
    rcases max_choice u1.top u2.top with h | h
    · exact ⟨d1, List.mem_append_left _ hd1, by rw [h, rd1]⟩
    · exact ⟨d2, List.mem_append_right _ hd2, by rw [h, rd2]⟩

theorem SameShape.shape_refl (comps : List ReactionComponent) : SameShape comps comps := rfl

theorem SameShape.shape_trans {c1 c2 c3 : List ReactionComponent} (h12 : SameShape c1 c2)
    (h23 : SameShape c2 c3) : SameShape c1 c3 := by
  unfold SameShape at *
  rw [h23, h12]

theorem SameShape.length {c1 c2 : List ReactionComponent} (h : SameShape c1 c2) :
    c2.length = c1.length := by
  have := congrArg List.length h
  simpa using this

theorem SameShape.getElem? {c1 c2 : List ReactionComponent} (h : SameShape c1 c2) (v : Nat)
    (rc : ReactionComponent) (hv : c1[v]? = some rc) :
    ∃ rc2, c2[v]? = some rc2 ∧ rc2.component_type = rc.component_type ∧ rc2.bbox = rc.bbox := by
  unfold SameShape at h
  have h1 : (c2.map (fun rc => (rc.component_type, rc.bbox)))[v]?
      = (c1.map (fun rc => (rc.component_type, rc.bbox)))[v]? := by rw [h]
  rw [List.getElem?_map, List.getElem?_map, hv] at h1
  cases h2 : c2[v]? with
  | none => rw [h2] at h1; cases h1
  | some rc2 =>
    rw [h2] at h1
    simp only [Option.map_some', Option.some.injEq, Prod.mk.injEq] at h1
    exact ⟨rc2, rfl, h1.1, h1.2⟩

theorem SameShape.getD_bbox {c1 c2 : List ReactionComponent} (h : SameShape c1 c2) (v : Nat) :
    (c2.getD v default).bbox = (c1.getD v default).bbox := by
  rw [List.getD_eq_getElem?_getD, List.getD_eq_getElem?_getD]
  cases hv : c1[v]? with
  | none =>
    have h2 : c2[v]? = none := by
      rw [List.getElem?_eq_none_iff] at hv ⊢
      rw [h.length]
      exact hv
    rw [h2]
  | some rc =>
    obtain ⟨rc2, h2, -, hb⟩ := h.getElem? v rc hv
    rw [h2]
    exact hb

theorem SameShape.memberBoxes {c1 c2 : List ReactionComponent} (h : SameShape c1 c2)
    (csb : MolSumm) : memberBoxes c2 csb = memberBoxes c1 csb := by
  unfold Indigo.memberBoxes
  apply List.map_congr_left
  intro v _
  exact h.getD_bbox v

theorem CompStep.sameShape {c1 c2 : List ReactionComponent} (h : CompStep c1 c2) :
    SameShape c1 c2 := by
  unfold SameShape
  apply List.ext_getElem?
  intro v
  rw [List.getElem?_map, List.getElem?_map]
  cases hv : c1[v]? with
  | none =>
    have h2 : c2[v]? = none := by
      rw [List.getElem?_eq_none_iff] at hv ⊢
      rw [h.1]
      exact hv
    rw [h2]
  | some rc =>
    obtain ⟨rc2, h2, ht, hb, -⟩ := h.2 v rc hv
    rw [h2]
    simp [ht, hb]

theorem getD_bbox_of_getElem? (comps : List ReactionComponent) (v : Nat) (rc : ReactionComponent)
    (h : comps[v]? = some rc) : (comps.getD v default).bbox = rc.bbox := by
  rw [getD_of_getElem? comps v rc h]

theorem connectPlus_boxes (st st2 : LoaderState) (pair : Nat × Nat)
    (h : connectPlus st pair = some st2)
    (hinv : ∀ nd ∈ st._component_summ_blocks_list,
      IsUnionOf nd.2.bbox (memberBoxes st._reaction_components nd.2)) :
    ∀ nd ∈ st2._component_summ_blocks_list,
      IsUnionOf nd.2.bbox (memberBoxes st2._reaction_components nd.2) := by
  obtain ⟨hstep, -, hcase⟩ := connectPlus_spec st st2 pair h
  have hshape := hstep.sameShape
  intro nd hnd
  rw [hshape.memberBoxes]
  rcases hcase with ⟨rcF, rcS, hF, hS, -, -, hlist, -, -⟩ | ⟨a, x, rcA, bx, hA, -, -, hlist, -, -⟩
    | ⟨x, y, bx, bY, -, hdy, hlist, -⟩
  · rw [hlist, List.mem_append, List.mem_singleton] at hnd
    rcases hnd with hnd | rfl
    · exact hinv nd hnd
    · have hb : memberBoxes st._reaction_components
          ⟨merge_bbox rcF.bbox rcS.bbox, [pair.1, pair.2], Role.UNDEFINED, []⟩
          = [rcF.bbox] ++ [rcS.bbox] := by
        simp [memberBoxes, hF, hS]
      rw [hb]
      exact isUnionOf_merge _ _ _ _ (isUnionOf_single _) (isUnionOf_single _)
  · rw [hlist, mem_modifyNode] at hnd
    obtain ⟨nd0, hnd0, -, h2⟩ := hnd
    by_cases hx : nd0.1 = x
    · rw [if_pos hx] at h2
      rw [h2]
      have hb : memberBoxes st._reaction_components
          { nd0.2 with indexes := nd0.2.indexes ++ [a], bbox := merge_bbox nd0.2.bbox rcA.bbox }
          = memberBoxes st._reaction_components nd0.2 ++ [rcA.bbox] := by
        simp [memberBoxes, hA]
      rw [hb]
      exact isUnionOf_merge _ _ _ _ (hinv nd0 hnd0) (isUnionOf_single _)
    · rw [if_neg hx] at h2
      rw [h2]
      exact hinv nd0 hnd0
  · rw [hlist, mem_eraseNode, mem_modifyNode] at hnd
    obtain ⟨⟨nd0, hnd0, -, h2⟩, -⟩ := hnd
    by_cases hx : nd0.1 = x
    · rw [if_pos hx] at h2
      rw [h2]
      have hb : memberBoxes st._reaction_components
          { nd0.2 with bbox := merge_bbox nd0.2.bbox bY.bbox,
                       indexes := nd0.2.indexes ++ bY.indexes }
          = memberBoxes st._reaction_components nd0.2 ++ memberBoxes st._reaction_components bY := by
        simp [memberBoxes]
      rw [hb]
      exact isUnionOf_merge _ _ _ _ (hinv nd0 hnd0) (hinv (y, bY) (derefNode_mem _ _ _ hdy))
    · rw [if_neg hx] at h2
      rw [h2]
      exact hinv nd0 hnd0

/-! ## The plus loop -/

theorem plusStep_cases (count : Nat)
    (edges : FLOAT_INT_PAIRS × FLOAT_INT_PAIRS × FLOAT_INT_PAIRS × FLOAT_INT_PAIRS)
    (st st2 : LoaderState) (i : Nat) (plus : KETReactionPlus)
    (h : plusStep count edges st i plus = some st2) :
    st2 = st ∨ ∃ pair,
      findPlusNeighbours st._reaction_components plus._pos edges.1 edges.2.1 edges.2.2.1
        edges.2.2.2 (0, 0) = (true, pair)
      ∧ connectPlus
          { st with _reaction_components := modifyAt markConnected st._reaction_components (count + i) }
          pair = some st2 := by
  unfold plusStep at h
  split at h
  · next pair heq => exact Or.inr ⟨pair, heq, h⟩
  · simp only [Option.some.injEq] at h
    exact Or.inl h.symm

theorem plusLoop_invariant (P : LoaderState → Prop) (count : Nat)
    (edges : FLOAT_INT_PAIRS × FLOAT_INT_PAIRS × FLOAT_INT_PAIRS × FLOAT_INT_PAIRS)
    (hstep : ∀ st i plus st2, P st → plusStep count edges st i plus = some st2 → P st2) :
    ∀ (pluses : List KETReactionPlus) (i : Nat) (st st2 : LoaderState), P st →
      plusLoop count edges pluses i st = some st2 → P st2 := by
  intro pluses
  induction pluses with
  | nil =>
    intro i st st2 hP h
    simp only [plusLoop, Option.some.injEq] at h
    rw [← h]
    exact hP
  | cons plus rest ih =>
    intro i st st2 hP h
    simp only [plusLoop] at h
    cases h1 : plusStep count edges st i plus with
    | none => rw [h1] at h; cases h
    | some st1 =>
      rw [h1] at h
      exact ih (i + 1) st1 st2 (hstep st i plus st1 hP h1) h

theorem plusStep_boxes (count : Nat)
    (edges : FLOAT_INT_PAIRS × FLOAT_INT_PAIRS × FLOAT_INT_PAIRS × FLOAT_INT_PAIRS)
    (st st2 : LoaderState) (i : Nat) (plus : KETReactionPlus)
    (hinv : ∀ nd ∈ st._component_summ_blocks_list,
      IsUnionOf nd.2.bbox (memberBoxes st._reaction_components nd.2))
    (h : plusStep count edges st i plus = some st2) :
    ∀ nd ∈ st2._component_summ_blocks_list,
      IsUnionOf nd.2.bbox (memberBoxes st2._reaction_components nd.2) := by
  rcases plusStep_cases count edges st st2 i plus h with h1 | ⟨pair, -, h1⟩
  · rw [h1]
    exact hinv
  · apply connectPlus_boxes _ st2 pair h1
    intro nd hnd
    have hs : SameShape st._reaction_components
        (modifyAt markConnected st._reaction_components (count + i)) :=
      (CompStep.step_modifyAt st._reaction_components markConnected (count + i)
        markConnected_ok).sameShape
    show IsUnionOf nd.2.bbox
      (memberBoxes (modifyAt markConnected st._reaction_components (count + i)) nd.2)
    rw [hs.memberBoxes]
    exact hinv nd hnd

theorem plusStep_compStep (count : Nat)
    (edges : FLOAT_INT_PAIRS × FLOAT_INT_PAIRS × FLOAT_INT_PAIRS × FLOAT_INT_PAIRS)
    (st st2 : LoaderState) (i : Nat) (plus : KETReactionPlus)
    (h : plusStep count edges st i plus = some st2) :
    CompStep st._reaction_components st2._reaction_components
      ∧ st2._component_summ_blocks = st._component_summ_blocks := by
  rcases plusStep_cases count edges st st2 i plus h with h1 | ⟨pair, -, h1⟩
  · rw [h1]
    exact ⟨CompStep.step_refl _, rfl⟩
  · obtain ⟨hc, hb, -⟩ := connectPlus_spec _ st2 pair h1
    exact ⟨(CompStep.step_modifyAt st._reaction_components markConnected (count + i)
      markConnected_ok).step_trans hc, hb⟩

theorem plusLoop_shape (count : Nat)
    (edges : FLOAT_INT_PAIRS × FLOAT_INT_PAIRS × FLOAT_INT_PAIRS × FLOAT_INT_PAIRS)
    (pluses : List KETReactionPlus) (i : Nat) (st0 st st2 : LoaderState)
    (h0 : SameShape st0._reaction_components st._reaction_components
      ∧ st._component_summ_blocks = st0._component_summ_blocks)
    (h : plusLoop count edges pluses i st = some st2) :
    SameShape st0._reaction_components st2._reaction_components
      ∧ st2._component_summ_blocks = st0._component_summ_blocks := by
  refine plusLoop_invariant
    (fun s => SameShape st0._reaction_components s._reaction_components
      ∧ s._component_summ_blocks = st0._component_summ_blocks) count edges ?_ pluses i st st2 h0 h
  intro s j plus s2 hs hstep
  obtain ⟨hc, hb⟩ := plusStep_compStep count edges s s2 j plus hstep
  exact ⟨hs.1.shape_trans hc.sameShape, hb.trans hs.2⟩

theorem plusLoop_boxes (count : Nat)
    (edges : FLOAT_INT_PAIRS × FLOAT_INT_PAIRS × FLOAT_INT_PAIRS × FLOAT_INT_PAIRS)
    (pluses : List KETReactionPlus) (i : Nat) (st st2 : LoaderState)
    (hinv : ∀ nd ∈ st._component_summ_blocks_list,
      IsUnionOf nd.2.bbox (memberBoxes st._reaction_components nd.2))
    (h : plusLoop count edges pluses i st = some st2) :
    ∀ nd ∈ st2._component_summ_blocks_list,
      IsUnionOf nd.2.bbox (memberBoxes st2._reaction_components nd.2) :=
  plusLoop_invariant
    (fun s => ∀ nd ∈ s._component_summ_blocks_list,
      IsUnionOf nd.2.bbox (memberBoxes s._reaction_components nd.2)) count edges
    (fun s j plus s2 hs hstep => plusStep_boxes count edges s s2 j plus hs hstep)
    pluses i st st2 hinv h

/-! ## The finalization of the blocks -/

theorem SameShape.shape_modifyAt (comps : List ReactionComponent)
    (f : ReactionComponent → ReactionComponent) (i : Nat)
    (hf : ∀ rc, (f rc).component_type = rc.component_type ∧ (f rc).bbox = rc.bbox) :
    SameShape comps (modifyAt f comps i) := by
  unfold SameShape
  apply List.ext_getElem?
  intro v
  rw [List.getElem?_map, List.getElem?_map, getElem?_modifyAt]
  by_cases hv : v = i
  · rw [if_pos hv]
    cases comps[v]? with
    | none => rfl
    | some rc => simp [(hf rc).1, (hf rc).2]
  · rw [if_neg hv]

theorem SameShape.foldl_modifyAt (f : ReactionComponent → ReactionComponent)
    (hf : ∀ rc, (f rc).component_type = rc.component_type ∧ (f rc).bbox = rc.bbox)
    (indexes : List Nat) (comps : List ReactionComponent) :
    SameShape comps (indexes.foldl (fun cs v => Indigo.modifyAt f cs v) comps) := by
  induction indexes generalizing comps with
  | nil => exact SameShape.shape_refl comps
  | cons v rest ih =>
    rw [List.foldl_cons]
    exact (SameShape.shape_modifyAt comps f v hf).shape_trans (ih _)

theorem copyBlocks_spec (nodes : List (Nat × MolSumm)) (st : LoaderState) :
    (copyBlocks nodes st)._component_summ_blocks
        = st._component_summ_blocks ++ nodes.map Prod.snd
    ∧ SameShape st._reaction_components (copyBlocks nodes st)._reaction_components
    ∧ ∀ (v : Nat) (rc : ReactionComponent), st._reaction_components[v]? = some rc →
        ∃ rc2, (copyBlocks nodes st)._reaction_components[v]? = some rc2
          ∧ ((∀ nd ∈ nodes, v ∉ nd.2.indexes) → rc2.summ_block_idx = rc.summ_block_idx)
          ∧ (∀ (j : Nat) (nd : Nat × MolSumm), nodes[j]? = some nd → v ∈ nd.2.indexes →
              (∀ (j2 : Nat) (nd2 : Nat × MolSumm), nodes[j2]? = some nd2 → j < j2 →
                v ∉ nd2.2.indexes) →
              rc2.summ_block_idx = SummBlockIdx.idx (st._component_summ_blocks.length + j)) := by
  induction nodes generalizing st with
  | nil =>
    refine ⟨by simp [copyBlocks], SameShape.shape_refl _, ?_⟩
    intro v rc hv
    refine ⟨rc, hv, fun _ => rfl, ?_⟩
    intro j nd hj
    simp at hj
  | cons nd rest ih =>
    let f : ReactionComponent → ReactionComponent :=
      fun rc => { rc with summ_block_idx := SummBlockIdx.idx st._component_summ_blocks.length }
    let st1 : LoaderState :=
      ⟨nd.2.indexes.foldl (fun cs v => modifyAt f cs v) st._reaction_components,
        st._component_summ_blocks_list, st.next_node, st._component_summ_blocks ++ [nd.2]⟩
    have hcb : copyBlocks (nd :: rest) st = copyBlocks rest st1 := rfl
    obtain ⟨ih1, ih2, ih3⟩ := ih st1
    rw [hcb]
    refine ⟨?_, ?_, ?_⟩
    · rw [ih1]
      simp [st1]
    · exact (SameShape.foldl_modifyAt f (fun _ => ⟨rfl, rfl⟩) nd.2.indexes
        st._reaction_components).shape_trans ih2
    · intro v rc hv
      have hv1 : st1._reaction_components[v]?
          = if v ∈ nd.2.indexes then some (f rc) else some rc := by
        show (nd.2.indexes.foldl (fun cs v => modifyAt f cs v) st._reaction_components)[v]? = _
        rw [getElem?_foldl_modifyAt f (fun _ => rfl), hv]
        rfl
      by_cases hmem : v ∈ nd.2.indexes
      · rw [if_pos hmem] at hv1
        obtain ⟨rc2, h2, h3, h4⟩ := ih3 v (f rc) hv1
        refine ⟨rc2, h2, ?_, ?_⟩
        · intro hno
          exact absurd hmem (hno nd (List.mem_cons_self _ _))
        · intro j ndj hj hvj hlast
          cases j with
          | zero =>
            have := h3 (by
              intro nd2 hnd2
              obtain ⟨j2, hj2⟩ := List.mem_iff_getElem?.mp hnd2
              exact hlast (j2 + 1) nd2 (by simpa using hj2) (Nat.succ_pos _))
            rw [this]
            rfl
          | succ j =>
            have := h4 j ndj (by simpa using hj) hvj (by
              intro j2 nd2 hj2 hlt
              exact hlast (j2 + 1) nd2 (by simpa using hj2) (by omega))
            rw [this]
            show SummBlockIdx.idx ((st._component_summ_blocks ++ [nd.2]).length + j) = _
            rw [List.length_append, List.length_singleton]
            congr 1
            omega
      · rw [if_neg hmem] at hv1
        obtain ⟨rc2, h2, h3, h4⟩ := ih3 v rc hv1
        refine ⟨rc2, h2, ?_, ?_⟩
        · intro hno
          exact h3 (fun nd2 hnd2 => hno nd2 (List.mem_cons_of_mem _ hnd2))
        · intro j ndj hj hvj hlast
          cases j with
          | zero =>
            simp only [List.getElem?_cons_zero, Option.some.injEq] at hj
            rw [← hj] at hvj
            exact absurd hvj hmem
          | succ j =>
            have := h4 j ndj (by simpa using hj) hvj (by
              intro j2 nd2 hj2 hlt
              exact hlast (j2 + 1) nd2 (by simpa using hj2) (by omega))
            rw [this]
            show SummBlockIdx.idx ((st._component_summ_blocks ++ [nd.2]).length + j) = _
            rw [List.length_append, List.length_singleton]
            congr 1
            omega

theorem drop_modifyAt_succ {α : Type} (f : α → α) (l : List α) (i : Nat) :
    (modifyAt f l i).drop (i + 1) = l.drop (i + 1) := by
  induction l generalizing i with
  | nil => simp [modifyAt]
  | cons a l ih =>
    cases i with
    | zero => simp [modifyAt]
    | succ i => simp only [modifyAt, List.drop_succ_cons]; exact ih i

theorem getD_modifyAt_ne (f : ReactionComponent → ReactionComponent)
    (comps : List ReactionComponent) (i v : Nat) (h : v ≠ i) :
    (modifyAt f comps i).getD v default = comps.getD v default := by
  rw [List.getD_eq_getElem?_getD, List.getD_eq_getElem?_getD, getElem?_modifyAt, if_neg h]

theorem unassignedFrom_modifyAt (f : ReactionComponent → ReactionComponent)
    (comps : List ReactionComponent) (i j n : Nat) (h : i < j) :
    unassignedFrom (modifyAt f comps i) j n = unassignedFrom comps j n := by
  unfold unassignedFrom
  apply List.filter_congr
  intro v hv
  rw [List.mem_range'_1] at hv
  rw [getD_modifyAt_ne f comps i v (by omega)]

theorem unassignedFrom_succ (comps : List ReactionComponent) (i n : Nat) :
    unassignedFrom comps i (n + 1)
      = if (comps.getD i default).summ_block_idx = SummBlockIdx.NOT_CONNECTED
        then i :: unassignedFrom comps (i + 1) n else unassignedFrom comps (i + 1) n := by
  unfold unassignedFrom
  rw [List.range'_succ, List.filter_cons]
  by_cases h : (comps.getD i default).summ_block_idx = SummBlockIdx.NOT_CONNECTED
  · simp [h]
  · simp [h]

theorem le_of_mem_unassignedFrom (comps : List ReactionComponent) (i n v : Nat)
    (h : v ∈ unassignedFrom comps i n) :
    i ≤ v ∧ v < i + n
      ∧ (comps.getD v default).summ_block_idx = SummBlockIdx.NOT_CONNECTED := by
  unfold unassignedFrom at h
  rw [List.mem_filter, List.mem_range'_1] at h
  exact ⟨h.1.1, h.1.2, by simpa using h.2⟩

theorem addSingleMolecules_spec (count : Nat) :
    ∀ (rest : List ReactionComponent) (i : Nat) (st : LoaderState),
      st._reaction_components.drop i = rest → i ≤ count →
      (∀ v, i ≤ v → v < count → ∃ rc, st._reaction_components[v]? = some rc
        ∧ rc.component_type = ComponentType.MOLECULE) →
      (∀ rc, st._reaction_components[count]? = some rc →
        rc.component_type ≠ ComponentType.MOLECULE) →
      (addSingleMolecules rest i st)._component_summ_blocks
          = st._component_summ_blocks
            ++ (unassignedFrom st._reaction_components i (count - i)).map
                (singletonBlock st._reaction_components)
      ∧ SameShape st._reaction_components (addSingleMolecules rest i st)._reaction_components
      ∧ ∀ (v : Nat) (rc : ReactionComponent), st._reaction_components[v]? = some rc →
          ∃ rc2, (addSingleMolecules rest i st)._reaction_components[v]? = some rc2
            ∧ (v ∉ unassignedFrom st._reaction_components i (count - i) → rc2 = rc)
            ∧ (∀ j, (unassignedFrom st._reaction_components i (count - i))[j]? = some v →
                rc2.summ_block_idx
                  = SummBlockIdx.idx (st._component_summ_blocks.length + j)) := by
  intro rest
  induction rest with
  | nil =>
    intro i st hdrop hi hmol hstop
    have hlen : st._reaction_components.length ≤ i := by
      simpa using hdrop
    have hci : count - i = 0 := by
      by_contra hne
      obtain ⟨rc, hrc, -⟩ := hmol i (le_refl _) (by omega)
      have := List.getElem?_eq_none_iff.mpr hlen
      rw [this] at hrc
      cases hrc
    rw [hci]
    refine ⟨by simp [addSingleMolecules, unassignedFrom], SameShape.shape_refl _, ?_⟩
    intro v rc hv
    refine ⟨rc, hv, fun _ => rfl, ?_⟩
    intro j hj
    simp [unassignedFrom] at hj
  | cons rc0 rest ih =>
    intro i st hdrop hi hmol hstop
    have hi0 : st._reaction_components[i]? = some rc0 := by
      have := List.getElem?_drop st._reaction_components i 0
      rw [hdrop] at this
      simpa using this.symm
    have hd0 : (st._reaction_components.getD i default) = rc0 := getD_of_getElem? _ _ _ hi0
    have hdrop1 : st._reaction_components.drop (i + 1) = rest := by
      have := congrArg (List.drop 1) hdrop
      simpa [List.drop_drop] using this
    by_cases hty : rc0.component_type = ComponentType.MOLECULE
    · have hlt : i < count := by
        rcases Nat.lt_or_ge i count with h | h
        · exact h
        · have : i = count := by omega
          rw [this] at hi0
          exact absurd hty (hstop rc0 hi0)
      have hcnt : count - i = (count - (i + 1)) + 1 := by omega
      by_cases hnc : rc0.summ_block_idx = SummBlockIdx.NOT_CONNECTED
      · let f : ReactionComponent → ReactionComponent :=
          fun c => { c with summ_block_idx := SummBlockIdx.idx st._component_summ_blocks.length }
        let st1 : LoaderState :=
          ⟨modifyAt f st._reaction_components i, st._component_summ_blocks_list, st.next_node,
            st._component_summ_blocks ++ [{ MolSumm.new rc0.bbox with indexes := [i] }]⟩
        have hstep : addSingleMolecules (rc0 :: rest) i st = addSingleMolecules rest (i + 1) st1 := by
          simp only [addSingleMolecules]
          rw [if_neg (not_not.mpr hty), if_pos hnc]
        have hF : unassignedFrom st._reaction_components i (count - i)
            = i :: unassignedFrom st._reaction_components (i + 1) (count - (i + 1)) := by
          rw [hcnt, unassignedFrom_succ, hd0, if_pos hnc]
        have hF1 : unassignedFrom st1._reaction_components (i + 1) (count - (i + 1))
            = unassignedFrom st._reaction_components (i + 1) (count - (i + 1)) :=
          unassignedFrom_modifyAt f st._reaction_components i (i + 1) _ (Nat.lt_succ_self i)
        obtain ⟨ih1, ih2, ih3⟩ := ih (i + 1) st1
          (by
            show (modifyAt f st._reaction_components i).drop (i + 1) = rest
            rw [drop_modifyAt_succ, hdrop1])
          hlt
          (by
            intro v h1 h2
            obtain ⟨rc, hrc, ht⟩ := hmol v (by omega) h2
            refine ⟨rc, ?_, ht⟩
            show (modifyAt f st._reaction_components i)[v]? = some rc
            rw [getElem?_modifyAt, if_neg (by omega), hrc])
          (by
            intro rc hrc
            apply hstop rc
            have : (modifyAt f st._reaction_components i)[count]? = some rc := hrc
            rw [getElem?_modifyAt, if_neg (by omega)] at this
            exact this)
        rw [hstep, hF]
        rw [hF1] at ih1 ih3
        refine ⟨?_, ?_, ?_⟩
        · rw [ih1]
          show (st._component_summ_blocks ++ [{ MolSumm.new rc0.bbox with indexes := [i] }])
              ++ _ = _
          rw [List.append_assoc, List.map_cons]
          congr 1
          rw [List.singleton_append]
          congr 1
          · simp only [singletonBlock, hd0, MolSumm.new]
          · apply List.map_congr_left
            intro v hv
            have hv1 := (le_of_mem_unassignedFrom _ _ _ _ hv).1
            simp only [singletonBlock]
            rw [getD_modifyAt_ne f _ i v (by omega)]
        · exact (SameShape.shape_modifyAt st._reaction_components f i (fun _ => ⟨rfl, rfl⟩)).shape_trans ih2
        · intro v rc hv
          have hv1 : st1._reaction_components[v]? = if v = i then some (f rc) else some rc := by
            show (modifyAt f st._reaction_components i)[v]? = _
            rw [getElem?_modifyAt, hv]
            rfl
          by_cases hvi : v = i
          · rw [if_pos hvi] at hv1
            obtain ⟨rc2, h2, h3, h4⟩ := ih3 v (f rc) hv1
            have hnot : v ∉ unassignedFrom st._reaction_components (i + 1) (count - (i + 1)) := by
              intro hmem
              have := (le_of_mem_unassignedFrom _ _ _ _ hmem).1
              omega
            refine ⟨rc2, h2, ?_, ?_⟩
            · intro hno
              exact absurd (by rw [hvi]; exact List.mem_cons_self _ _) hno
            · intro j hj
              cases j with
              | zero =>
                rw [h3 hnot]
                rfl
              | succ j =>
                simp only [List.getElem?_cons_succ] at hj
                exact absurd (List.getElem?_mem hj) hnot
          · rw [if_neg hvi] at hv1
            obtain ⟨rc2, h2, h3, h4⟩ := ih3 v rc hv1
            refine ⟨rc2, h2, ?_, ?_⟩
            · intro hno
              exact h3 (fun hmem => hno (List.mem_cons_of_mem _ hmem))
            · intro j hj
              cases j with
              | zero =>
                simp only [List.getElem?_cons_zero, Option.some.injEq] at hj
                exact absurd hj.symm hvi
              | succ j =>
                simp only [List.getElem?_cons_succ] at hj
                rw [h4 j hj]
                show SummBlockIdx.idx ((st._component_summ_blocks ++ [_]).length + j) = _
                rw [List.length_append, List.length_singleton]
                congr 1
                omega
      · have hstep : addSingleMolecules (rc0 :: rest) i st = addSingleMolecules rest (i + 1) st := by
          simp only [addSingleMolecules]
          rw [if_neg (not_not.mpr hty), if_neg hnc]
        have hF : unassignedFrom st._reaction_components i (count - i)
            = unassignedFrom st._reaction_components (i + 1) (count - (i + 1)) := by
          rw [hcnt, unassignedFrom_succ, hd0, if_neg hnc]
        rw [hstep, hF]
        exact ih (i + 1) st hdrop1 hlt (fun v h1 h2 => hmol v (by omega) h2) hstop
    · have hci : count - i = 0 := by
        by_contra hne
        obtain ⟨rc, hrc, ht⟩ := hmol i (le_refl _) (by omega)
        rw [hi0] at hrc
        simp only [Option.some.injEq] at hrc
        rw [← hrc] at ht
        exact hty ht
      have hstep : addSingleMolecules (rc0 :: rest) i st = st := by
        simp only [addSingleMolecules]
        rw [if_pos hty]
      rw [hstep, hci]
      refine ⟨by simp [unassignedFrom], SameShape.shape_refl _, ?_⟩
      intro v rc hv
      refine ⟨rc, hv, fun _ => rfl, ?_⟩
      intro j hj
      simp [unassignedFrom] at hj

theorem collectComponents_molecule (sh : BBoxShifts) (rxn : Document) (v : Nat)
    (hv : v < rxn.fragments.length) :
    ∃ rc, (collectComponents sh rxn)[v]? = some rc
      ∧ rc.component_type = ComponentType.MOLECULE := by
  unfold collectComponents
  rw [List.append_assoc, List.getElem?_append_left (by simpa using hv), List.getElem?_map]
  obtain ⟨bb, hbb⟩ : ∃ bb, rxn.fragments[v]? = some bb :=
    ⟨rxn.fragments[v], List.getElem?_eq_getElem hv⟩
  rw [hbb]
  exact ⟨_, rfl, rfl⟩

theorem collectComponents_stop (sh : BBoxShifts) (rxn : Document) (rc : ReactionComponent)
    (h : (collectComponents sh rxn)[rxn.fragments.length]? = some rc) :
    rc.component_type ≠ ComponentType.MOLECULE := by
  unfold collectComponents at h
  rw [List.append_assoc, List.getElem?_append_right (by simp)] at h
  simp only [List.length_map, Nat.sub_self] at h
  have hm := List.getElem?_mem h
  rw [List.mem_append, List.mem_map, List.mem_map] at hm
  rcases hm with ⟨p, -, hp⟩ | ⟨a, -, ha⟩
  · rw [← hp]
    simp [ReactionComponent.new]
  · rw [← ha]
    simp [ReactionComponent.new]

theorem finalizeBlocks_spec (sh : BBoxShifts) (rxn : Document) (stp : LoaderState)
    (hs : SameShape (collectComponents sh rxn) stp._reaction_components) :
    (finalizeBlocks stp)._component_summ_blocks
        = (stp._component_summ_blocks ++ stp._component_summ_blocks_list.map Prod.snd)
          ++ (unassignedFrom (copyBlocks stp._component_summ_blocks_list stp)._reaction_components
                0 rxn.fragments.length).map
              (singletonBlock (copyBlocks stp._component_summ_blocks_list stp)._reaction_components)
    ∧ SameShape stp._reaction_components (finalizeBlocks stp)._reaction_components
    ∧ ∀ (v : Nat) (rc : ReactionComponent),
        (copyBlocks stp._component_summ_blocks_list stp)._reaction_components[v]? = some rc →
        ∃ rc2, (finalizeBlocks stp)._reaction_components[v]? = some rc2
          ∧ (v ∉ unassignedFrom
                (copyBlocks stp._component_summ_blocks_list stp)._reaction_components
                0 rxn.fragments.length → rc2 = rc)
          ∧ (∀ j, (unassignedFrom
                (copyBlocks stp._component_summ_blocks_list stp)._reaction_components
                0 rxn.fragments.length)[j]? = some v →
              rc2.summ_block_idx = SummBlockIdx.idx
                ((stp._component_summ_blocks ++ stp._component_summ_blocks_list.map Prod.snd).length
                  + j)) := by
  obtain ⟨c1, c2, -⟩ := copyBlocks_spec stp._component_summ_blocks_list stp
  have hs1 := hs.shape_trans c2
  obtain ⟨a1, a2, a3⟩ := addSingleMolecules_spec rxn.fragments.length
    (copyBlocks stp._component_summ_blocks_list stp)._reaction_components 0
    (copyBlocks stp._component_summ_blocks_list stp) (List.drop_zero _) (Nat.zero_le _)
    (by
      intro v _ hv
      obtain ⟨rc, hrc, ht⟩ := collectComponents_molecule sh rxn v hv
      obtain ⟨rc2, h2, ht2, -⟩ := hs1.getElem? v rc hrc
      exact ⟨rc2, h2, ht2.trans ht⟩)
    (by
      intro rc hrc
      have hs2 : SameShape (copyBlocks stp._component_summ_blocks_list stp)._reaction_components
          (collectComponents sh rxn) := by
        unfold SameShape at hs1 ⊢
        exact hs1.symm
      obtain ⟨rc2, h2, ht2, -⟩ := hs2.getElem? _ rc hrc
      rw [← ht2]
      exact collectComponents_stop sh rxn rc2 h2)
  rw [Nat.sub_zero, c1] at a1 a3
  exact ⟨a1, c2.shape_trans a2, a3⟩

/-! ## C22 -/

/-- C22: the box of every block is the union, the smallest enclosing axis-aligned rectangle,
of the boxes of exactly its member components. This holds for every block of the list
`_component_summ_blocks_list` after every step of the plus loop, that is after the first `n`
plus marks for every `n`, and for every block of `_component_summ_blocks` after the
finalization; a block made of two members has the union of the two boxes and a singleton
block has the box of its member, as the member lists `[a, b]` and `[v]` give. -/
theorem buildBlocks_boxes (sh : BBoxShifts) (rxn : Document) :
    (∀ (n : Nat) (st : LoaderState),
      plusLoop rxn.fragments.length (sortedEdges (collectComponents sh rxn)) (rxn.pluses.take n) 0
        ⟨collectComponents sh rxn, [], 0, []⟩ = some st →
      ∀ nd ∈ st._component_summ_blocks_list,
        IsUnionOf nd.2.bbox (memberBoxes st._reaction_components nd.2))
    ∧ (∀ st : LoaderState, buildBlocks sh rxn = some st →
      ∀ csb ∈ st._component_summ_blocks,
        IsUnionOf csb.bbox (memberBoxes st._reaction_components csb)) := by
  constructor
  · intro n st h
    exact plusLoop_boxes _ _ _ 0 _ st (by intro nd hnd; cases hnd) h
  · intro st h
    unfold buildBlocks at h
    simp only at h
    cases hp : plusLoop rxn.fragments.length (sortedEdges (collectComponents sh rxn)) rxn.pluses 0
        ⟨collectComponents sh rxn, [], 0, []⟩ with
    | none => rw [hp] at h; cases h
    | some stp =>
      rw [hp] at h
      simp only [Option.some.injEq] at h
      subst h
      have hbox := plusLoop_boxes _ _ _ 0 _ stp (by intro nd hnd; cases hnd) hp
      obtain ⟨hshape, hblocks⟩ := plusLoop_shape _ _ _ 0 ⟨collectComponents sh rxn, [], 0, []⟩ _
        stp ⟨SameShape.shape_refl _, rfl⟩ hp
      obtain ⟨f1, f2, -⟩ := finalizeBlocks_spec sh rxn stp hshape
      obtain ⟨-, c2, -⟩ := copyBlocks_spec stp._component_summ_blocks_list stp
      intro csb hcsb
      rw [f1, hblocks] at hcsb
      simp only [List.nil_append, List.mem_append, List.mem_map] at hcsb
      rcases hcsb with ⟨nd, hnd, rfl⟩ | ⟨v, -, rfl⟩
      · rw [f2.memberBoxes]
        exact hbox nd hnd
      · have h1 : memberBoxes (finalizeBlocks stp)._reaction_components
            (singletonBlock (copyBlocks stp._component_summ_blocks_list stp)._reaction_components v)
            = [(singletonBlock
                (copyBlocks stp._component_summ_blocks_list stp)._reaction_components v).bbox] := by
          rw [f2.memberBoxes]
          simp only [memberBoxes, singletonBlock, List.map_cons, List.map_nil]
          rw [c2.getD_bbox]
        rw [h1]
        exact isUnionOf_single _

theorem buildBlocks_boxes_witness :
    plusLoop interleavedDocument.fragments.length
        (sortedEdges (collectComponents exampleShifts interleavedDocument))
        (interleavedDocument.pluses.take 1) 0
        ⟨collectComponents exampleShifts interleavedDocument, [], 0, []⟩
      = some interleavedLoopState
    ∧ (∀ nd ∈ interleavedLoopState._component_summ_blocks_list,
        IsUnionOf nd.2.bbox (memberBoxes interleavedLoopState._reaction_components nd.2))
    ∧ buildBlocks exampleShifts interleavedDocument = some interleavedBuilt
    ∧ (∀ csb ∈ interleavedBuilt._component_summ_blocks,
        IsUnionOf csb.bbox (memberBoxes interleavedBuilt._reaction_components csb)) :=
  ⟨by decide,
    (buildBlocks_boxes exampleShifts interleavedDocument).1 1 interleavedLoopState (by decide),
    by decide,
    (buildBlocks_boxes exampleShifts interleavedDocument).2 interleavedBuilt (by decide)⟩

/-! ## The partition kept by the plus loop -/

theorem CompStep.connected {c1 c2 : List ReactionComponent} (h : CompStep c1 c2) (v : Nat)
    (hv : ∃ rc, c1[v]? = some rc ∧ rc.summ_block_idx = SummBlockIdx.CONNECTED) :
    ∃ rc, c2[v]? = some rc ∧ rc.summ_block_idx = SummBlockIdx.CONNECTED := by
  obtain ⟨rc, hrc, hc⟩ := hv
  obtain ⟨rc2, h2, -, -, hi⟩ := h.2 v rc hrc
  refine ⟨rc2, h2, ?_⟩
  rcases hi with hi | hi
  · rw [hi, hc]
  · exact hi

theorem CompStep.flags {c1 c2 : List ReactionComponent} (h : CompStep c1 c2)
    (h1 : ∀ (v : Nat) (rc : ReactionComponent), c1[v]? = some rc →
      rc.summ_block_idx = SummBlockIdx.NOT_CONNECTED ∨ rc.summ_block_idx = SummBlockIdx.CONNECTED) :
    ∀ (v : Nat) (rc : ReactionComponent), c2[v]? = some rc →
      rc.summ_block_idx = SummBlockIdx.NOT_CONNECTED
        ∨ rc.summ_block_idx = SummBlockIdx.CONNECTED := by
  intro v rc2 hv2
  cases hv : c1[v]? with
  | none =>
    have hlt := List.getElem?_eq_none_iff.mp hv
    rw [← h.1] at hlt
    rw [List.getElem?_eq_none_iff.mpr hlt] at hv2
    cases hv2
  | some rc =>
    obtain ⟨rc3, h3, -, -, hi⟩ := h.2 v rc hv
    rw [hv2] at h3
    simp only [Option.some.injEq] at h3
    subst h3
    rcases hi with hi | hi
    · rw [hi]
      exact h1 v rc hv
    · exact Or.inr hi

theorem connectPlus_inv (st st2 : LoaderState) (pair : Nat × Nat)
    (h : connectPlus st pair = some st2) (hinv : BlocksInv st) : BlocksInv st2 := by
  obtain ⟨hflag, hmem, hdisj, hnodup, hlt⟩ := hinv
  obtain ⟨hc, -, hcase⟩ := connectPlus_spec st st2 pair h
  have hnotmem : ∀ (a : Nat) (rcA : ReactionComponent), st._reaction_components[a]? = some rcA →
      rcA.summ_block_idx = SummBlockIdx.NOT_CONNECTED →
      ∀ nd ∈ st._component_summ_blocks_list, a ∉ nd.2.indexes := by
    intro a rcA hA hnc nd hnd ha
    obtain ⟨rc, hrc, hcon⟩ := hmem nd hnd a ha
    rw [hA] at hrc
    simp only [Option.some.injEq] at hrc
    rw [hrc, hcon] at hnc
    cases hnc
  rcases hcase with ⟨rcF, rcS, hF, hS, hFc, hSc, hlist, hnext, hnew⟩
    | ⟨a, x, rcA, bx, hA, hAc, hx, hlist, hnext, hnew⟩
    | ⟨x, y, bx, bY, hx, hy, hlist, hnext⟩
  · refine ⟨hc.flags hflag, ?_, ?_, ?_, ?_⟩
    · intro nd hnd v hv
      rw [hlist, List.mem_append, List.mem_singleton] at hnd
      rcases hnd with hnd | hnd
      · exact hc.connected v (hmem nd hnd v hv)
      · rw [hnd] at hv
        exact hnew v hv
    · intro n1 hn1 n2 hn2 v hv1 hv2
      rw [hlist, List.mem_append, List.mem_singleton] at hn1 hn2
      have hpair : ∀ w ∈ [pair.1, pair.2], ∀ nd ∈ st._component_summ_blocks_list,
          w ∉ nd.2.indexes := by
        intro w hw nd hnd
        simp only [List.mem_cons, List.mem_singleton, List.not_mem_nil, or_false] at hw
        rcases hw with hw | hw
        · rw [hw]; exact hnotmem _ rcF hF hFc nd hnd
        · rw [hw]; exact hnotmem _ rcS hS hSc nd hnd
      rcases hn1 with hn1 | hn1
      · rcases hn2 with hn2 | hn2
        · exact hdisj n1 hn1 n2 hn2 v hv1 hv2
        · rw [hn2] at hv2
          exact absurd hv1 (hpair v hv2 n1 hn1)
      · rcases hn2 with hn2 | hn2
        · rw [hn1] at hv1
          exact absurd hv2 (hpair v hv1 n2 hn2)
        · rw [hn1, hn2]
    · rw [hlist, List.map_append, List.map_singleton, List.nodup_append]
      refine ⟨hnodup, List.nodup_singleton _, ?_⟩
      intro z hz1 hz2
      rw [List.mem_singleton] at hz2
      obtain ⟨nd, hnd, rfl⟩ := List.mem_map.mp hz1
      have := hlt nd hnd
      omega
    · intro nd hnd
      rw [hlist, List.mem_append, List.mem_singleton] at hnd
      rw [hnext]
      rcases hnd with hnd | hnd
      · exact Nat.lt_succ_of_lt (hlt nd hnd)
      · rw [hnd]
        exact Nat.lt_succ_self _
  · have hmemv : ∀ nd2 ∈ st2._component_summ_blocks_list, ∀ v ∈ nd2.2.indexes,
        (∃ nd ∈ st._component_summ_blocks_list, nd.1 = nd2.1 ∧ v ∈ nd.2.indexes)
          ∨ (v = a ∧ nd2.1 = x) := by
      intro nd2 hnd2 v hv
      rw [hlist, mem_modifyNode] at hnd2
      obtain ⟨nd, hnd, h1, h2⟩ := hnd2
      by_cases hid : nd.1 = x
      · rw [if_pos hid] at h2
        rw [h2] at hv
        simp only [List.mem_append, List.mem_singleton] at hv
        rcases hv with hv | hv
        · exact Or.inl ⟨nd, hnd, h1.symm, hv⟩
        · exact Or.inr ⟨hv, h1.trans hid⟩
      · rw [if_neg hid] at h2
        rw [h2] at hv
        exact Or.inl ⟨nd, hnd, h1.symm, hv⟩
    refine ⟨hc.flags hflag, ?_, ?_, ?_, ?_⟩
    · intro nd2 hnd2 v hv
      rcases hmemv nd2 hnd2 v hv with ⟨nd, hnd, -, hvn⟩ | ⟨hva, -⟩
      · exact hc.connected v (hmem nd hnd v hvn)
      · rw [hva]
        exact hnew
    · intro n1 hn1 n2 hn2 v hv1 hv2
      rcases hmemv n1 hn1 v hv1 with ⟨m1, hm1, e1, hvm1⟩ | ⟨hva1, hx1⟩
      · rcases hmemv n2 hn2 v hv2 with ⟨m2, hm2, e2, hvm2⟩ | ⟨hva2, hx2⟩
        · rw [← e1, ← e2]
          exact hdisj m1 hm1 m2 hm2 v hvm1 hvm2
        · rw [hva2] at hvm1
          exact absurd hvm1 (hnotmem a rcA hA hAc m1 hm1)
      · rcases hmemv n2 hn2 v hv2 with ⟨m2, hm2, e2, hvm2⟩ | ⟨hva2, hx2⟩
        · rw [hva1] at hvm2
          exact absurd hvm2 (hnotmem a rcA hA hAc m2 hm2)
        · rw [hx1, hx2]
    · rw [hlist, map_fst_modifyNode]
      exact hnodup
    · intro nd2 hnd2
      rw [hlist, mem_modifyNode] at hnd2
      obtain ⟨nd, hnd, h1, -⟩ := hnd2
      rw [hnext, h1]
      exact hlt nd hnd
  · have hyb := derefNode_mem _ _ _ hy
    have hmemv : ∀ nd2 ∈ st2._component_summ_blocks_list, nd2.1 ≠ y ∧ ∀ v ∈ nd2.2.indexes,
        (∃ nd ∈ st._component_summ_blocks_list, nd.1 = nd2.1 ∧ v ∈ nd.2.indexes)
          ∨ (v ∈ bY.indexes ∧ nd2.1 = x) := by
      intro nd2 hnd2
      rw [hlist, mem_eraseNode, mem_modifyNode] at hnd2
      obtain ⟨⟨nd, hnd, h1, h2⟩, hne⟩ := hnd2
      refine ⟨hne, ?_⟩
      intro v hv
      by_cases hid : nd.1 = x
      · rw [if_pos hid] at h2
        rw [h2] at hv
        simp only [List.mem_append] at hv
        rcases hv with hv | hv
        · exact Or.inl ⟨nd, hnd, h1.symm, hv⟩
        · exact Or.inr ⟨hv, h1.trans hid⟩
      · rw [if_neg hid] at h2
        rw [h2] at hv
        exact Or.inl ⟨nd, hnd, h1.symm, hv⟩
    refine ⟨hc.flags hflag, ?_, ?_, ?_, ?_⟩
    · intro nd2 hnd2 v hv
      rcases (hmemv nd2 hnd2).2 v hv with ⟨nd, hnd, -, hvn⟩ | ⟨hvy, -⟩
      · exact hc.connected v (hmem nd hnd v hvn)
      · exact hc.connected v (hmem _ hyb v hvy)
    · intro n1 hn1 n2 hn2 v hv1 hv2
      obtain ⟨hne1, hm1⟩ := hmemv n1 hn1
      obtain ⟨hne2, hm2⟩ := hmemv n2 hn2
      rcases hm1 v hv1 with ⟨m1, hm1, e1, hvm1⟩ | ⟨hvy1, hx1⟩
      · rcases hm2 v hv2 with ⟨m2, hm2, e2, hvm2⟩ | ⟨hvy2, hx2⟩
        · rw [← e1, ← e2]
          exact hdisj m1 hm1 m2 hm2 v hvm1 hvm2
        · have := hdisj m1 hm1 _ hyb v hvm1 hvy2
          rw [e1] at this
          exact absurd this hne1
      · rcases hm2 v hv2 with ⟨m2, hm2, e2, hvm2⟩ | ⟨hvy2, hx2⟩
        · have := hdisj m2 hm2 _ hyb v hvm2 hvy1
          rw [e2] at this
          exact absurd this hne2
        · rw [hx1, hx2]
    · rw [hlist, map_fst_eraseNode, map_fst_modifyNode]
      exact hnodup.filter _
    · intro nd2 hnd2
      rw [hlist, mem_eraseNode, mem_modifyNode] at hnd2
      obtain ⟨⟨nd, hnd, h1, -⟩, -⟩ := hnd2
      rw [hnext, h1]
      exact hlt nd hnd

theorem plusStep_inv (count : Nat)
    (edges : FLOAT_INT_PAIRS × FLOAT_INT_PAIRS × FLOAT_INT_PAIRS × FLOAT_INT_PAIRS)
    (st st2 : LoaderState) (i : Nat) (plus : KETReactionPlus) (hinv : BlocksInv st)
    (h : plusStep count edges st i plus = some st2) : BlocksInv st2 := by
  rcases plusStep_cases count edges st st2 i plus h with h1 | ⟨pair, -, h1⟩
  · rw [h1]
    exact hinv
  · apply connectPlus_inv _ st2 pair h1
    obtain ⟨hflag, hmem, hdisj, hnodup, hlt⟩ := hinv
    have hc := CompStep.step_modifyAt st._reaction_components markConnected (count + i)
      markConnected_ok
    exact ⟨hc.flags hflag, fun nd hnd v hv => hc.connected v (hmem nd hnd v hv), hdisj, hnodup,
      hlt⟩

theorem plusLoop_inv (count : Nat)
    (edges : FLOAT_INT_PAIRS × FLOAT_INT_PAIRS × FLOAT_INT_PAIRS × FLOAT_INT_PAIRS)
    (pluses : List KETReactionPlus) (i : Nat) (st st2 : LoaderState) (hinv : BlocksInv st)
    (h : plusLoop count edges pluses i st = some st2) : BlocksInv st2 :=
  plusLoop_invariant BlocksInv count edges
    (fun s j plus s2 hs hstep => plusStep_inv count edges s s2 j plus hs hstep)
    pluses i st st2 hinv h

theorem collectComponents_inv (sh : BBoxShifts) (rxn : Document) :
    BlocksInv ⟨collectComponents sh rxn, [], 0, []⟩ := by
  refine ⟨?_, ?_, ?_, List.nodup_nil, ?_⟩
  rotate_left
  · intro nd hnd
    cases hnd
  · intro nd hnd
    cases hnd
  · intro nd hnd
    cases hnd
  intro v rc hv
  have hm := List.getElem?_mem hv
  left
  simp only [collectComponents, List.mem_append, List.mem_map] at hm
  rcases hm with (⟨b, -, hb⟩ | ⟨p, -, hp⟩) | ⟨a, -, ha⟩
  · rw [← hb]; rfl
  · rw [← hp]; rfl
  · rw [← ha]; rfl

/-! ## C23 -/

theorem getElem?_inj_of_nodup {α : Type} (l : List α) (hl : l.Nodup) (i j : Nat) (a : α)
    (hi : l[i]? = some a) (hj : l[j]? = some a) : i = j := by
  have hlt : i < l.length := by
    by_contra hge
    rw [List.getElem?_eq_none_iff.mpr (by omega)] at hi
    cases hi
  exact List.getElem?_inj hlt hl (hi.trans hj.symm)

theorem node_index_unique (nodes : List (Nat × MolSumm)) (hnodup : (nodes.map Prod.fst).Nodup)
    (j j2 : Nat) (nd nd2 : Nat × MolSumm) (h1 : nodes[j]? = some nd)
    (h2 : nodes[j2]? = some nd2) (he : nd.1 = nd2.1) : j = j2 := by
  apply getElem?_inj_of_nodup (nodes.map Prod.fst) hnodup j j2 nd.1
  · rw [List.getElem?_map, h1]
    rfl
  · rw [List.getElem?_map, h2, he]
    rfl

theorem unassignedFrom_nodup (comps : List ReactionComponent) (i n : Nat) :
    (unassignedFrom comps i n).Nodup :=
  (List.nodup_range' i n).filter _

theorem getElem?_of_sameShape {c1 c2 : List ReactionComponent} (h : SameShape c1 c2) (v : Nat)
    (rc2 : ReactionComponent) (hv : c2[v]? = some rc2) : ∃ rc, c1[v]? = some rc := by
  cases h1 : c1[v]? with
  | some rc => exact ⟨rc, rfl⟩
  | none =>
    have hlt := List.getElem?_eq_none_iff.mp h1
    rw [← h.length] at hlt
    rw [List.getElem?_eq_none_iff.mpr hlt] at hv
    cases hv

theorem finalizeBlocks_references (sh : BBoxShifts) (rxn : Document) (stp : LoaderState)
    (hshape : SameShape (collectComponents sh rxn) stp._reaction_components)
    (hblocks : stp._component_summ_blocks = []) (hinv : BlocksInv stp) :
    (finalizeBlocks stp)._component_summ_blocks
        = stp._component_summ_blocks_list.map Prod.snd
          ++ (unassignedFrom stp._reaction_components 0 rxn.fragments.length).map
              (singletonBlock stp._reaction_components)
    ∧ ∀ (v : Nat) (rc : ReactionComponent),
        (finalizeBlocks stp)._reaction_components[v]? = some rc →
        (∃ j nd, stp._component_summ_blocks_list[j]? = some nd ∧ v ∈ nd.2.indexes
            ∧ v ∉ unassignedFrom stp._reaction_components 0 rxn.fragments.length
            ∧ rc.summ_block_idx = SummBlockIdx.idx j)
        ∨ ((∀ nd ∈ stp._component_summ_blocks_list, v ∉ nd.2.indexes)
            ∧ ∃ j, (unassignedFrom stp._reaction_components 0 rxn.fragments.length)[j]? = some v
              ∧ rc.summ_block_idx
                  = SummBlockIdx.idx (stp._component_summ_blocks_list.length + j))
        ∨ ((∀ nd ∈ stp._component_summ_blocks_list, v ∉ nd.2.indexes)
            ∧ v ∉ unassignedFrom stp._reaction_components 0 rxn.fragments.length
            ∧ (rc.summ_block_idx = SummBlockIdx.NOT_CONNECTED
                ∨ rc.summ_block_idx = SummBlockIdx.CONNECTED)) := by
  obtain ⟨hflag, hmem, hdisj, hnodup, -⟩ := hinv
  obtain ⟨-, c2, c3⟩ := copyBlocks_spec stp._component_summ_blocks_list stp
  obtain ⟨f1, f2, f3⟩ := finalizeBlocks_spec sh rxn stp hshape
  rw [hblocks] at c3 f1 f3
  simp only [List.nil_append, List.length_nil, Nat.zero_add, List.length_map] at c3 f1 f3
  -- what the copy of the list blocks does to the index of a component
  have hcopy : ∀ (v : Nat) (rc0 : ReactionComponent), stp._reaction_components[v]? = some rc0 →
      ∃ rc1, (copyBlocks stp._component_summ_blocks_list stp)._reaction_components[v]? = some rc1
        ∧ ((∃ j nd, stp._component_summ_blocks_list[j]? = some nd ∧ v ∈ nd.2.indexes
              ∧ rc0.summ_block_idx = SummBlockIdx.CONNECTED
              ∧ rc1.summ_block_idx = SummBlockIdx.idx j)
          ∨ ((∀ nd ∈ stp._component_summ_blocks_list, v ∉ nd.2.indexes)
              ∧ rc1.summ_block_idx = rc0.summ_block_idx)) := by
    intro v rc0 hv
    obtain ⟨rc1, h1, h2, h3⟩ := c3 v rc0 hv
    refine ⟨rc1, h1, ?_⟩
    by_cases hex : ∃ nd ∈ stp._component_summ_blocks_list, v ∈ nd.2.indexes
    · obtain ⟨nd, hnd, hvn⟩ := hex
      obtain ⟨j, hj⟩ := List.mem_iff_getElem?.mp hnd
      left
      refine ⟨j, nd, hj, hvn, ?_, ?_⟩
      · obtain ⟨rc, hrc, hcon⟩ := hmem nd hnd v hvn
        rw [hv] at hrc
        simp only [Option.some.injEq] at hrc
        rw [hrc]
        exact hcon
      · apply h3 j nd hj hvn
        intro j2 nd2 hj2 hlt hv2
        have := node_index_unique _ hnodup j j2 nd nd2 hj hj2
          (hdisj nd hnd nd2 (List.getElem?_mem hj2) v hvn hv2)
        omega
    · right
      have hno : ∀ nd ∈ stp._component_summ_blocks_list, v ∉ nd.2.indexes :=
        fun nd hnd hvn => hex ⟨nd, hnd, hvn⟩
      exact ⟨hno, h2 hno⟩
  have hgetD : ∀ v, ((copyBlocks stp._component_summ_blocks_list stp)._reaction_components.getD
        v default).summ_block_idx = SummBlockIdx.NOT_CONNECTED
      ↔ (stp._reaction_components.getD v default).summ_block_idx
          = SummBlockIdx.NOT_CONNECTED := by
    intro v
    cases hv : stp._reaction_components[v]? with
    | none =>
      have hlt := List.getElem?_eq_none_iff.mp hv
      have hv1 : (copyBlocks stp._component_summ_blocks_list stp)._reaction_components[v]?
          = none := by
        rw [List.getElem?_eq_none_iff, c2.length]
        exact hlt
      rw [List.getD_eq_getElem?_getD, List.getD_eq_getElem?_getD, hv, hv1]
    | some rc0 =>
      obtain ⟨rc1, h1, hc⟩ := hcopy v rc0 hv
      rw [getD_of_getElem? _ _ _ h1, getD_of_getElem? _ _ _ hv]
      rcases hc with ⟨j, nd, -, -, hcon, hidx⟩ | ⟨-, hidx⟩
      · rw [hcon, hidx]
        constructor <;> intro hh <;> cases hh
      · rw [hidx]
  have hF : unassignedFrom (copyBlocks stp._component_summ_blocks_list stp)._reaction_components
      0 rxn.fragments.length = unassignedFrom stp._reaction_components 0 rxn.fragments.length := by
    unfold unassignedFrom
    apply List.filter_congr
    intro v _
    rw [decide_eq_decide]
    exact hgetD v
  have hS : singletonBlock (copyBlocks stp._component_summ_blocks_list stp)._reaction_components
      = singletonBlock stp._reaction_components := by
    funext v
    simp only [singletonBlock]
    rw [c2.getD_bbox]
  rw [hF] at f1 f3
  rw [hS] at f1
  refine ⟨f1, ?_⟩
  intro v rc hv
  obtain ⟨rc1', hv1'⟩ := getElem?_of_sameShape f2 v rc hv
  obtain ⟨rc1, hv1, hc⟩ := hcopy v rc1' hv1'
  obtain ⟨rc2, hv2, g1, g2⟩ := f3 v rc1 hv1
  rw [hv] at hv2
  simp only [Option.some.injEq] at hv2
  subst hv2
  have hNC : v ∈ unassignedFrom stp._reaction_components 0 rxn.fragments.length →
      rc1'.summ_block_idx = SummBlockIdx.NOT_CONNECTED := by
    intro hvF
    have := (le_of_mem_unassignedFrom _ _ _ _ hvF).2.2
    rw [getD_of_getElem? _ _ _ hv1'] at this
    exact this
  rcases hc with ⟨j, nd, hj, hvn, hcon, hidx⟩ | ⟨hno, hidx⟩
  · have hnF : v ∉ unassignedFrom stp._reaction_components 0 rxn.fragments.length := by
      intro hvF
      rw [hNC hvF] at hcon
      cases hcon
    left
    refine ⟨j, nd, hj, hvn, hnF, ?_⟩
    rw [g1 hnF]
    exact hidx
  · right
    by_cases hvF : v ∈ unassignedFrom stp._reaction_components 0 rxn.fragments.length
    · left
      obtain ⟨j, hj⟩ := List.mem_iff_getElem?.mp hvF
      exact ⟨hno, j, hj, g2 j hj⟩
    · right
      refine ⟨hno, hvF, ?_⟩
      rw [g1 hvF, hidx]
      exact hflag v rc1' hv1'

theorem getElem?_blocks_cases (nodes : List (Nat × MolSumm)) (singles : List Nat)
    (mk : Nat → MolSumm) (k : Nat) (csb : MolSumm)
    (h : (nodes.map Prod.snd ++ singles.map mk)[k]? = some csb) :
    (∃ nd, nodes[k]? = some nd ∧ csb = nd.2)
      ∨ (∃ j w, k = nodes.length + j ∧ singles[j]? = some w ∧ csb = mk w) := by
  rcases Nat.lt_or_ge k nodes.length with hlt | hge
  · left
    rw [List.getElem?_append_left (by simpa using hlt), List.getElem?_map] at h
    cases hk : nodes[k]? with
    | none => rw [hk] at h; cases h
    | some nd =>
      rw [hk] at h
      simp only [Option.map_some', Option.some.injEq] at h
      exact ⟨nd, rfl, h.symm⟩
  · right
    rw [List.getElem?_append_right (by simpa using hge), List.getElem?_map, List.length_map] at h
    cases hk : singles[k - nodes.length]? with
    | none => rw [hk] at h; cases h
    | some w =>
      rw [hk] at h
      simp only [Option.map_some', Option.some.injEq] at h
      exact ⟨k - nodes.length, w, by omega, hk, h.symm⟩

/-- C23: after the finalization the block indexes of the components and the member lists of
the blocks agree. For a document whose plus loop ends in the state `stp`, `buildBlocks`
returns the finalization of `stp`; its blocks are the list blocks of the plus loop, in list
order, followed by one singleton block for every molecule component that is still
`NOT_CONNECTED` after the plus loop, in component order; for every component `v` and every
block index `k` below the number of blocks, `summ_block_idx` of `v` is `k` exactly when `v`
is in the member list of block `k`; and the `j`-th of the unassigned molecules is a
`MOLECULE` component that gets the index `j` counted from the end of the list blocks, where
its singleton block stands. -/
theorem buildBlocks_references (sh : BBoxShifts) (rxn : Document) (stp : LoaderState)
    (h : plusLoop rxn.fragments.length (sortedEdges (collectComponents sh rxn)) rxn.pluses 0
        ⟨collectComponents sh rxn, [], 0, []⟩ = some stp) :
    buildBlocks sh rxn = some (finalizeBlocks stp)
    ∧ (finalizeBlocks stp)._component_summ_blocks
        = stp._component_summ_blocks_list.map Prod.snd
          ++ (unassignedFrom stp._reaction_components 0 rxn.fragments.length).map
              (singletonBlock stp._reaction_components)
    ∧ (∀ (v k : Nat) (rc : ReactionComponent) (csb : MolSumm),
        (finalizeBlocks stp)._reaction_components[v]? = some rc →
        (finalizeBlocks stp)._component_summ_blocks[k]? = some csb →
        (rc.summ_block_idx = SummBlockIdx.idx k ↔ v ∈ csb.indexes))
    ∧ (∀ (j v : Nat),
        (unassignedFrom stp._reaction_components 0 rxn.fragments.length)[j]? = some v →
        ∃ rc, (finalizeBlocks stp)._reaction_components[v]? = some rc
          ∧ rc.component_type = ComponentType.MOLECULE
          ∧ rc.summ_block_idx = SummBlockIdx.idx (stp._component_summ_blocks_list.length + j)
          ∧ (finalizeBlocks stp)._component_summ_blocks[stp._component_summ_blocks_list.length + j]?
              = some (singletonBlock stp._reaction_components v)) := by
  have hinv := plusLoop_inv _ _ _ 0 _ stp (collectComponents_inv sh rxn) h
  obtain ⟨hshape, hblocks⟩ := plusLoop_shape _ _ _ 0 ⟨collectComponents sh rxn, [], 0, []⟩ _
    stp ⟨SameShape.shape_refl _, rfl⟩ h
  obtain ⟨r1, r2⟩ := finalizeBlocks_references sh rxn stp hshape hblocks hinv
  obtain ⟨-, f2, -⟩ := finalizeBlocks_spec sh rxn stp hshape
  obtain ⟨-, hmem, hdisj, hnodup, -⟩ := hinv
  have hFn := unassignedFrom_nodup stp._reaction_components 0 rxn.fragments.length
  refine ⟨?_, r1, ?_, ?_⟩
  · unfold buildBlocks
    simp only [h]
  · intro v k rc csb hv hk
    rw [r1] at hk
    have hidxne : ∀ a b : Nat, SummBlockIdx.idx a = SummBlockIdx.idx b ↔ a = b := by
      intro a b
      constructor
      · intro hab
        injection hab
      · intro hab
        rw [hab]
    rcases r2 v rc hv with ⟨j, nd, hj, hvn, hnF, hidx⟩ | ⟨hno, j, hj, hidx⟩ | ⟨hno, hnF, hfl⟩
    · rcases getElem?_blocks_cases _ _ _ k csb hk with ⟨ndk, hndk, rfl⟩ | ⟨j2, w, hkj, hw, rfl⟩
      · rw [hidx, hidxne]
        constructor
        · intro hjk
          rw [hjk, hndk] at hj
          simp only [Option.some.injEq] at hj
          rw [hj]
          exact hvn
        · intro hvk
          exact node_index_unique _ hnodup j k nd ndk hj hndk
            (hdisj nd (List.getElem?_mem hj) ndk (List.getElem?_mem hndk) v hvn hvk)
      · have hjlt : j < stp._component_summ_blocks_list.length := by
          by_contra hge
          rw [List.getElem?_eq_none_iff.mpr (by omega)] at hj
          cases hj
        rw [hidx, hidxne]
        constructor
        · intro hjk
          omega
        · intro hvw
          simp only [singletonBlock, List.mem_singleton] at hvw
          rw [hvw] at hnF
          exact absurd (List.getElem?_mem hw) hnF
    · rcases getElem?_blocks_cases _ _ _ k csb hk with ⟨ndk, hndk, rfl⟩ | ⟨j2, w, hkj, hw, rfl⟩
      · have hklt : k < stp._component_summ_blocks_list.length := by
          by_contra hge
          rw [List.getElem?_eq_none_iff.mpr (by omega)] at hndk
          cases hndk
        rw [hidx, hidxne]
        constructor
        · intro hjk
          omega
        · intro hvk
          exact absurd hvk (hno ndk (List.getElem?_mem hndk))
      · rw [hidx, hidxne, hkj]
        simp only [singletonBlock, List.mem_singleton]
        constructor
        · intro hjj
          have : j = j2 := by omega
          rw [this, hw] at hj
          simp only [Option.some.injEq] at hj
          exact hj.symm
        · intro hvw
          rw [← hvw] at hw
          rw [getElem?_inj_of_nodup _ hFn j j2 v hj hw]
    · have hne : rc.summ_block_idx ≠ SummBlockIdx.idx k := by
        intro hh
        rw [hh] at hfl
        rcases hfl with hfl | hfl <;> cases hfl
      rcases getElem?_blocks_cases _ _ _ k csb hk with ⟨ndk, hndk, rfl⟩ | ⟨j2, w, hkj, hw, rfl⟩
      · constructor
        · intro hh
          exact absurd hh hne
        · intro hvk
          exact absurd hvk (hno ndk (List.getElem?_mem hndk))
      · constructor
        · intro hh
          exact absurd hh hne
        · intro hvw
          simp only [singletonBlock, List.mem_singleton] at hvw
          rw [hvw] at hnF
          exact absurd (List.getElem?_mem hw) hnF
  · intro j v hj
    have hvF := List.getElem?_mem hj
    obtain ⟨-, hvlt, hvnc⟩ := le_of_mem_unassignedFrom _ _ _ _ hvF
    rw [Nat.zero_add] at hvlt
    obtain ⟨rc0, hrc0, ht0⟩ := collectComponents_molecule sh rxn v hvlt
    obtain ⟨rc, hrc, ht, -⟩ := (hshape.shape_trans f2).getElem? v rc0 hrc0
    refine ⟨rc, hrc, ht.trans ht0, ?_, ?_⟩
    · rcases r2 v rc hrc with ⟨j2, nd, -, -, hnF, -⟩ | ⟨-, j2, hj2, hidx⟩ | ⟨-, hnF, -⟩
      · exact absurd hvF hnF
      · rw [hidx, getElem?_inj_of_nodup _ hFn j2 j v hj2 hj]
      · exact absurd hvF hnF
    · rw [r1, List.getElem?_append_right (by simp), List.getElem?_map, List.length_map,
        Nat.add_sub_cancel_left, hj]
      rfl

theorem buildBlocks_references_witness :
    plusLoop interleavedDocument.fragments.length
        (sortedEdges (collectComponents exampleShifts interleavedDocument))
        interleavedDocument.pluses 0
        ⟨collectComponents exampleShifts interleavedDocument, [], 0, []⟩
      = some interleavedLoopState
    ∧ finalizeBlocks interleavedLoopState = interleavedBuilt
    ∧ buildBlocks exampleShifts interleavedDocument = some interleavedBuilt
    ∧ interleavedBuilt._component_summ_blocks
        = interleavedLoopState._component_summ_blocks_list.map Prod.snd
          ++ (unassignedFrom interleavedLoopState._reaction_components 0
                interleavedDocument.fragments.length).map
              (singletonBlock interleavedLoopState._reaction_components)
    ∧ (∀ (v k : Nat) (rc : ReactionComponent) (csb : MolSumm),
        interleavedBuilt._reaction_components[v]? = some rc →
        interleavedBuilt._component_summ_blocks[k]? = some csb →
        (rc.summ_block_idx = SummBlockIdx.idx k ↔ v ∈ csb.indexes)) := by
  have hw := buildBlocks_references exampleShifts interleavedDocument interleavedLoopState
    (by decide)
  have hf : finalizeBlocks interleavedLoopState = interleavedBuilt := by decide
  rw [hf] at hw
  exact ⟨by decide, hf, hw.1, hw.2.1, hw.2.2.1⟩
end Indigo
